import Mathlib

/-!
# OPHD tile map: a shallow embedding of `OPHD/Map/TileMap.cpp`

The definitions below follow the C++ source function by function.  Stateful
member functions become functions on an explicit `TileMap` record, a C++
exception becomes the `Except.error` result, and `int` values are `Int`.
-/

namespace OPHD

/-! ## Geometry (NAS2D value types) -/

/-- The value type `NAS2D::Point<int>`. -/
structure Point where
  x : Int
  y : Int
deriving DecidableEq

/-- The value type `NAS2D::Vector<int>`. -/
structure Vector where
  x : Int
  y : Int
deriving DecidableEq

/-- The operator `Point + Vector` of NAS2D. -/
def Point.add (p : Point) (v : Vector) : Point := ⟨p.x + v.x, p.y + v.y⟩

/-- The value type `NAS2D::Rectangle<int>`: start point and size. -/
structure Rectangle where
  x : Int
  y : Int
  width : Int
  height : Int
deriving DecidableEq

/-- Modelled from the spec: `NAS2D::Rectangle::contains` belongs to the NAS2D
library, which is not part of the source tree.  The spec gives the grid as
the half-open range `[0,width) × [0,height)`, so the start edge is inclusive
and the far edge exclusive. -/
def Rectangle.contains (r : Rectangle) (p : Point) : Bool :=
  decide (r.x ≤ p.x) && decide (p.x < r.x + r.width) &&
  decide (r.y ≤ p.y) && decide (p.y < r.y + r.height)

/-! ## Tile and Mine -/

/-- The enumeration `MineProductionRate` (yield tier of a mine). -/
inductive MineProductionRate where
  | Low
  | Medium
  | High
deriving DecidableEq

/-- The enumeration `Planet::Hostility`. -/
inductive Hostility where
  | None
  | Low
  | Medium
  | High
deriving DecidableEq

/-- Modelled from the spec: the class `Mine` is declared outside the source
tree.  A mine carries its yield tier and its own depletion state (digging
depth and active flag, the two members `TileMap::deserialize` reads). -/
structure Mine where
  productionRate : MineProductionRate
  depth : Int
  active : Bool
deriving DecidableEq

/-- Modelled from the spec: the constructor `Mine(rate)` of the absent class:
a new mine of the given yield tier, not yet dug and not active. -/
def Mine.new (rate : MineProductionRate) : Mine := ⟨rate, 0, false⟩

/-- Modelled from the spec: `Mine::increaseDepth` of the absent class. -/
def Mine.increaseDepth (m : Mine) : Mine := { m with depth := m.depth + 1 }

/-- The terrain index `TerrainType::TERRAIN_DOZED`; the spec fixes it as the
bulldozed baseline `0` (and `serialize` tests `index() == 0` for it). -/
def TERRAIN_DOZED : Int := 0

/-- Modelled from the spec: the class `Tile` is declared outside the source
tree.  A tile has a position, a depth, a terrain index, an excavated flag, an
optional occupant (`thing`, here an opaque identifier), an optional mine and
the derived connectivity flag. -/
structure Tile where
  position : Point
  depth : Int
  index : Int
  excavated : Bool
  thing : Option Nat
  mine : Option Mine
  connected : Bool
deriving DecidableEq

/-- Modelled from the spec: the default-constructed `Tile` that
`std::vector::resize` creates. -/
def Tile.default : Tile := ⟨⟨0, 0⟩, 0, 0, true, none, none, false⟩

/-- Modelled from the spec: the constructor `Tile{position, depth, index}`.
A new tile is excavated (the surface is pre-excavated; `buildTerrainMap`
clears the flag below the surface), unoccupied and without a mine. -/
def Tile.new (position : Point) (depth : Int) (index : Int) : Tile :=
  ⟨position, depth, index, true, none, none, false⟩

/-- Modelled from the spec: `Tile::hasMine`, true when a mine is attached. -/
def Tile.hasMine (t : Tile) : Bool := t.mine.isSome

/-- Modelled from the spec: `Tile::empty`, true when there is no occupant. -/
def Tile.empty (t : Tile) : Bool := t.thing.isNone

/-- Modelled from the spec: `Tile::pushMine`, replaces the attached mine
(`nullptr` is `none`). -/
def Tile.pushMine (t : Tile) (m : Option Mine) : Tile := { t with mine := m }

/-- Modelled from the spec: the setter `Tile::index(TerrainType)`. -/
def Tile.setIndex (t : Tile) (i : Int) : Tile := { t with index := i }

/-- Modelled from the spec: the setter `Tile::excavated(bool)`. -/
def Tile.setExcavated (t : Tile) (b : Bool) : Tile := { t with excavated := b }

/-- The constant `MAP_WIDTH`. -/
def MAP_WIDTH : Int := 300

/-- The constant `MAP_HEIGHT`. -/
def MAP_HEIGHT : Int := 150

/-! ## Grid storage -/

/-- Errors raised by the tile map.  `outOfBounds` is the `std::runtime_error`
thrown by `getTile`; `mapFileMissing` the one thrown by `buildTerrainMap`;
`keyNotFound` the `std::out_of_range` of `std::map::at`; `mouseMapMissing` and
`mouseMapDimensions` the two `std::runtime_error`s thrown by `buildMouseMap`.
The other three stand for undefined behaviour in C++: `badStorage` for
indexing a vector or array outside its extent, `nullPointer` for
dereferencing a null pointer and `eraseEnd` for `erase(end())`. -/
inductive Error where
  | outOfBounds (position : Point) (level : Int)
  | mapFileMissing
  | keyNotFound
  | badStorage
  | nullPointer
  | eraseEnd
  | mouseMapMissing
  | mouseMapDimensions
deriving DecidableEq

/-- The alias `TileArray`: tiles indexed `[level][row][column]`. -/
abbrev TileArray := List (List (List Tile))

/-- Apply `f` to the element at index `i` of a list (in-place update of a
vector element); a list that is too short is left as it is. -/
def modifyAt {α : Type} (f : α → α) : List α → Nat → List α
  | [], _ => []
  | a :: as, 0 => f a :: as
  | a :: as, i + 1 => a :: modifyAt f as i

/-- The element `mTileMap[level][y][x]`, when it is allocated. -/
def TileArray.at? (g : TileArray) (level y x : Nat) : Option Tile :=
  match g[level]? with
  | none => none
  | some rows =>
    match rows[y]? with
    | none => none
    | some row => row[x]?

/-- In-place update of `mTileMap[level][y][x]`. -/
def TileArray.modify (g : TileArray) (level y x : Nat) (f : Tile → Tile) : TileArray :=
  modifyAt (fun rows => modifyAt (fun row => modifyAt f row x) rows y) g level

/-- The enumeration `TileMap::MouseMapRegion`. -/
inductive MouseMapRegion where
  | MMR_MIDDLE
  | MMR_TOP_RIGHT
  | MMR_TOP_LEFT
  | MMR_BOTTOM_RIGHT
  | MMR_BOTTOM_LEFT
deriving DecidableEq

/-- A `Tile*` into the tile storage (the `void*` node handles of the path
finder): the address of the tile stored at `[level][position.y][position.x]`. -/
structure TilePtr where
  position : Point
  level : Int
deriving DecidableEq

/-- The members of `TileMap` that the map logic reads and writes, together
with the file-level variable `TRANSFORM`.  `mMouseMap` is indexed
`[row][column]`; a null pointer in `mPathStartEndPair` is `none`. -/
structure TileMap where
  mSizeInTiles : Vector
  mMaxDepth : Int
  mTileMap : TileArray
  mMineLocations : List Point
  mCurrentDepth : Int
  mMapViewLocation : Point
  mEdgeLength : Int
  mMapHighlight : Point := ⟨0, 0⟩
  mMousePosition : Point := ⟨0, 0⟩
  mMapPosition : Point := ⟨0, 0⟩
  mMapBoundingBox : Rectangle := ⟨0, 0, 0, 0⟩
  TRANSFORM : Point := ⟨0, 0⟩
  mMouseMap : List (List MouseMapRegion) := []
  mPathStartEndPair : Option TilePtr × Option TilePtr := (none, none)

/-- The check `TileMap::isValidPosition`. -/
def TileMap.isValidPosition (tm : TileMap) (position : Point) (level : Int) : Bool :=
  (Rectangle.mk 0 0 tm.mSizeInTiles.x tm.mSizeInTiles.y).contains position &&
    decide (level ≥ 0) && decide (level ≤ tm.mMaxDepth)

/-- The accessor `TileMap::getTile`: throws when the position is not valid,
otherwise yields `mTileMap[level][position.y][position.x]`. -/
def TileMap.getTile (tm : TileMap) (position : Point) (level : Int) : Except Error Tile :=
  if !tm.isValidPosition position level then
    .error (.outOfBounds position level)
  else
    match tm.mTileMap.at? level.toNat position.y.toNat position.x.toNat with
    | some t => .ok t
    | none => .error .badStorage

/-- A write through the pointer returned by `getTile`:
`*getTile(position, level) = f(*getTile(position, level))`. -/
def TileMap.updateTile (tm : TileMap) (position : Point) (level : Int) (f : Tile → Tile) :
    Except Error TileMap :=
  match tm.getTile position level with
  | .error e => .error e
  | .ok _ =>
    .ok { tm with
      mTileMap := tm.mTileMap.modify level.toNat position.y.toNat position.x.toNat f }

/-- A counted loop `for (i = start; i < start + count; ++i) body(i)` whose body
may throw. -/
def forRange {σ : Type} (body : Nat → σ → Except Error σ) : Nat → Nat → σ → Except Error σ
  | _, 0, s => .ok s
  | i, k + 1, s =>
    match body i s with
    | .error e => .error e
    | .ok s' => forRange body (i + 1) k s'

/-! ## Terrain builder -/

/-- The allocation part of `buildTerrainMap`: the three nested `resize`
calls on the (empty) `mTileMap`. -/
def resizeTileMap (levelCount height width : Nat) : TileArray :=
  List.replicate levelCount (List.replicate height (List.replicate width Tile.default))

/-- The body of the innermost loop of `buildTerrainMap`; `heightmap` gives the
red channel of `heightmap.pixelColor`. -/
def buildTerrainMap.cell (heightmap : Point → Nat) (depth row col : Int) (tm : TileMap) :
    Except Error TileMap :=
  let red := heightmap ⟨col, row⟩
  tm.updateTile ⟨col, row⟩ depth fun _ =>
    let tile := Tile.new ⟨col, row⟩ depth (Int.ofNat red / 50)
    if depth > 0 then tile.setExcavated false else tile

/-- The method `TileMap::buildTerrainMap`.  `heightmap` is `none` when the map
file does not exist.  The level count is `mMaxDepth + 1`. -/
def TileMap.buildTerrainMap (tm : TileMap) (heightmap : Option (Point → Nat)) :
    Except Error TileMap :=
  match heightmap with
  | none => .error .mapFileMissing
  | some hm =>
    let levelCount := (tm.mMaxDepth + 1).toNat
    let tm1 : TileMap :=
      { tm with mTileMap :=
          resizeTileMap levelCount tm.mSizeInTiles.y.toNat tm.mSizeInTiles.x.toNat }
    forRange (fun depth =>
      forRange (fun row =>
        forRange (fun col => buildTerrainMap.cell hm depth row col)
          0 tm1.mSizeInTiles.x.toNat)
        0 tm1.mSizeInTiles.y.toNat)
      0 (tm1.mMaxDepth + 1).toNat tm1

/-- The state of a `TileMap` object when its constructor body starts: the
size and depth limit are set, the tile storage and the mine list are empty.
The constructor passes `MAP_WIDTH` and `MAP_HEIGHT` for the size. -/
def TileMap.init (width height maxDepth : Int) : TileMap :=
  { mSizeInTiles := ⟨width, height⟩, mMaxDepth := maxDepth, mTileMap := [],
    mMineLocations := [], mCurrentDepth := 0, mMapViewLocation := ⟨0, 0⟩, mEdgeLength := 3 }

/-- The storage invariant: every valid grid address has an allocated tile. -/
def TileMap.Allocated (tm : TileMap) : Prop :=
  ∀ level y x : Nat, (level : Int) ≤ tm.mMaxDepth → (y : Int) < tm.mSizeInTiles.y →
    (x : Int) < tm.mSizeInTiles.x → (tm.mTileMap.at? level y x).isSome = true

/-- The tile that `buildTerrainMap` stores at column `x`, row `y`, level `l`. -/
def builtTile (hm : Point → Nat) (l y x : Nat) : Tile :=
  let tile := Tile.new ⟨x, y⟩ l (Int.ofNat (hm ⟨x, y⟩) / 50)
  if (l : Int) > 0 then tile.setExcavated false else tile

/-- A map operation `f` that, on every allocated map of size `sz` and depth
limit `D`, succeeds, changes nothing but tile storage, stores `v l y x` at
every address in `S` and leaves every other address as it was. -/
def WritesCells (sz : Vector) (D : Int) (S : Nat → Nat → Nat → Prop)
    (v : Nat → Nat → Nat → Tile) (f : TileMap → Except Error TileMap) : Prop :=
  ∀ tm : TileMap, tm.Allocated → tm.mSizeInTiles = sz → tm.mMaxDepth = D →
    ∃ g : TileArray, f tm = .ok { tm with mTileMap := g } ∧
      (∀ l y x, S l y x → g.at? l y x = some (v l y x)) ∧
      (∀ l y x, ¬ S l y x → g.at? l y x = tm.mTileMap.at? l y x)

/-! ## Mine placement -/

/-- Modelled from the spec: the constant `DirectionScan323` is declared in
`DirectionOffset.h`, outside the source tree.  The spec describes it as the
ring of the eight adjacent positions scanned clockwise; the functions below
take the scan list as the parameter `scan`, and this value is used for
concrete evaluation only. -/
def DirectionScan323 : List Vector :=
  [⟨0, -1⟩, ⟨1, -1⟩, ⟨1, 0⟩, ⟨1, 1⟩, ⟨0, 1⟩, ⟨-1, 1⟩, ⟨-1, 0⟩, ⟨-1, -1⟩]

/-- The `for` loop of `findSurroundingMineLocation`: the first scanned point
whose depth-0 tile satisfies `hasMine()`, if any. -/
def findSurroundingMineLocation.scanLoop (tm : TileMap) (centerPoint : Point) :
    List Vector → Except Error (Option Point)
  | [] => .ok none
  | direction :: rest =>
    let point := centerPoint.add direction
    match tm.getTile point 0 with
    | .error e => .error e
    | .ok t => if t.hasMine then .ok (some point) else scanLoop tm centerPoint rest

/-- The method `TileMap::findSurroundingMineLocation`; `scan` is
`DirectionScan323`. -/
def TileMap.findSurroundingMineLocation (tm : TileMap) (scan : List Vector)
    (centerPoint : Point) : Except Error Point :=
  match tm.getTile centerPoint 0 with
  | .error e => .error e
  | .ok t =>
    if t.hasMine then
      match findSurroundingMineLocation.scanLoop tm centerPoint scan with
      | .error e => .error e
      | .ok (some point) => .ok point
      | .ok none => .ok centerPoint
    else .ok centerPoint

/-- The method `TileMap::addMineSet`.  Its list argument `plist` is
`mMineLocations` at the only call site, so the new location is appended to
that member. -/
def TileMap.addMineSet (tm : TileMap) (scan : List Vector) (suggestedMineLocation : Point)
    (rate : MineProductionRate) : Except Error TileMap :=
  match tm.findSurroundingMineLocation scan suggestedMineLocation with
  | .error e => .error e
  | .ok mineLocation =>
    match tm.updateTile mineLocation 0
        (fun tile => (tile.pushMine (some (Mine.new rate))).setIndex TERRAIN_DOZED) with
    | .error e => .error e
    | .ok tm1 => .ok { tm1 with mMineLocations := tm1.mMineLocations ++ [mineLocation] }

/-- The method `TileMap::removeMineLocation`.  `std::find` yields the first
occurrence; erasing `end()` (point not in the list) is undefined. -/
def TileMap.removeMineLocation (tm : TileMap) (pt : Point) : Except Error TileMap :=
  if pt ∈ tm.mMineLocations then
    TileMap.updateTile { tm with mMineLocations := tm.mMineLocations.erase pt } pt 0
      (fun tile => tile.pushMine none)
  else .error .eraseEnd

/-! ### The `float` arithmetic of the tier split

`int yieldLow = mineCount * table[0]` converts `mineCount` to `float`,
multiplies two `float`s and converts the product back to `int`.  The three
steps are modelled exactly for IEEE-754 binary32 with round-to-nearest-even,
every operation rounded to binary32 (`FLT_EVAL_METHOD` 0), on integers. -/

/-- The number of low bits that do not fit into a 24-bit significand:
`0` when `p < 2^24`, otherwise one more than for `p / 2`. -/
def excessBits : Nat → Nat → Nat
  | 0, _ => 0
  | fuel + 1, p => if p < 2 ^ 24 then 0 else excessBits fuel (p / 2) + 1

/-- Round a natural number to 24 significant bits, to nearest, ties to even
(the binary32 rounding of an exact integer value). -/
def roundSig24 (p : Nat) : Nat :=
  let s := excessBits p p
  let q := p / 2 ^ s
  let r := p % 2 ^ s
  if 2 * r > 2 ^ s ∨ (2 * r = 2 ^ s ∧ q % 2 = 1) then (q + 1) * 2 ^ s else q * 2 ^ s

/-- A positive binary32 constant, `mantissa / 2 ^ scale` with
`mantissa < 2 ^ 24`. -/
structure Float32 where
  mantissa : Nat
  scale : Nat
deriving DecidableEq

/-- The binary32 nearest to the decimal literal `num / den`, for a literal in
`[2^-e, 2^(1-e))`: mantissa `round (num * 2^(23+e) / den)`, scale `23 + e`. -/
def Float32.ofDecimal (num den e : Nat) : Float32 :=
  ⟨(2 * num * 2 ^ (23 + e) + den) / (2 * den), 23 + e⟩

/-- The expression `mineCount * fraction` assigned to an `int`: conversion of
`mineCount` to binary32, binary32 product, truncation toward zero. -/
def Float32.mulTruncate (mineCount : Int) (fraction : Float32) : Int :=
  let count := roundSig24 mineCount.natAbs
  let product := roundSig24 (count * fraction.mantissa)
  Int.sign mineCount * ((product / 2 ^ fraction.scale : Nat) : Int)

/-- The table `HostilityMineYieldTable` (fractions of low, medium and high
yield); `none` is a key that is not in the map.  The literals are
`0.30f, 0.50f, 0.20f`, `0.45f, 0.35f, 0.20f` and `0.35f, 0.20f, 0.45f`. -/
def HostilityMineYieldTable : Hostility → Option (Float32 × Float32 × Float32)
  | .None => none
  | .Low => some (.ofDecimal 30 100 2, .ofDecimal 50 100 1, .ofDecimal 20 100 3)
  | .Medium => some (.ofDecimal 45 100 2, .ofDecimal 35 100 2, .ofDecimal 20 100 3)
  | .High => some (.ofDecimal 35 100 2, .ofDecimal 20 100 3, .ofDecimal 45 100 2)

/-- Lines 175 to 183 of `setupMines`: the numbers of low, medium and high
yield mines to generate, the shortfall already added to the low tier. -/
def mineYieldCounts (mineCount : Int) (hostility : Hostility) : Except Error (Int × Int × Int) :=
  match HostilityMineYieldTable hostility with
  | none => .error .keyNotFound
  | some (fractionLow, fractionMedium, fractionHigh) =>
    let yieldLow := Float32.mulTruncate mineCount fractionLow
    let yieldMedium := Float32.mulTruncate mineCount fractionMedium
    let yieldHigh := Float32.mulTruncate mineCount fractionHigh
    let yieldTotal := yieldLow + yieldMedium + yieldHigh
    let yieldLow := if yieldTotal < mineCount then yieldLow + (mineCount - yieldTotal) else yieldLow
    .ok (yieldLow, yieldMedium, yieldHigh)

/-- The fractions of `HostilityMineYieldTable` as the exact decimals the spec
states them, in percent (low, medium, high): the real-number reading of the
table, to compare the binary32 computation of `mineYieldCounts` with. -/
def yieldPercent : Hostility → Option (Nat × Nat × Nat)
  | .None => none
  | .Low => some (30, 50, 20)
  | .Medium => some (45, 35, 20)
  | .High => some (35, 20, 45)

/-- The lambda `generateMines` of `setupMines`.  `randPoint k` is the point
returned by call number `k` of the `randPoint` lambda, and `drawn` is the
number of calls made before this loop, so iteration `i` uses
`randPoint (drawn + i)`. -/
def setupMines.generateMines (scan : List Vector) (randPoint : Nat → Point) (drawn : Nat)
    (mineCountAtYield : Int) (yield : MineProductionRate) (tm : TileMap) :
    Except Error TileMap :=
  forRange (fun k tm1 => tm1.addMineSet scan (randPoint k) yield) drawn mineCountAtYield.toNat tm

/-- Lines 200 to 202 of `setupMines`: the three `generateMines` calls, for the
low, the medium and the high yield tier in this order. -/
def setupMines.generateAll (scan : List Vector) (randPoint : Nat → Point)
    (yieldLow yieldMedium yieldHigh : Int) (tm : TileMap) : Except Error TileMap :=
  match setupMines.generateMines scan randPoint 0 yieldLow .Low tm with
  | .error e => .error e
  | .ok tm1 =>
    match setupMines.generateMines scan randPoint yieldLow.toNat yieldMedium .Medium tm1 with
    | .error e => .error e
    | .ok tm2 =>
      setupMines.generateMines scan randPoint (yieldLow.toNat + yieldMedium.toNat)
        yieldHigh .High tm2

/-- The method `TileMap::setupMines`; `randPoint` is the stream of points the
random generator produces. -/
def TileMap.setupMines (tm : TileMap) (scan : List Vector) (randPoint : Nat → Point)
    (mineCount : Int) (hostility : Hostility) : Except Error TileMap :=
  if hostility = Hostility.None then .ok tm
  else
    match mineYieldCounts mineCount hostility with
    | .error e => .error e
    | .ok (yieldLow, yieldMedium, yieldHigh) =>
      setupMines.generateAll scan randPoint yieldLow yieldMedium yieldHigh tm

/-- The tier counts as the spec states them for fractions of `low`, `med` and
`high` percent: the floor of `mineCount * fraction` for the medium and the
high tier, and for the low tier the floor plus the whole shortfall
(`mineCount` minus the sum of the three floors). -/
def specTierCounts (mineCount : Int) (low med high : Nat) : Int × Int × Int :=
  let floorLow := mineCount * low / 100
  let floorMedium := mineCount * med / 100
  let floorHigh := mineCount * high / 100
  (floorLow + (mineCount - (floorLow + floorMedium + floorHigh)), floorMedium, floorHigh)

/-- Whether the depth-0 tile at `p` holds a mine (`getTile(p, 0)->hasMine()`);
false when the position is not on the map. -/
def TileMap.mineAt (tm : TileMap) (p : Point) : Bool :=
  match tm.getTile p 0 with
  | .ok t => t.hasMine
  | .error _ => false

/-- The map a `TileMap` constructor call leaves behind when the heightmap is
present and `shouldSetupMines` is false: `buildTerrainMap` run on the initial
object (the build cannot fail then, see `buildTerrainMap_spec`). -/
def TileMap.built (width height maxDepth : Int) (heightmap : Point → Nat) : TileMap :=
  match (TileMap.init width height maxDepth).buildTerrainMap (some heightmap) with
  | .ok tm => tm
  | .error _ => TileMap.init width height maxDepth

/-- A stream of points inside the rectangle the two distributions of
`setupMines` draw from, used for concrete evaluation: point number `k` is
`(5 + k mod 291, 5 + k mod 141)`. -/
def insetDraws (k : Nat) : Point := ⟨5 + (k % 291 : Nat), 5 + (k % 141 : Nat)⟩

/-- The map after a fallible operation, or the given map when it failed. -/
def orKeep (result : Except Error TileMap) (tm : TileMap) : TileMap :=
  match result with
  | .ok tm' => tm'
  | .error _ => tm

/-- A freshly built map of the constructor's size with depth limit 4, over a
uniform heightmap of red value 120 (used for concrete evaluation). -/
@[irreducible]
def exampleMap : TileMap := TileMap.built MAP_WIDTH MAP_HEIGHT 4 (fun _ => 120)

/-- The example map after `addMineSet((10, 10), Low)`. -/
def oneMineMap : TileMap :=
  orKeep (exampleMap.addMineSet DirectionScan323 ⟨10, 10⟩ .Low) exampleMap

/-- The example map after two calls `addMineSet((10, 10), Low)`. -/
def twoMineMap : TileMap :=
  orKeep (oneMineMap.addMineSet DirectionScan323 ⟨10, 10⟩ .Low) oneMineMap

/-- Nine draws that enumerate the 3 by 3 block of points around `(10, 10)`;
draw number 4 is the centre. -/
def blockDraws (k : Nat) : Point := ⟨9 + (k % 3 : Nat), 9 + (k / 3 % 3 : Nat)⟩

/-- The example map after `generateMines(9, Low)` over `blockDraws`: a mine on
`(10, 10)` and on each of its eight neighbours. -/
def blockMineMap : TileMap :=
  orKeep (setupMines.generateMines DirectionScan323 blockDraws 0 9 .Low exampleMap) exampleMap

/-! ## View window and picking -/

/-- The function `std::clamp(v, lo, hi)`. -/
def clamp (v lo hi : Int) : Int := if v < lo then lo else if hi < v then hi else v

/-- The method `TileMap::mapViewLocation(point)`. -/
def TileMap.mapViewLocation (tm : TileMap) (point : Point) : TileMap :=
  { tm with mMapViewLocation :=
      ⟨clamp point.x 0 (tm.mSizeInTiles.x - tm.mEdgeLength),
       clamp point.y 0 (tm.mSizeInTiles.y - tm.mEdgeLength)⟩ }

/-- Modelled from the spec: the setter `TileMap::currentDepth(int)` is defined
in `TileMap.h`, outside the source tree.  The spec keeps the current depth in
`0..maxDepth`, so the setter clamps to that range. -/
def TileMap.currentDepth (tm : TileMap) (depth : Int) : TileMap :=
  { tm with mCurrentDepth := clamp depth 0 tm.mMaxDepth }

/-- The constant `TILE_WIDTH`. -/
def TILE_WIDTH : Int := 128

/-- The constant `TILE_HEIGHT`. -/
def TILE_HEIGHT : Int := 64

/-- The constant `TILE_HALF_WIDTH`, `TILE_WIDTH / 2`. -/
def TILE_HALF_WIDTH : Int := Int.tdiv TILE_WIDTH 2

/-- The constant `TILE_HEIGHT_OFFSET`. -/
def TILE_HEIGHT_OFFSET : Int := 9

/-- The constant `TILE_HEIGHT_ABSOLUTE`, `TILE_HEIGHT - TILE_HEIGHT_OFFSET`. -/
def TILE_HEIGHT_ABSOLUTE : Int := TILE_HEIGHT - TILE_HEIGHT_OFFSET

/-- The constant `TILE_HEIGHT_HALF_ABSOLUTE`, `TILE_HEIGHT_ABSOLUTE / 2`. -/
def TILE_HEIGHT_HALF_ABSOLUTE : Int := Int.tdiv TILE_HEIGHT_ABSOLUTE 2

/-- The method `TileMap::initMapDrawParams(size)`.  C++ `int` division
truncates toward zero (`Int.tdiv`).  `BOTTOM_UI_HEIGHT` is
`constants::BOTTOM_UI_HEIGHT`, declared in `Constants.h` outside the source
tree and taken as a parameter. -/
def TileMap.initMapDrawParams (tm : TileMap) (BOTTOM_UI_HEIGHT : Int) (size : Vector) : TileMap :=
  let lengthX := Int.tdiv size.x TILE_WIDTH
  let lengthY := Int.tdiv size.y TILE_HEIGHT_ABSOLUTE
  let edgeLength := max 3 (min lengthX lengthY)
  let mapPosition : Point :=
    ⟨Int.tdiv (size.x - TILE_WIDTH) 2,
     Int.tdiv (size.y - BOTTOM_UI_HEIGHT - edgeLength * TILE_HEIGHT_ABSOLUTE) 2⟩
  let mapBoundingBox : Rectangle :=
    ⟨Int.tdiv (size.x - TILE_WIDTH * edgeLength) 2, mapPosition.y, TILE_WIDTH * edgeLength,
     TILE_HEIGHT_ABSOLUTE * edgeLength⟩
  let transform := Int.tdiv (mapPosition.x - mapBoundingBox.x) TILE_WIDTH
  { tm with
    mEdgeLength := edgeLength
    mMapPosition := mapPosition
    mMapBoundingBox := mapBoundingBox
    TRANSFORM := ⟨-transform, transform⟩ }

/-- The method `TileMap::tileHighlightVisible`; `Rectangle::Create(p, size)` is
the rectangle with start point `p` and the given size. -/
def TileMap.tileHighlightVisible (tm : TileMap) : Bool :=
  (Rectangle.mk tm.mMapViewLocation.x tm.mMapViewLocation.y (tm.mEdgeLength - 1)
    (tm.mEdgeLength - 1)).contains tm.mMapHighlight

/-- The method `TileMap::isVisibleTile(position, z)`. -/
def TileMap.isVisibleTile (tm : TileMap) (position : Point) (z : Int) : Bool :=
  if !(Rectangle.mk tm.mMapViewLocation.x tm.mMapViewLocation.y (tm.mEdgeLength - 1)
      (tm.mEdgeLength - 1)).contains position then false
  else if z ≠ tm.mCurrentDepth then false
  else true

/-- The tile positions the two loops of `TileMap::draw` read (lines 332 to
336), row by row: `mMapViewLocation + (col, row)` for `row, col < mEdgeLength`. -/
def draw.tilePositions (tm : TileMap) : List Point :=
  ((List.range tm.mEdgeLength.toNat).map fun (row : Nat) =>
    (List.range tm.mEdgeLength.toNat).map fun (col : Nat) =>
      tm.mMapViewLocation.add ⟨(col : Int), (row : Int)⟩).flatten

/-- The screen position at which `TileMap::draw` places the tile at window
offset `(col, row)` (line 340). -/
def draw.tileScreenPosition (tm : TileMap) (col row : Int) : Point :=
  tm.mMapPosition.add ⟨(col - row) * TILE_HALF_WIDTH, (col + row) * TILE_HEIGHT_HALF_ABSOLUTE⟩

/-- The method `TileMap::getMouseMapRegion(x, y)`: `mMouseMap[y][x]` after
conversion of both coordinates to `std::size_t`; an index outside the table
is undefined behaviour. -/
def TileMap.getMouseMapRegion (tm : TileMap) (x y : Int) : Except Error MouseMapRegion :=
  if x < 0 ∨ y < 0 then .error .badStorage
  else
    match tm.mMouseMap[y.toNat]? with
    | none => .error .badStorage
    | some row =>
      match row[x.toNat]? with
      | none => .error .badStorage
      | some region => .ok region

/-- The method `TileMap::updateTileHighlight`.  C++ `/` and `%` on `int`
truncate toward zero (`Int.tdiv`, `Int.tmod`). -/
def TileMap.updateTileHighlight (tm : TileMap) : Except Error TileMap :=
  if !tm.mMapBoundingBox.contains tm.mMousePosition then .ok tm
  else
    let even_edge_length_adjust : Int :=
      if Int.tmod tm.mEdgeLength 2 = 0 then TILE_HALF_WIDTH else 0
    let offsetX :=
      Int.tdiv (tm.mMousePosition.x - tm.mMapBoundingBox.x - even_edge_length_adjust) TILE_WIDTH
    let offsetY := Int.tdiv (tm.mMousePosition.y - tm.mMapBoundingBox.y) TILE_HEIGHT_ABSOLUTE
    let highlightOffset : Vector :=
      ⟨tm.TRANSFORM.x + offsetY + offsetX, tm.TRANSFORM.y + offsetY - offsetX⟩
    let mmOffsetX :=
      clamp (Int.tmod (tm.mMousePosition.x - tm.mMapBoundingBox.x - even_edge_length_adjust)
        TILE_WIDTH) 0 TILE_WIDTH
    let mmOffsetY := Int.tmod (tm.mMousePosition.y - tm.mMapBoundingBox.y) TILE_HEIGHT_ABSOLUTE
    match tm.getMouseMapRegion mmOffsetX mmOffsetY with
    | .error e => .error e
    | .ok mmr =>
      let highlightOffset : Vector :=
        match mmr with
        | .MMR_TOP_RIGHT => ⟨highlightOffset.x, highlightOffset.y - 1⟩
        | .MMR_TOP_LEFT => ⟨highlightOffset.x - 1, highlightOffset.y⟩
        | .MMR_BOTTOM_RIGHT => ⟨highlightOffset.x + 1, highlightOffset.y⟩
        | .MMR_BOTTOM_LEFT => ⟨highlightOffset.x, highlightOffset.y + 1⟩
        | .MMR_MIDDLE => highlightOffset
      .ok { tm with mMapHighlight := tm.mMapViewLocation.add highlightOffset }

/-! ## Path finding adapter -/

/-- Modelled from the spec: the constant `DirectionClockwise4` is declared in
`DirectionOffset.h`, outside the source tree.  The spec gives the four
orthogonal neighbours in the order north, east, south, west. -/
def DirectionClockwise4 : List Vector := [⟨0, -1⟩, ⟨1, 0⟩, ⟨0, 1⟩, ⟨-1, 0⟩]

/-- A `float` cost of the path finder: `FLT_MAX`, or a finite value counted in
units of the last place of `ROUTE_BASE_COST` (`units * 2 ^ (-scale)` for
`ROUTE_BASE_COST = mantissa * 2 ^ (-scale)`). -/
inductive RouteCost where
  | fltMax
  | finite (units : Int)
deriving DecidableEq

/-- The binary32 value of an integer (`static_cast<float>(i)`, and the
rounding of an integer-valued sum): the integer rounded to 24 significant
bits. -/
def Float32.roundInt (i : Int) : Int := Int.sign i * (roundSig24 i.natAbs : Int)

/-- The statement `cost *= static_cast<float>(index) + 1.0f` for
`cost = ROUTE_BASE_COST`: conversion of the index, binary32 sum with `1.0f`,
binary32 product; the result in units of the last place of `ROUTE_BASE_COST`. -/
def Float32.routeCost (ROUTE_BASE_COST : Float32) (index : Int) : Int :=
  let factor := Float32.roundInt (Float32.roundInt index + 1)
  Int.sign factor * (roundSig24 (ROUTE_BASE_COST.mantissa * factor.natAbs) : Int)

/-- The struct `micropather::StateCost`: a node handle and the cost to enter
it. -/
structure StateCost where
  state : TilePtr
  cost : RouteCost
deriving DecidableEq

/-- The body of the loop of `TileMap::AdjacentCost` for one offset.
`ROUTE_BASE_COST` (`Constants.h`) and `TERRAIN_IMPASSABLE` (the `TerrainType`
enumeration) are declared outside the source tree and taken as parameters.
The pointer `adjacent_tile` is the address `(position, 0)`. -/
def AdjacentCost.step (tm : TileMap) (ROUTE_BASE_COST : Float32) (TERRAIN_IMPASSABLE : Int)
    (tilePosition : Point) (offset : Vector) (adjacent : List StateCost) :
    Except Error (List StateCost) :=
  let position := tilePosition.add offset
  if !(Rectangle.mk 0 0 tm.mSizeInTiles.x tm.mSizeInTiles.y).contains position then
    .ok adjacent
  else
    match tm.getTile position 0 with
    | .error e => .error e
    | .ok adjacent_tile =>
      let ptr : TilePtr := ⟨position, 0⟩
      let cost : RouteCost :=
        if adjacent_tile.index = TERRAIN_IMPASSABLE then .fltMax
        else if !adjacent_tile.empty then
          if some ptr = tm.mPathStartEndPair.1 ∨ some ptr = tm.mPathStartEndPair.2 then
            .finite (Float32.routeCost ROUTE_BASE_COST adjacent_tile.index)
          else .fltMax
        else .finite (Float32.routeCost ROUTE_BASE_COST adjacent_tile.index)
      .ok (adjacent ++ [⟨ptr, cost⟩])

/-- The loop of `TileMap::AdjacentCost` over the offsets. -/
def AdjacentCost.loop (tm : TileMap) (ROUTE_BASE_COST : Float32) (TERRAIN_IMPASSABLE : Int)
    (tilePosition : Point) : List Vector → List StateCost → Except Error (List StateCost)
  | [], adjacent => .ok adjacent
  | offset :: rest, adjacent =>
    match AdjacentCost.step tm ROUTE_BASE_COST TERRAIN_IMPASSABLE tilePosition offset adjacent with
    | .error e => .error e
    | .ok adjacent1 =>
      AdjacentCost.loop tm ROUTE_BASE_COST TERRAIN_IMPASSABLE tilePosition rest adjacent1

/-- The method `TileMap::AdjacentCost(state, adjacent)`; `directions` is
`DirectionClockwise4`.  `state` is dereferenced to read the tile's position
(a pointer that is not a tile of the map is undefined behaviour). -/
def TileMap.AdjacentCost (tm : TileMap) (ROUTE_BASE_COST : Float32) (TERRAIN_IMPASSABLE : Int)
    (directions : List Vector) (state : TilePtr) (adjacent : List StateCost) :
    Except Error (List StateCost) :=
  match tm.getTile state.position state.level with
  | .error _ => .error .nullPointer
  | .ok tile =>
    AdjacentCost.loop tm ROUTE_BASE_COST TERRAIN_IMPASSABLE tile.position directions adjacent

/-! ## Serialization -/

/-- A `mine` element of the save document: the attributes `x` and `y` and the
fields written by `Mine::serialize` (modelled from the spec as the mine's own
state, since the class `Mine` is outside the source tree). -/
structure MineElement where
  x : Int
  y : Int
  mine : Mine
deriving DecidableEq

/-- A `tile` element of the save document, as written by `serializeTile`. -/
structure TileElement where
  x : Int
  y : Int
  depth : Int
  index : Int
deriving DecidableEq

/-- The `view_parameters` element of the save document. -/
structure ViewParameters where
  currentdepth : Int
  viewlocation_x : Int
  viewlocation_y : Int
deriving DecidableEq

/-- The children of the document element that `TileMap` writes and reads;
`none` is a child element that is absent (`firstChildElement` returns a null
pointer).  The write-only `properties` element is left out. -/
structure MapDocument where
  view_parameters : Option ViewParameters
  mines : Option (List MineElement)
  tiles : Option (List TileElement)
deriving DecidableEq

/-- The mines loop of `TileMap::serialize` (lines 472 to 479): one element per
listed location, dereferencing the `mine()` pointer of its depth-0 tile. -/
def serialize.mines (tm : TileMap) : List Point → Except Error (List MineElement)
  | [] => .ok []
  | location :: rest =>
    match tm.getTile location 0 with
    | .error e => .error e
    | .ok tile =>
      match tile.mine with
      | none => .error .nullPointer
      | some m =>
        match serialize.mines tm rest with
        | .error e => .error e
        | .ok elements => .ok (⟨location.x, location.y, m⟩ :: elements)

/-- The body of the innermost tiles loop of `TileMap::serialize`
(lines 497 to 505). -/
def serialize.tile (tm : TileMap) (depth y x : Int) (tiles : List TileElement) :
    Except Error (List TileElement) :=
  match tm.getTile ⟨x, y⟩ depth with
  | .error e => .error e
  | .ok tile =>
    if decide (depth > 0) && tile.excavated && tile.empty && tile.mine.isNone then
      .ok (tiles ++ [⟨x, y, depth, tile.index⟩])
    else if decide (tile.index = 0) && tile.empty && tile.mine.isNone then
      .ok (tiles ++ [⟨x, y, depth, tile.index⟩])
    else .ok tiles

/-- The tiles loops of `TileMap::serialize` (lines 491 to 508). -/
def serialize.tiles (tm : TileMap) : Except Error (List TileElement) :=
  forRange (fun depth =>
    forRange (fun y =>
      forRange (fun x => serialize.tile tm depth y x) 0 tm.mSizeInTiles.x.toNat)
      0 tm.mSizeInTiles.y.toNat)
    0 (tm.mMaxDepth + 1).toNat []

/-- The method `TileMap::serialize`, without the descriptive `properties`
element. -/
def TileMap.serialize (tm : TileMap) : Except Error MapDocument :=
  match serialize.mines tm tm.mMineLocations with
  | .error e => .error e
  | .ok mines =>
    match serialize.tiles tm with
    | .error e => .error e
    | .ok tiles =>
      .ok ⟨some ⟨tm.mCurrentDepth, tm.mMapViewLocation.x, tm.mMapViewLocation.y⟩,
        some mines, some tiles⟩

/-- The mines loop of `TileMap::deserialize` (lines 528 to 551). -/
def deserialize.mines : List MineElement → TileMap → Except Error TileMap
  | [], tm => .ok tm
  | element :: rest, tm =>
    let m := element.mine
    let m := if m.depth = 0 ∧ m.active = true then m.increaseDepth else m
    match tm.updateTile ⟨element.x, element.y⟩ 0
        (fun tile => (tile.pushMine (some m)).setIndex TERRAIN_DOZED) with
    | .error e => .error e
    | .ok tm1 =>
      deserialize.mines rest
        { tm1 with mMineLocations := tm1.mMineLocations ++ [⟨element.x, element.y⟩] }

/-- The tiles loop of `TileMap::deserialize` (lines 554 to 573). -/
def deserialize.tiles : List TileElement → TileMap → Except Error TileMap
  | [], tm => .ok tm
  | element :: rest, tm =>
    match tm.updateTile ⟨element.x, element.y⟩ element.depth
        (fun tile =>
          let tile := tile.setIndex element.index
          if element.depth > 0 then tile.setExcavated true else tile) with
    | .error e => .error e
    | .ok tm1 => deserialize.tiles rest tm1

/-- The method `TileMap::deserialize`.  A missing child element makes the
source dereference a null pointer. -/
def TileMap.deserialize (tm : TileMap) (element : MapDocument) : Except Error TileMap :=
  match element.view_parameters with
  | none => .error .nullPointer
  | some view =>
    let tm1 := (tm.mapViewLocation ⟨view.viewlocation_x, view.viewlocation_y⟩).currentDepth
      view.currentdepth
    match element.mines with
    | none => .error .nullPointer
    | some mines =>
      match deserialize.mines mines tm1 with
      | .error e => .error e
      | .ok tm2 =>
        match element.tiles with
        | none => .error .nullPointer
        | some tiles => deserialize.tiles tiles tm2

/-- What the body of the tiles loop of `serialize` appends for the tile stored
at `[depth][y][x]`: one `tile` element when one of the two conditions of
lines 498 and 502 holds, nothing otherwise. -/
def serialize.written (tm : TileMap) (depth y x : Nat) : List TileElement :=
  match tm.mTileMap.at? depth y x with
  | none => []
  | some tile =>
    if decide ((depth : Int) > 0) && tile.excavated && tile.empty && tile.mine.isNone then
      [⟨x, y, depth, tile.index⟩]
    else if decide (tile.index = 0) && tile.empty && tile.mine.isNone then
      [⟨x, y, depth, tile.index⟩]
    else []

/-- The elements of `serialize.written` for every grid address, in the order
of the three nested loops of `serialize` (depth, then row, then column). -/
def serialize.allWritten (tm : TileMap) : List TileElement :=
  ((List.range' 0 (tm.mMaxDepth + 1).toNat).map fun d =>
    ((List.range' 0 tm.mSizeInTiles.y.toNat).map fun y =>
      ((List.range' 0 tm.mSizeInTiles.x.toNat).map fun x =>
        serialize.written tm d y x).flatten).flatten).flatten

/-- The sparse tile rule as the spec states it: the tile is empty, has no
mine, and is either underground and excavated or has terrain index 0. -/
def sparseRule (depth : Int) (t : Tile) : Bool :=
  t.empty && t.mine.isNone && ((decide (depth > 0) && t.excavated) || decide (t.index = 0))

/-- The order of the three nested loops of `serialize` on tile elements:
depth first, then row `y`, then column `x`. -/
def TileElement.before (a b : TileElement) : Prop :=
  a.depth < b.depth ∨ (a.depth = b.depth ∧ (a.y < b.y ∨ (a.y = b.y ∧ a.x < b.x)))

/-- The excavated flag of the tile at `position` and `level`
(`getTile(position, level)->excavated()`); false off the map. -/
def TileMap.excavatedAt (tm : TileMap) (position : Point) (level : Int) : Bool :=
  match tm.getTile position level with
  | .ok t => t.excavated
  | .error _ => false

/-- A heightmap that is dark (red value 10) at pixel `(10, 10)` and mid-grey
(red value 120) elsewhere, used for concrete evaluation. -/
def darkSpotHeightmap (p : Point) : Nat := if p = ⟨10, 10⟩ then 10 else 120

/-- A freshly built map of the constructor's size with depth limit 4 over
`darkSpotHeightmap`. -/
@[irreducible]
def darkSpotMap : TileMap := TileMap.built MAP_WIDTH MAP_HEIGHT 4 darkSpotHeightmap

/-- Whether an error of the model is one the C++ code reports (a thrown
exception); the other markers stand for undefined behaviour, where nothing is
reported. -/
def Error.reported : Error → Bool
  | .outOfBounds _ _ => true
  | .mapFileMissing => true
  | .keyNotFound => true
  | .badStorage => false
  | .nullPointer => false
  | .eraseEnd => false
  | .mouseMapMissing => true
  | .mouseMapDimensions => true

/-- What the body of the loop of `AdjacentCost` appends for the neighbour
position `position`: nothing when the position is outside the grid rectangle,
otherwise one entry for the depth-0 tile there with the cost of lines 630 to
650. -/
def AdjacentCost.pushed (tm : TileMap) (ROUTE_BASE_COST : Float32) (TERRAIN_IMPASSABLE : Int)
    (position : Point) : List StateCost :=
  if !(Rectangle.mk 0 0 tm.mSizeInTiles.x tm.mSizeInTiles.y).contains position then []
  else
    match tm.getTile position 0 with
    | .error _ => []
    | .ok adjacent_tile =>
      [⟨⟨position, 0⟩,
        if adjacent_tile.index = TERRAIN_IMPASSABLE then .fltMax
        else if !adjacent_tile.empty then
          if some (⟨position, 0⟩ : TilePtr) = tm.mPathStartEndPair.1 ∨
              some (⟨position, 0⟩ : TilePtr) = tm.mPathStartEndPair.2 then
            .finite (Float32.routeCost ROUTE_BASE_COST adjacent_tile.index)
          else .fltMax
        else .finite (Float32.routeCost ROUTE_BASE_COST adjacent_tile.index)⟩]

/-- The cost rule as the spec states it, for a neighbour tile `n` with node
handle `ptr`: `FLT_MAX` for impassable terrain; for an occupied tile `FLT_MAX`
unless it is the start or the end tile; `ROUTE_BASE_COST * (index + 1)` in
every other case. -/
def specAdjacentCost (ROUTE_BASE_COST : Float32) (TERRAIN_IMPASSABLE : Int)
    (start finish : Option TilePtr) (ptr : TilePtr) (n : Tile) : RouteCost :=
  if n.index = TERRAIN_IMPASSABLE then .fltMax
  else if n.empty = false ∧ ¬ (some ptr = start ∨ some ptr = finish) then .fltMax
  else .finite (Float32.routeCost ROUTE_BASE_COST n.index)

/-- Whether a position lies inside `[0, width) x [0, height)`. -/
def TileMap.inGrid (tm : TileMap) (q : Point) : Bool :=
  decide (0 ≤ q.x ∧ q.x < tm.mSizeInTiles.x ∧ 0 ≤ q.y ∧ q.y < tm.mSizeInTiles.y)

/-- A one-row map of three unoccupied surface tiles with terrain indices
8390656, 0 and 8390657, used for concrete evaluation of the route cost. -/
def ridgeMap : TileMap :=
  { TileMap.init 3 1 0 with
    mTileMap := [[[Tile.new ⟨0, 0⟩ 0 8390656, Tile.new ⟨1, 0⟩ 0 0, Tile.new ⟨2, 0⟩ 0 8390657]]] }

/-- Modelled from the spec: the setter `TileMap::injectMouse(x, y)` is defined
in `TileMap.h`, outside the source tree; it stores the pointer position that
`updateTileHighlight` reads. -/
def TileMap.injectMouse (tm : TileMap) (x y : Int) : TileMap :=
  { tm with mMousePosition := ⟨x, y⟩ }

/-- A mouse map of 55 rows and 128 columns whose rows above the centre row 27
are the top-left region and whose other rows are the middle region, used for
concrete evaluation. -/
def skewedMouseMap : List (List MouseMapRegion) :=
  (List.range 55).map fun (row : Nat) =>
    (List.range 128).map fun (_ : Nat) =>
      if row < 27 then MouseMapRegion.MMR_TOP_LEFT else MouseMapRegion.MMR_MIDDLE

/-- The constructor's map state with `skewedMouseMap` as its mouse map. -/
def pickingMap : TileMap := { TileMap.init 300 150 4 with mMouseMap := skewedMouseMap }

/-- Modelled from the spec: `Tile::distanceTo` is declared in `Tile.h`,
outside the source tree.  The spec gives the heuristic as the Euclidean planar
distance between the two grid positions; the model keeps its square,
`dx^2 + dy^2`, so that comparisons with a cost stay exact. -/
def Tile.distanceToSquared (a b : Tile) : Int :=
  (b.position.x - a.position.x) ^ 2 + (b.position.y - a.position.y) ^ 2

/-- The square of `TileMap::LeastCostEstimate(stateStart, stateEnd)`, which
returns `stateStart->distanceTo(stateEnd)`; a handle that is not a tile of the
map is undefined behaviour. -/
def TileMap.LeastCostEstimateSquared (tm : TileMap) (stateStart stateEnd : TilePtr) :
    Except Error Int :=
  match tm.getTile stateStart.position stateStart.level,
      tm.getTile stateEnd.position stateEnd.level with
  | .ok a, .ok b => .ok (a.distanceToSquared b)
  | _, _ => .error .nullPointer

/-- Sum of two costs; `FLT_MAX` marks a step that cannot be taken and absorbs
the sum. -/
def RouteCost.add : RouteCost → RouteCost → RouteCost
  | .finite a, .finite b => .finite (a + b)
  | _, _ => .fltMax

/-- The cost `AdjacentCost` reports for the step from `state` to `next`: the
cost of the first entry for `next` in the list it produces for `state`; `none`
when there is no such entry. -/
def TileMap.stepCost (tm : TileMap) (ROUTE_BASE_COST : Float32) (TERRAIN_IMPASSABLE : Int)
    (directions : List Vector) (state next : TilePtr) : Option RouteCost :=
  match tm.AdjacentCost ROUTE_BASE_COST TERRAIN_IMPASSABLE directions state [] with
  | .error _ => none
  | .ok adjacent =>
    match adjacent.find? (fun sc => decide (sc.state = next)) with
    | none => none
    | some sc => some sc.cost

/-- The total cost of a path given as the list of its nodes: the sum of the
step costs `AdjacentCost` reports; `none` when two consecutive nodes are not
joined by a step. -/
def TileMap.pathCost (tm : TileMap) (ROUTE_BASE_COST : Float32) (TERRAIN_IMPASSABLE : Int)
    (directions : List Vector) : List TilePtr → Option RouteCost
  | [] => some (.finite 0)
  | state :: rest =>
    match rest with
    | [] => some (.finite 0)
    | next :: _ =>
      match tm.stepCost ROUTE_BASE_COST TERRAIN_IMPASSABLE directions state next,
          TileMap.pathCost tm ROUTE_BASE_COST TERRAIN_IMPASSABLE directions rest with
      | some c, some c' => some (c.add c')
      | _, _ => none

/-- Whether a cost given in units of `2 ^ (-scale)` is at least the distance
whose square is `distanceSquared`; `FLT_MAX` is at least every distance. -/
def RouteCost.coversDistance (scale : Nat) (distanceSquared : Int) : RouteCost → Bool
  | .fltMax => true
  | .finite units => decide (0 ≤ units ∧ distanceSquared * 4 ^ scale ≤ units ^ 2)

/-- A one-row map of two unoccupied surface tiles of terrain index 0, used for
concrete evaluation of path costs. -/
def plainMap : TileMap :=
  { TileMap.init 2 1 0 with
    mTileMap := [[[Tile.new ⟨0, 0⟩ 0 0, Tile.new ⟨1, 0⟩ 0 0]]] }

/-- The colours of `NAS2D::Color` that `buildMouseMap` compares the pixels of
the mouse map image with; every other colour is `Other`. -/
inductive MouseMapColor where
  | Yellow
  | Red
  | Blue
  | Green
  | Other
deriving DecidableEq

/-- The classification of one pixel in `TileMap::buildMouseMap` (lines 264 to
268). -/
def buildMouseMap.region (c : MouseMapColor) : MouseMapRegion :=
  if c = .Yellow then .MMR_BOTTOM_RIGHT
  else if c = .Red then .MMR_TOP_LEFT
  else if c = .Blue then .MMR_TOP_RIGHT
  else if c = .Green then .MMR_BOTTOM_LEFT
  else .MMR_MIDDLE

/-- The method `TileMap::buildMouseMap`.  The image file is `none` when it
does not exist, otherwise its size and its pixel colours; the table has
`TILE_HEIGHT_ABSOLUTE` rows of `TILE_WIDTH` entries. -/
def TileMap.buildMouseMap (tm : TileMap) (mousemap : Option (Vector × (Point → MouseMapColor))) :
    Except Error TileMap :=
  match mousemap with
  | none => .error .mouseMapMissing
  | some (size, pixelColor) =>
    if size ≠ ⟨TILE_WIDTH, TILE_HEIGHT_ABSOLUTE⟩ then .error .mouseMapDimensions
    else
      .ok { tm with
        mMouseMap := (List.range TILE_HEIGHT_ABSOLUTE.toNat).map fun (row : Nat) =>
          (List.range TILE_WIDTH.toNat).map fun (col : Nat) =>
            buildMouseMap.region (pixelColor ⟨(col : Int), (row : Int)⟩) }

/-- The remainder offsets `(mmOffsetX, mmOffsetY)` that `updateTileHighlight`
passes to `getMouseMapRegion` (lines 388 and 389). -/
def updateTileHighlight.mmOffset (tm : TileMap) : Int × Int :=
  let even_edge_length_adjust : Int :=
    if Int.tmod tm.mEdgeLength 2 = 0 then TILE_HALF_WIDTH else 0
  (clamp (Int.tmod (tm.mMousePosition.x - tm.mMapBoundingBox.x - even_edge_length_adjust)
      TILE_WIDTH) 0 TILE_WIDTH,
    Int.tmod (tm.mMousePosition.y - tm.mMapBoundingBox.y) TILE_HEIGHT_ABSOLUTE)

/-- The coarse `highlightOffset` of line 386, before the mouse map region
adjusts it. -/
def updateTileHighlight.coarse (tm : TileMap) : Vector :=
  let even_edge_length_adjust : Int :=
    if Int.tmod tm.mEdgeLength 2 = 0 then TILE_HALF_WIDTH else 0
  let offsetX :=
    Int.tdiv (tm.mMousePosition.x - tm.mMapBoundingBox.x - even_edge_length_adjust) TILE_WIDTH
  let offsetY := Int.tdiv (tm.mMousePosition.y - tm.mMapBoundingBox.y) TILE_HEIGHT_ABSOLUTE
  ⟨tm.TRANSFORM.x + offsetY + offsetX, tm.TRANSFORM.y + offsetY - offsetX⟩

/-- The `switch` of lines 393 to 413 of `updateTileHighlight`. -/
def updateTileHighlight.nudge (mmr : MouseMapRegion) (highlightOffset : Vector) : Vector :=
  match mmr with
  | .MMR_TOP_RIGHT => ⟨highlightOffset.x, highlightOffset.y - 1⟩
  | .MMR_TOP_LEFT => ⟨highlightOffset.x - 1, highlightOffset.y⟩
  | .MMR_BOTTOM_RIGHT => ⟨highlightOffset.x + 1, highlightOffset.y⟩
  | .MMR_BOTTOM_LEFT => ⟨highlightOffset.x, highlightOffset.y + 1⟩
  | .MMR_MIDDLE => highlightOffset

/-- A mouse map of 55 rows and 128 columns in the shape of the tile diamond:
the middle region inside the diamond with corners `(64, 0)`, `(128, 27)`,
`(64, 54)` and `(0, 27)`, and the four corner regions outside of it; used for
concrete evaluation. -/
def diamondMouseMap : List (List MouseMapRegion) :=
  (List.range 55).map fun (row : Nat) =>
    (List.range 128).map fun (col : Nat) =>
      if 27 * ((col : Int) - 64).natAbs + 64 * ((row : Int) - 27).natAbs ≤ 64 * 27 then
        MouseMapRegion.MMR_MIDDLE
      else if row < 27 then
        (if col < 64 then MouseMapRegion.MMR_TOP_LEFT else MouseMapRegion.MMR_TOP_RIGHT)
      else
        (if col < 64 then MouseMapRegion.MMR_BOTTOM_LEFT else MouseMapRegion.MMR_BOTTOM_RIGHT)

/-- The constructor's map state with `diamondMouseMap` as its mouse map, on a
screen of 640 x 275 pixels (edge length 5, bounding box at the origin). -/
def diamondPickingMap : TileMap :=
  TileMap.initMapDrawParams { TileMap.init 300 150 4 with mMouseMap := diamondMouseMap }
    0 ⟨640, 275⟩

/-- The method `TileMap::centerMapOnTile(_t)`; a null pointer is `none`.
`Vector{mEdgeLength, mEdgeLength} / 2` divides both components, truncating. -/
def TileMap.centerMapOnTile (tm : TileMap) (_t : Option Tile) : TileMap :=
  match _t with
  | none => tm
  | some t =>
    (tm.mapViewLocation ⟨t.position.x - Int.tdiv tm.mEdgeLength 2,
      t.position.y - Int.tdiv tm.mEdgeLength 2⟩).currentDepth t.depth

/-- The method `TileMap::getVisibleTile(position, level)`; the null pointer it
returns for a tile that is not visible is `none`. -/
def TileMap.getVisibleTile (tm : TileMap) (position : Point) (level : Int) :
    Except Error (Option Tile) :=
  if !tm.isVisibleTile position level then .ok none
  else
    match tm.getTile position level with
    | .error e => .error e
    | .ok t => .ok (some t)

/-- The constructor's map state after `buildMouseMap` on an image of 128 x 55
pixels of a colour other than the four corner colours, `initMapDrawParams` for
a screen of 640 x 275 pixels and a mouse position of `(383, 110)`; used for
concrete evaluation. -/
def mouseMapExample : TileMap :=
  ((orKeep ((TileMap.init 300 150 4).buildMouseMap
      (some (⟨128, 55⟩, fun _ => MouseMapColor.Other))) (TileMap.init 300 150 4)).initMapDrawParams
    0 ⟨640, 275⟩).injectMouse 383 110

/-! ## Structures and the game state -/

/-- The enumeration `Structure::StructureState` (`Structure.h`). -/
inductive StructureState where
  | UNDER_CONSTRUCTION
  | OPERATIONAL
  | IDLE
  | DISABLED
  | DESTROYED
deriving DecidableEq

/-- The enumeration `Structure::StructureType` (`Structure.h`). -/
inductive StructureType where
  | STRUCTURE_COMMAND
  | STRUCTURE_COMM
  | STRUCTURE_ENERGY_PRODUCTION
  | STRUCTURE_FACTORY
  | STRUCTURE_FOOD_PRODUCTION
  | STRUCTURE_LABORATORY
  | STRUCTURE_LANDER
  | STRUCTURE_LIFE_SUPPORT
  | STRUCTURE_MINE
  | STRUCTURE_RECYCLING
  | STRUCTURE_RESIDENCE
  | STRUCTURE_SMELTER
  | STRUCTURE_STORAGE
  | STRUCTURE_TUBE
  | STRUCTURE_UNDEFINED
deriving DecidableEq

/-- The enumeration `ConnectorDir` (declared in `Common.h`, outside the source
tree): the four enumerators that occur in the sources, which are the four
connector geometries the spec names. -/
inductive ConnectorDir where
  | CONNECTOR_INTERSECTION
  | CONNECTOR_RIGHT
  | CONNECTOR_LEFT
  | CONNECTOR_VERTICAL
deriving DecidableEq

/-- The enumeration `Direction` (declared in `Common.h`, outside the source
tree): the enumerators that occur in the sources (`diggerTaskFinished` tests
all five). -/
inductive Direction where
  | DIR_NORTH
  | DIR_EAST
  | DIR_SOUTH
  | DIR_WEST
  | DIR_DOWN
deriving DecidableEq

/-- The enumeration `StructureID` (declared in `Common.h`, outside the source
tree): the enumerators that occur in the sources. -/
inductive StructureID where
  | SID_NONE
  | SID_AGRIDOME
  | SID_AIR_SHAFT
  | SID_CHAP
  | SID_COMMAND_CENTER
  | SID_MINE_FACILITY
  | SID_SEED_FACTORY
  | SID_SEED_LANDER
  | SID_SEED_POWER
  | SID_SEED_SMELTER
  | SID_SMELTER
  | SID_STORAGE_TANKS
  | SID_TUBE_INTERSECTION
  | SID_TUBE_RIGHT
  | SID_TUBE_LEFT
deriving DecidableEq

/-- The members of `Structure` (`Structure.h`) that the checks read. -/
structure Structure where
  mStructureState : StructureState
  mStructureType : StructureType
  mConnectorDirection : ConnectorDir
deriving DecidableEq

/-- The accessor `Structure::state`. -/
def Structure.state (s : Structure) : StructureState := s.mStructureState

/-- The accessor `Structure::connectorDirection`. -/
def Structure.connectorDirection (s : Structure) : ConnectorDir := s.mConnectorDirection

/-- The accessor `Structure::type`. -/
def Structure.type (s : Structure) : StructureType := s.mStructureType

/-- The flag `Structure::isConnector`: `type() == STRUCTURE_TUBE`. -/
def Structure.isConnector (s : Structure) : Bool := decide (s.type = .STRUCTURE_TUBE)

/-- The object a `Thing*` points to: a `Structure` or a robot. -/
inductive Thing where
  | ofStructure (s : Structure)
  | ofRobot
deriving DecidableEq

/-- The objects that the occupant identifiers of the tiles refer to (the
`Thing*` pointers of `Tile::thing()`). -/
abbrev ThingStore := Nat → Option Thing

/-- Modelled from the spec: `Tile::bulldozed` of the absent class; the spec
gives terrain index 0 as the bulldozed baseline. -/
def Tile.bulldozed (t : Tile) : Bool := decide (t.index = TERRAIN_DOZED)

/-- Modelled from the spec: `Tile::structure` of the absent class, the
occupant when it is a structure and a null pointer (`none`) otherwise. -/
def Tile.structure (things : ThingStore) (t : Tile) : Option Structure :=
  match t.thing with
  | none => none
  | some address =>
    match things address with
    | some (.ofStructure s) => some s
    | _ => none

/-- Modelled from the spec: `Tile::thingIsStructure` of the absent class. -/
def Tile.thingIsStructure (things : ThingStore) (t : Tile) : Bool :=
  (t.structure things).isSome

/-- The function `checkTubeConnection(tile, dir, type)` of
`GameStateHelper.cpp`. -/
def checkTubeConnection (things : ThingStore) (tile : Tile) (dir : Direction)
    (type : StructureID) : Bool :=
  if tile.hasMine || !tile.bulldozed || !tile.excavated || !tile.thingIsStructure things then
    false
  else
    match tile.structure things with
    | none => false
    | some _structure =>
      if type = .SID_TUBE_INTERSECTION then
        if dir = .DIR_EAST ∨ dir = .DIR_WEST then
          if _structure.connectorDirection = .CONNECTOR_INTERSECTION ∨
              _structure.connectorDirection = .CONNECTOR_RIGHT ∨
              _structure.connectorDirection = .CONNECTOR_VERTICAL then true
          else false
        else
          if _structure.connectorDirection = .CONNECTOR_INTERSECTION ∨
              _structure.connectorDirection = .CONNECTOR_LEFT ∨
              _structure.connectorDirection = .CONNECTOR_VERTICAL then true
          else false
      else if type = .SID_TUBE_RIGHT ∧ (dir = .DIR_EAST ∨ dir = .DIR_WEST) then
        if _structure.connectorDirection = .CONNECTOR_INTERSECTION ∨
            _structure.connectorDirection = .CONNECTOR_RIGHT ∨
            _structure.connectorDirection = .CONNECTOR_VERTICAL then true
        else false
      else if type = .SID_TUBE_LEFT ∧ (dir = .DIR_NORTH ∨ dir = .DIR_SOUTH) then
        if _structure.connectorDirection = .CONNECTOR_INTERSECTION ∨
            _structure.connectorDirection = .CONNECTOR_LEFT ∨
            _structure.connectorDirection = .CONNECTOR_VERTICAL then true
        else false
      else false

/-- The function `checkStructurePlacement(tile, dir)` of `GameStateHelper.cpp`. -/
def checkStructurePlacement (things : ThingStore) (tile : Tile) (dir : Direction) : Bool :=
  if tile.hasMine || !tile.bulldozed || !tile.excavated || !tile.thingIsStructure things ||
      !tile.connected then false
  else
    match tile.structure things with
    | none => false
    | some _structure =>
      if !_structure.isConnector then false
      else if dir = .DIR_EAST ∨ dir = .DIR_WEST then
        if _structure.connectorDirection = .CONNECTOR_INTERSECTION ∨
            _structure.connectorDirection = .CONNECTOR_RIGHT then true
        else false
      else
        if _structure.connectorDirection = .CONNECTOR_INTERSECTION ∨
            _structure.connectorDirection = .CONNECTOR_LEFT then true
        else false

/-- The values of `GameState::mCurrentStructure` that occur in
`GameState.cpp` (the enumeration is declared outside the source tree). -/
inductive CurrentStructure where
  | STRUCTURE_NONE
  | STRUCTURE_AGRIDOME
  | STRUCTURE_CHAP
  | STRUCTURE_SEED_LANDER
  | STRUCTURE_TUBE_INTERSECTION
  | STRUCTURE_TUBE_RIGHT
  | STRUCTURE_TUBE_LEFT
deriving DecidableEq

/-- The members of `GameState` that the modelled methods read and write: the
tile map, the objects behind the occupant pointers with the next free
identifier, the recorded command-centre location and the structure selected
for placement. -/
structure GameState where
  mTileMap : TileMap
  things : ThingStore
  thingCount : Nat
  mCCLocation : Point
  mCurrentStructure : CurrentStructure

/-- The method `GameState::validTubeConnection(tile, dir)`. -/
def GameState.validTubeConnection (gs : GameState) (tile : Tile) (dir : Direction) : Bool :=
  if tile.hasMine || !tile.bulldozed || !tile.excavated ||
      !tile.thingIsStructure gs.things then false
  else
    match tile.structure gs.things with
    | none => false
    | some _structure =>
      if gs.mCurrentStructure = .STRUCTURE_TUBE_INTERSECTION then
        if dir = .DIR_EAST ∨ dir = .DIR_WEST then
          if _structure.connectorDirection = .CONNECTOR_INTERSECTION ∨
              _structure.connectorDirection = .CONNECTOR_RIGHT then true
          else false
        else
          if _structure.connectorDirection = .CONNECTOR_INTERSECTION ∨
              _structure.connectorDirection = .CONNECTOR_LEFT then true
          else false
      else if gs.mCurrentStructure = .STRUCTURE_TUBE_RIGHT then
        if dir = .DIR_EAST ∨ dir = .DIR_WEST then
          if _structure.connectorDirection = .CONNECTOR_INTERSECTION ∨
              _structure.connectorDirection = .CONNECTOR_RIGHT then true
          else false
        else false
      else if gs.mCurrentStructure = .STRUCTURE_TUBE_LEFT then
        if dir = .DIR_NORTH ∨ dir = .DIR_SOUTH then
          if _structure.connectorDirection = .CONNECTOR_INTERSECTION ∨
              _structure.connectorDirection = .CONNECTOR_LEFT then true
          else false
        else false
      else false

/-- The method `GameState::validStructurePlacement(tile, dir)`. -/
def GameState.validStructurePlacement (gs : GameState) (tile : Tile) (dir : Direction) : Bool :=
  if tile.hasMine || !tile.bulldozed || !tile.excavated ||
      !tile.thingIsStructure gs.things || !tile.connected then false
  else
    match tile.structure gs.things with
    | none => false
    | some _structure =>
      if !_structure.isConnector then false
      else if dir = .DIR_EAST ∨ dir = .DIR_WEST then
        if _structure.connectorDirection = .CONNECTOR_INTERSECTION ∨
            _structure.connectorDirection = .CONNECTOR_RIGHT then true
        else false
      else
        if _structure.connectorDirection = .CONNECTOR_INTERSECTION ∨
            _structure.connectorDirection = .CONNECTOR_LEFT then true
        else false

/-- The tube kinds (intersection, right, left) with their enumerators in the
two enumerations. -/
inductive TubeKind where
  | intersection
  | right
  | left
deriving DecidableEq

/-- The `StructureID` of a tube kind. -/
def TubeKind.toStructureID : TubeKind → StructureID
  | .intersection => .SID_TUBE_INTERSECTION
  | .right => .SID_TUBE_RIGHT
  | .left => .SID_TUBE_LEFT

/-- The value of `mCurrentStructure` for a tube kind. -/
def TubeKind.toCurrentStructure : TubeKind → CurrentStructure
  | .intersection => .STRUCTURE_TUBE_INTERSECTION
  | .right => .STRUCTURE_TUBE_RIGHT
  | .left => .STRUCTURE_TUBE_LEFT

/-- The method `GameState::checkConnectedness`.  `walkGraph` stands for the
graph walk of the class `GraphWalker` (outside the source tree) started at a
grid position and depth; the Boolean of the result tells whether the walk was
invoked.  The tile pointer and the occupant pointer are dereferenced without a
test. -/
def GameState.checkConnectedness (walkGraph : Point → Int → GameState → GameState)
    (gs : GameState) : Except Error (GameState × Bool) :=
  if gs.mCCLocation.x = 0 ∨ gs.mCCLocation.y = 0 then .ok (gs, false)
  else
    match gs.mTileMap.getTile gs.mCCLocation 0 with
    | .error e => .error e
    | .ok t =>
      match t.structure gs.things with
      | none => .error .nullPointer
      | some cc =>
        if cc.state ≠ .OPERATIONAL then .ok (gs, false)
        else .ok (walkGraph gs.mCCLocation 0 gs, true)

/-- The test of line 674 of `GameState::placeStructure`: where a seed lander
is accepted (`width()` and `height()` are the grid size). -/
def placeStructure.seedLanderAccepted (gs : GameState) (x y : Int) : Bool :=
  decide (x > 3 ∧ x < gs.mTileMap.mSizeInTiles.x - 3 ∧ y > 3 ∧
    y < gs.mTileMap.mSizeInTiles.y - 3)

/-- The tile positions the two loops of `landingSiteSuitable` visit, in
order. -/
def landingSiteSuitable.positions (x y : Int) : List Point :=
  ([y - 1, y, y + 1].map fun offY => [x - 1, x, x + 1].map fun offX =>
    (⟨offX, offY⟩ : Point)).flatten

/-- The loop body of `landingSiteSuitable` over the remaining positions; the
tile pointer is dereferenced without a test. -/
def landingSiteSuitable.scan (gs : GameState) : List Point → Except Error Bool
  | [] => .ok true
  | position :: rest =>
    match gs.mTileMap.getTile position 0 with
    | .error e => .error e
    | .ok t =>
      if t.index > 3 ∨ t.hasMine = true ∨ t.thing.isSome = true then .ok false
      else landingSiteSuitable.scan gs rest

/-- The method `GameState::landingSiteSuitable(x, y)`. -/
def GameState.landingSiteSuitable (gs : GameState) (x y : Int) : Except Error Bool :=
  landingSiteSuitable.scan gs (landingSiteSuitable.positions x y)

/-- The statement `mTileMap.getTile(x, y)->index(0)`. -/
def GameState.setIndexDozed (position : Point) (gs : GameState) : Except Error GameState :=
  match gs.mTileMap.updateTile position 0 (fun t => t.setIndex 0) with
  | .error e => .error e
  | .ok tm => .ok { gs with mTileMap := tm }

/-- Modelled from the spec: `StructureManager::addStructure(structure, tile,
x, y, depth, clear)` belongs to a class outside the source tree; it registers
the structure and makes it the occupant of the tile. -/
def GameState.addStructure (s : Structure) (position : Point) (depth : Int) (gs : GameState) :
    Except Error GameState :=
  match gs.mTileMap.updateTile position depth (fun t => { t with thing := some gs.thingCount })
    with
  | .error e => .error e
  | .ok tm =>
    .ok { gs with
      mTileMap := tm
      things := fun address =>
        if address = gs.thingCount then some (.ofStructure s) else gs.things address
      thingCount := gs.thingCount + 1 }

/-- Run a sequence of statements, each of which may fail. -/
def runSteps : List (GameState → Except Error GameState) → GameState → Except Error GameState
  | [], gs => .ok gs
  | step :: rest, gs =>
    match step gs with
    | .error e => .error e
    | .ok gs1 => runSteps rest gs1

/-- The method `GameState::deploySeedLander(x, y)`, up to the last tile
access (the user interface, robot pool, resource and population statements
that follow touch no tile).  The five structures are the objects created by
`new SeedPower()`, `new Tube(CONNECTOR_INTERSECTION, false)`,
`new CommandCenter()`, `new SeedFactory()` and `new SeedSmelter()`, whose
classes are outside the source tree. -/
def GameState.deploySeedLander (seedPower tube commandCenter seedFactory seedSmelter : Structure)
    (gs : GameState) (x y : Int) : Except Error GameState :=
  runSteps
    [GameState.setIndexDozed ⟨x, y⟩,
      GameState.addStructure seedPower ⟨x - 1, y - 1⟩ 0,
      GameState.setIndexDozed ⟨x - 1, y - 1⟩,
      GameState.addStructure tube ⟨x, y - 1⟩ 0,
      GameState.setIndexDozed ⟨x, y - 1⟩,
      GameState.addStructure commandCenter ⟨x + 1, y - 1⟩ 0,
      GameState.setIndexDozed ⟨x + 1, y - 1⟩,
      fun gs1 => .ok { gs1 with mCCLocation := ⟨x + 1, y - 1⟩ },
      GameState.setIndexDozed ⟨x - 1, y⟩,
      GameState.addStructure tube ⟨x - 1, y⟩ 0,
      GameState.setIndexDozed ⟨x + 1, y⟩,
      GameState.addStructure tube ⟨x + 1, y⟩ 0,
      GameState.addStructure seedFactory ⟨x - 1, y + 1⟩ 0,
      GameState.setIndexDozed ⟨x - 1, y + 1⟩,
      GameState.setIndexDozed ⟨x, y + 1⟩,
      GameState.addStructure tube ⟨x, y + 1⟩ 0,
      GameState.addStructure seedSmelter ⟨x + 1, y + 1⟩ 0,
      GameState.setIndexDozed ⟨x + 1, y + 1⟩]
    gs

/-- A thing store whose only object, at identifier 0, is an operational tube
with a left connector; used for concrete evaluation. -/
def leftTubeStore : ThingStore := fun address =>
  if address = 0 then some (.ofStructure ⟨.OPERATIONAL, .STRUCTURE_TUBE, .CONNECTOR_LEFT⟩)
  else none

/-- A bulldozed, excavated surface tile without a mine whose occupant is the
object with identifier 0; used for concrete evaluation. -/
def occupiedTile : Tile := { Tile.new ⟨0, 0⟩ 0 0 with thing := some 0 }

/-- A game state on a 2 x 2 map of bulldozed surface tiles whose tile at
`(1, 1)` holds the object with identifier 0, an operational command centre,
with the command-centre location recorded as `(1, 1)`; used for concrete
evaluation. -/
def commandCentreState : GameState :=
  { mTileMap := { TileMap.init 2 2 0 with
      mTileMap := [[[Tile.new ⟨0, 0⟩ 0 0, Tile.new ⟨1, 0⟩ 0 0],
        [Tile.new ⟨0, 1⟩ 0 0, { Tile.new ⟨1, 1⟩ 0 0 with thing := some 0 }]]] }
    things := fun address =>
      if address = 0 then
        some (.ofStructure ⟨.OPERATIONAL, .STRUCTURE_COMMAND, .CONNECTOR_INTERSECTION⟩)
      else none
    thingCount := 1
    mCCLocation := ⟨1, 1⟩
    mCurrentStructure := .STRUCTURE_NONE }

/-! ## Crime execution -/

/-- Modelled from the spec: the class `StorableResources` is declared outside
the source tree; it holds the four resource slots `resources` (an
`std::array<int, 4>`). -/
structure StorableResources where
  resources : List Int
deriving DecidableEq

/-- Modelled from the spec: `StorableResources::isEmpty` of the absent class,
true when no slot holds a positive amount. -/
def StorableResources.isEmpty (s : StorableResources) : Bool :=
  s.resources.all fun r => !decide (r > 0)

/-- Modelled from the spec: `StorableResources::getIndicesWithStock` of the
absent class, the indices of the slots that hold a positive amount, in
ascending order. -/
def StorableResources.getIndicesWithStock (s : StorableResources) : List Nat :=
  (List.range s.resources.length).filter fun i => decide (s.resources.getD i 0 > 0)

/-- The method `CrimeExecution::stealResources` on the storage of the
structure.  `generate lo hi` is `randomNumber.generate<int>(lo, hi)`; the
result is the storage after the call and, when a notification is pushed, the
amount and the slot it reports.  An index outside the array is undefined
behaviour. -/
def CrimeExecution.stealResources (generate : Int → Int → Int) (storage : StorableResources) :
    Except Error (StorableResources × Option (Int × Int)) :=
  if storage.isEmpty then .ok (storage, none)
  else
    let resourceIndicesWithStock := storage.getIndicesWithStock
    let indexToStealFrom := generate 0 ((resourceIndicesWithStock.length : Int) - 1)
    if indexToStealFrom < 0 then .error .badStorage
    else
      match storage.resources[indexToStealFrom.toNat]? with
      | none => .error .badStorage
      | some stock =>
        let amountStolen := if 5 > stock then stock else 5
        .ok (⟨modifyAt (fun r => r - amountStolen) storage.resources indexToStealFrom.toNat⟩,
          some (amountStolen, indexToStealFrom))

/-! ## Structure translator -/

/-- The name constants of `Constants.h` (outside the source tree) that
`buildTables` uses as keys and values. -/
inductive NameConstant where
  | AGRIDOME
  | AIR_SHAFT
  | CHAP
  | COMMAND_CENTER
  | MINE_FACILITY
  | SEED_FACTORY
  | SEED_LANDER
  | SEED_POWER
  | SEED_SMELTER
  | AG_TUBE_INTERSECTION
  | UG_TUBE_INTERSECTION
  | AG_TUBE_RIGHT
  | UG_TUBE_RIGHT
  | AG_TUBE_LEFT
  | UG_TUBE_LEFT
deriving DecidableEq

/-- The assignment `m[k] = v` on an `std::map`, kept as a list of its entries:
the entry of an existing key is replaced, a new key is added. -/
def mapAssign {K V : Type} [DecidableEq K] (m : List (K × V)) (k : K) (v : V) : List (K × V) :=
  if m.any (fun e => decide (e.1 = k)) then m.map (fun e => if e.1 = k then (k, v) else e)
  else m ++ [(k, v)]

/-- The lookup `m.find(k)` on an `std::map`: the value of the entry with key
`k`, `none` for `end()`. -/
def mapFind {K V : Type} [DecidableEq K] (m : List (K × V)) (k : K) : Option V :=
  match m.find? (fun e => decide (e.1 = k)) with
  | none => none
  | some e => some e.2

/-- The two static tables of `StructureTranslator`. -/
structure StructureTranslator where
  _stringToStructureTable : List (String × StructureID)
  _structureToStringTable : List (StructureID × String)
deriving DecidableEq

/-- The state of the two static tables at program start: both empty. -/
def StructureTranslator.initial : StructureTranslator := ⟨[], []⟩

/-- The method `StructureTranslator::buildTables`; `text` gives the string
value of each name constant. -/
def StructureTranslator.buildTables (text : NameConstant → String) (st : StructureTranslator) :
    StructureTranslator :=
  { _stringToStructureTable :=
      ([(text .AGRIDOME, StructureID.SID_AGRIDOME),
        (text .AIR_SHAFT, .SID_AIR_SHAFT),
        (text .CHAP, .SID_CHAP),
        (text .COMMAND_CENTER, .SID_COMMAND_CENTER),
        (text .MINE_FACILITY, .SID_MINE_FACILITY),
        (text .SEED_FACTORY, .SID_SEED_FACTORY),
        (text .SEED_LANDER, .SID_SEED_LANDER),
        (text .SEED_POWER, .SID_SEED_POWER),
        (text .SEED_SMELTER, .SID_SEED_SMELTER),
        (text .AG_TUBE_INTERSECTION, .SID_TUBE_INTERSECTION),
        (text .UG_TUBE_INTERSECTION, .SID_TUBE_INTERSECTION),
        (text .AG_TUBE_RIGHT, .SID_TUBE_RIGHT),
        (text .UG_TUBE_RIGHT, .SID_TUBE_RIGHT),
        (text .AG_TUBE_LEFT, .SID_TUBE_LEFT),
        (text .UG_TUBE_LEFT, .SID_TUBE_LEFT)].foldl
        (fun m kv => mapAssign m kv.1 kv.2) st._stringToStructureTable)
    _structureToStringTable :=
      ([(StructureID.SID_AGRIDOME, text .AGRIDOME),
        (.SID_AIR_SHAFT, text .AIR_SHAFT),
        (.SID_CHAP, text .CHAP),
        (.SID_COMMAND_CENTER, text .COMMAND_CENTER),
        (.SID_MINE_FACILITY, text .MINE_FACILITY),
        (.SID_SEED_FACTORY, text .SEED_FACTORY),
        (.SID_SEED_LANDER, text .SEED_LANDER),
        (.SID_SEED_POWER, text .SEED_POWER),
        (.SID_SEED_SMELTER, text .SEED_SMELTER),
        (.SID_TUBE_INTERSECTION, text .AG_TUBE_INTERSECTION),
        (.SID_TUBE_RIGHT, text .AG_TUBE_RIGHT),
        (.SID_TUBE_LEFT, text .AG_TUBE_LEFT)].foldl
        (fun m kv => mapAssign m kv.1 kv.2) st._structureToStringTable) }

/-- The method `StructureTranslator::translateFromString(_s)`: the result and
the tables after the call. -/
def StructureTranslator.translateFromString (text : NameConstant → String)
    (st : StructureTranslator) (_s : String) : StructureID × StructureTranslator :=
  let st1 := if st._stringToStructureTable.isEmpty then st.buildTables text else st
  match mapFind st1._stringToStructureTable _s with
  | none => (.SID_NONE, st1)
  | some id => (id, st1)

/-- The method `StructureTranslator::translateToString(_s)`: the result and
the tables after the call. -/
def StructureTranslator.translateToString (text : NameConstant → String)
    (st : StructureTranslator) (_s : StructureID) : String × StructureTranslator :=
  let st1 := if st._structureToStringTable.isEmpty then st.buildTables text else st
  match mapFind st1._structureToStringTable _s with
  | none => ("", st1)
  | some name => (name, st1)

/-- The structure identifiers that `buildTables` registers in the table from
identifiers to names. -/
def StructureTranslator.registeredIds : List StructureID :=
  [.SID_AGRIDOME, .SID_AIR_SHAFT, .SID_CHAP, .SID_COMMAND_CENTER, .SID_MINE_FACILITY,
    .SID_SEED_FACTORY, .SID_SEED_LANDER, .SID_SEED_POWER, .SID_SEED_SMELTER,
    .SID_TUBE_INTERSECTION, .SID_TUBE_RIGHT, .SID_TUBE_LEFT]

/-- Whether a name constant is one of the three underground tube names. -/
def NameConstant.isUnderground : NameConstant → Bool
  | .UG_TUBE_INTERSECTION => true
  | .UG_TUBE_RIGHT => true
  | .UG_TUBE_LEFT => true
  | _ => false

/-- The above-ground name constant of the same structure: an underground tube
name is mapped to the above-ground name of that tube, every other name to
itself. -/
def NameConstant.aboveGround : NameConstant → NameConstant
  | .UG_TUBE_INTERSECTION => .AG_TUBE_INTERSECTION
  | .UG_TUBE_RIGHT => .AG_TUBE_RIGHT
  | .UG_TUBE_LEFT => .AG_TUBE_LEFT
  | c => c

/-- Distinct example values for the name constants, used for concrete
evaluation. -/
def exampleNames : NameConstant → String
  | .AGRIDOME => "Agricultural Dome"
  | .AIR_SHAFT => "Air Shaft"
  | .CHAP => "CHAP Facility"
  | .COMMAND_CENTER => "Command Center"
  | .MINE_FACILITY => "Mine Facility"
  | .SEED_FACTORY => "SEED Factory"
  | .SEED_LANDER => "SEED Lander"
  | .SEED_POWER => "SEED Power"
  | .SEED_SMELTER => "SEED Smelter"
  | .AG_TUBE_INTERSECTION => "Tube Intersection"
  | .UG_TUBE_INTERSECTION => "Tube Intersection (UG)"
  | .AG_TUBE_RIGHT => "Tube Right"
  | .UG_TUBE_RIGHT => "Tube Right (UG)"
  | .AG_TUBE_LEFT => "Tube Left"
  | .UG_TUBE_LEFT => "Tube Left (UG)"

/-- The identifier that `buildTables` registers for a name constant. -/
def NameConstant.structureID : NameConstant → StructureID
  | .AGRIDOME => .SID_AGRIDOME
  | .AIR_SHAFT => .SID_AIR_SHAFT
  | .CHAP => .SID_CHAP
  | .COMMAND_CENTER => .SID_COMMAND_CENTER
  | .MINE_FACILITY => .SID_MINE_FACILITY
  | .SEED_FACTORY => .SID_SEED_FACTORY
  | .SEED_LANDER => .SID_SEED_LANDER
  | .SEED_POWER => .SID_SEED_POWER
  | .SEED_SMELTER => .SID_SEED_SMELTER
  | .AG_TUBE_INTERSECTION => .SID_TUBE_INTERSECTION
  | .UG_TUBE_INTERSECTION => .SID_TUBE_INTERSECTION
  | .AG_TUBE_RIGHT => .SID_TUBE_RIGHT
  | .UG_TUBE_RIGHT => .SID_TUBE_RIGHT
  | .AG_TUBE_LEFT => .SID_TUBE_LEFT
  | .UG_TUBE_LEFT => .SID_TUBE_LEFT

/-- The name constant that `buildTables` registers for an identifier, `none`
for an identifier it does not register. -/
def StructureTranslator.nameOf : StructureID → Option NameConstant
  | .SID_AGRIDOME => some .AGRIDOME
  | .SID_AIR_SHAFT => some .AIR_SHAFT
  | .SID_CHAP => some .CHAP
  | .SID_COMMAND_CENTER => some .COMMAND_CENTER
  | .SID_MINE_FACILITY => some .MINE_FACILITY
  | .SID_SEED_FACTORY => some .SEED_FACTORY
  | .SID_SEED_LANDER => some .SEED_LANDER
  | .SID_SEED_POWER => some .SEED_POWER
  | .SID_SEED_SMELTER => some .SEED_SMELTER
  | .SID_TUBE_INTERSECTION => some .AG_TUBE_INTERSECTION
  | .SID_TUBE_RIGHT => some .AG_TUBE_RIGHT
  | .SID_TUBE_LEFT => some .AG_TUBE_LEFT
  | _ => none

/-! ## Theorems -/

theorem getElem?_modifyAt {α : Type} (f : α → α) (l : List α) (i j : Nat) :
    (modifyAt f l i)[j]? = if i = j then (l[j]?).map f else l[j]? := by
  induction l generalizing i j with
  | nil => cases i <;> simp [modifyAt]
  | cons a as ih =>
    cases i with
    | zero => cases j <;> simp [modifyAt]
    | succ i =>
      cases j with
      | zero => simp [modifyAt]
      | succ j => simp [modifyAt, ih]

theorem TileArray.at?_modify (g : TileArray) (l y x l' y' x' : Nat) (f : Tile → Tile) :
    (g.modify l y x f).at? l' y' x' =
      if l = l' ∧ y = y' ∧ x = x' then (g.at? l y x).map f else g.at? l' y' x' := by
  unfold TileArray.modify TileArray.at?
  rw [getElem?_modifyAt]
  by_cases hl : l = l'
  · subst hl
    cases hg : g[l]? with
    | none => simp
    | some rows =>
      simp only [if_true, Option.map_some', true_and]
      rw [getElem?_modifyAt]
      by_cases hy : y = y'
      · subst hy
        cases hr : rows[y]? with
        | none => simp
        | some row =>
          simp only [if_true, Option.map_some', true_and]
          rw [getElem?_modifyAt]
          by_cases hx : x = x'
          · subst hx; simp
          · simp [hx]
      · simp [hy]
  · simp [hl]

theorem at?_resizeTileMap (L H W l y x : Nat) (hl : l < L) (hy : y < H) (hx : x < W) :
    (resizeTileMap L H W).at? l y x = some Tile.default := by
  simp [resizeTileMap, TileArray.at?, List.getElem?_replicate, hl, hy, hx]

theorem isValidPosition_iff (tm : TileMap) (p : Point) (level : Int) :
    tm.isValidPosition p level = true ↔
      (0 ≤ level ∧ level ≤ tm.mMaxDepth) ∧ (0 ≤ p.x ∧ p.x < tm.mSizeInTiles.x) ∧
        (0 ≤ p.y ∧ p.y < tm.mSizeInTiles.y) := by
  simp only [TileMap.isValidPosition, Rectangle.contains, Bool.and_eq_true, decide_eq_true_eq,
    zero_add, ge_iff_le]
  tauto

theorem getTile_of_valid (tm : TileMap) (ha : tm.Allocated) (p : Point) (level : Int)
    (hv : tm.isValidPosition p level = true) :
    ∃ t, tm.mTileMap.at? level.toNat p.y.toNat p.x.toNat = some t ∧
      tm.getTile p level = .ok t := by
  have h := (isValidPosition_iff tm p level).1 hv
  obtain ⟨⟨hl0, hl1⟩, ⟨hx0, hx1⟩, hy0, hy1⟩ := h
  have hs := ha level.toNat p.y.toNat p.x.toNat
    (by rw [Int.toNat_of_nonneg hl0]; exact hl1)
    (by rw [Int.toNat_of_nonneg hy0]; exact hy1)
    (by rw [Int.toNat_of_nonneg hx0]; exact hx1)
  obtain ⟨t, ht⟩ := Option.isSome_iff_exists.1 hs
  exact ⟨t, ht, by simp [TileMap.getTile, hv, ht]⟩

theorem getTile_of_invalid (tm : TileMap) (p : Point) (level : Int)
    (hv : tm.isValidPosition p level = false) :
    tm.getTile p level = .error (.outOfBounds p level) := by
  simp [TileMap.getTile, hv]

theorem writesCells_allocated {sz : Vector} {D : Int} {tm : TileMap} {g : TileArray}
    {S : Nat → Nat → Nat → Prop} {v : Nat → Nat → Nat → Tile} (ha : tm.Allocated)
    (hS : ∀ l y x, S l y x → g.at? l y x = some (v l y x))
    (hN : ∀ l y x, ¬ S l y x → g.at? l y x = tm.mTileMap.at? l y x)
    (_hsz : tm.mSizeInTiles = sz) (_hD : tm.mMaxDepth = D) :
    TileMap.Allocated { tm with mTileMap := g } := by
  intro l y x hl hy hx
  by_cases h : S l y x
  · simp [hS l y x h]
  · simp only [hN l y x h]
    exact ha l y x hl hy hx

theorem writesCells_forRange (sz : Vector) (D : Int) (S : Nat → Nat → Nat → Nat → Prop)
    (v : Nat → Nat → Nat → Tile) (body : Nat → TileMap → Except Error TileMap) (k : Nat) :
    ∀ s : Nat, (∀ i, s ≤ i → i < s + k → WritesCells sz D (S i) v (body i)) →
      WritesCells sz D (fun l y x => ∃ i, s ≤ i ∧ i < s + k ∧ S i l y x) v
        (forRange body s k) := by
  induction k with
  | zero =>
    intro s _ tm _ _ _
    refine ⟨tm.mTileMap, rfl, ?_, fun _ _ _ _ => rfl⟩
    rintro l y x ⟨i, h1, h2, _⟩
    omega
  | succ k ih =>
    intro s h tm ha hsz hD
    obtain ⟨g1, h1, hS1, hN1⟩ := h s le_rfl (by omega) tm ha hsz hD
    have ha1 := writesCells_allocated ha hS1 hN1 hsz hD
    obtain ⟨g2, h2, hS2, hN2⟩ :=
      ih (s + 1) (fun i hi1 hi2 => h i (by omega) (by omega)) _ ha1 hsz hD
    refine ⟨g2, ?_, ?_, ?_⟩
    · simp only [forRange, h1]
      exact h2
    · rintro l y x ⟨i, hi1, hi2, hSi⟩
      by_cases hlater : ∃ j, s + 1 ≤ j ∧ j < s + 1 + k ∧ S j l y x
      · exact hS2 l y x hlater
      · rw [hN2 l y x hlater]
        have : i = s := by
          by_contra hne
          exact hlater ⟨i, by omega, by omega, hSi⟩
        subst this
        exact hS1 l y x hSi
    · intro l y x hno
      rw [hN2 l y x (fun ⟨j, hj1, hj2, hj⟩ => hno ⟨j, by omega, by omega, hj⟩)]
      exact hN1 l y x (fun hs => hno ⟨s, le_rfl, by omega, hs⟩)

theorem writesCells_cell (sz : Vector) (D : Int) (hm : Point → Nat) (d r c : Nat)
    (hd : (d : Int) ≤ D) (hr : (r : Int) < sz.y) (hc : (c : Int) < sz.x) :
    WritesCells sz D (fun l y x => l = d ∧ y = r ∧ x = c) (builtTile hm)
      (buildTerrainMap.cell hm d r c) := by
  intro tm ha hsz hD
  have hv : tm.isValidPosition ⟨c, r⟩ d = true := by
    rw [isValidPosition_iff, hsz, hD]
    exact ⟨⟨Int.natCast_nonneg d, hd⟩, ⟨Int.natCast_nonneg c, hc⟩, Int.natCast_nonneg r, hr⟩
  obtain ⟨t, ht, hget⟩ := getTile_of_valid tm ha ⟨c, r⟩ d hv
  simp only [Int.toNat_ofNat] at ht
  refine ⟨tm.mTileMap.modify d r c (fun _ => builtTile hm d r c), ?_, ?_, ?_⟩
  · simp only [buildTerrainMap.cell, TileMap.updateTile, hget, Int.toNat_ofNat]
    rfl
  · rintro l y x ⟨rfl, rfl, rfl⟩
    rw [TileArray.at?_modify]
    simp [ht, builtTile]
  · intro l y x hne
    rw [TileArray.at?_modify]
    have : ¬ (d = l ∧ r = y ∧ c = x) := fun ⟨h1, h2, h3⟩ => hne ⟨h1.symm, h2.symm, h3.symm⟩
    simp [this]

theorem allocated_resize (tm : TileMap) :
    TileMap.Allocated { tm with
      mTileMap := resizeTileMap (tm.mMaxDepth + 1).toNat tm.mSizeInTiles.y.toNat
        tm.mSizeInTiles.x.toNat } := by
  intro l y x hl hy hx
  simp only at hl hy hx
  rw [at?_resizeTileMap _ _ _ l y x (by omega) (by omega) (by omega)]
  rfl

/-- The postcondition of `buildTerrainMap`: with a heightmap present the build
succeeds, keeps every member but the tile storage, and stores `builtTile` at
every address inside the grid. -/
theorem buildTerrainMap_spec (tm : TileMap) (hm : Point → Nat) :
    ∃ g : TileArray, tm.buildTerrainMap (some hm) = .ok { tm with mTileMap := g } ∧
      ∀ l y x : Nat, (l : Int) ≤ tm.mMaxDepth → (y : Int) < tm.mSizeInTiles.y →
        (x : Int) < tm.mSizeInTiles.x → g.at? l y x = some (builtTile hm l y x) := by
  have hrow : ∀ d r : Nat, (d : Int) ≤ tm.mMaxDepth → (r : Int) < tm.mSizeInTiles.y →
      WritesCells tm.mSizeInTiles tm.mMaxDepth
        (fun l y x => ∃ c, 0 ≤ c ∧ c < 0 + tm.mSizeInTiles.x.toNat ∧ (l = d ∧ y = r ∧ x = c))
        (builtTile hm)
        (forRange (fun col => buildTerrainMap.cell hm d r col) 0 tm.mSizeInTiles.x.toNat) :=
    fun d r hd hr => writesCells_forRange _ _ (fun c l y x => l = d ∧ y = r ∧ x = c) _ _ _ 0
      (fun c _ hc => writesCells_cell _ _ hm d r c hd hr (by omega))
  have hlevel : ∀ d : Nat, (d : Int) ≤ tm.mMaxDepth →
      WritesCells tm.mSizeInTiles tm.mMaxDepth
        (fun l y x => ∃ r, 0 ≤ r ∧ r < 0 + tm.mSizeInTiles.y.toNat ∧
          ∃ c, 0 ≤ c ∧ c < 0 + tm.mSizeInTiles.x.toNat ∧ (l = d ∧ y = r ∧ x = c))
        (builtTile hm)
        (forRange (fun row =>
          forRange (fun col => buildTerrainMap.cell hm d row col) 0 tm.mSizeInTiles.x.toNat)
          0 tm.mSizeInTiles.y.toNat) :=
    fun d hd => writesCells_forRange _ _
      (fun r l y x => ∃ c, 0 ≤ c ∧ c < 0 + tm.mSizeInTiles.x.toNat ∧ (l = d ∧ y = r ∧ x = c))
      _ _ _ 0 (fun r _ hr => hrow d r hd (by omega))
  have hall := writesCells_forRange tm.mSizeInTiles tm.mMaxDepth
    (fun d l y x => ∃ r, 0 ≤ r ∧ r < 0 + tm.mSizeInTiles.y.toNat ∧
      ∃ c, 0 ≤ c ∧ c < 0 + tm.mSizeInTiles.x.toNat ∧ (l = d ∧ y = r ∧ x = c))
    (builtTile hm) _ (tm.mMaxDepth + 1).toNat 0 (fun d _ hd => hlevel d (by omega))
  obtain ⟨g, hg, hS, _⟩ := hall _ (allocated_resize tm) rfl rfl
  refine ⟨g, ?_, ?_⟩
  · simp only [TileMap.buildTerrainMap]
    exact hg
  · intro l y x hl hy hx
    exact hS l y x ⟨l, Nat.zero_le _, by omega, y, Nat.zero_le _, by omega, x, Nat.zero_le _,
      by omega, rfl, rfl, rfl⟩

theorem built_allocated (width height maxDepth : Int) (g : TileArray) (hm : Point → Nat)
    (hg : ∀ l y x : Nat, (l : Int) ≤ maxDepth → (y : Int) < height → (x : Int) < width →
      g.at? l y x = some (builtTile hm l y x)) :
    TileMap.Allocated { TileMap.init width height maxDepth with mTileMap := g } := by
  intro l y x hl hy hx
  simp only [TileMap.init] at hl hy hx
  simp [hg l y x hl hy hx]

/-- C1: on the map built by `buildTerrainMap` for a grid of size `width` by
`height` with depth limit `maxDepth`, `getTile ((x, y), level)` returns a tile,
the one stored at `[level][y][x]`, exactly when `0 ≤ level ≤ maxDepth`,
`0 ≤ x < width` and `0 ≤ y < height`; in every other case it fails with the
out-of-bounds error.  `isValidPosition` is true for exactly the same inputs. -/
theorem getTile_bounds_contract (width height maxDepth : Int) (hm : Point → Nat)
    (hw : 0 ≤ width) (hh : 0 ≤ height) (hd : 0 ≤ maxDepth) :
    ∃ tm : TileMap, (TileMap.init width height maxDepth).buildTerrainMap (some hm) = .ok tm ∧
      ∀ x y level : Int,
        ((0 ≤ level ∧ level ≤ maxDepth ∧ 0 ≤ x ∧ x < width ∧ 0 ≤ y ∧ y < height) →
          ∃ t : Tile, tm.getTile ⟨x, y⟩ level = .ok t ∧
            tm.mTileMap.at? level.toNat y.toNat x.toNat = some t) ∧
        (¬ (0 ≤ level ∧ level ≤ maxDepth ∧ 0 ≤ x ∧ x < width ∧ 0 ≤ y ∧ y < height) →
          tm.getTile ⟨x, y⟩ level = .error (.outOfBounds ⟨x, y⟩ level)) ∧
        (tm.isValidPosition ⟨x, y⟩ level = true ↔
          (0 ≤ level ∧ level ≤ maxDepth ∧ 0 ≤ x ∧ x < width ∧ 0 ≤ y ∧ y < height)) := by
  have _ := hw
  have _ := hh
  have _ := hd
  obtain ⟨g, hbuild, hg⟩ := buildTerrainMap_spec (TileMap.init width height maxDepth) hm
  refine ⟨_, hbuild, ?_⟩
  have ha := built_allocated width height maxDepth g hm hg
  intro x y level
  have hiff : TileMap.isValidPosition { TileMap.init width height maxDepth with mTileMap := g }
      ⟨x, y⟩ level = true ↔
      (0 ≤ level ∧ level ≤ maxDepth ∧ 0 ≤ x ∧ x < width ∧ 0 ≤ y ∧ y < height) := by
    rw [isValidPosition_iff]
    simp only [TileMap.init]
    tauto
  refine ⟨fun hin => ?_, fun hout => ?_, hiff⟩
  · obtain ⟨t, ht, hget⟩ := getTile_of_valid _ ha ⟨x, y⟩ level (hiff.2 hin)
    exact ⟨t, hget, ht⟩
  · apply getTile_of_invalid
    cases hv : TileMap.isValidPosition { TileMap.init width height maxDepth with mTileMap := g }
      ⟨x, y⟩ level
    · rfl
    · exact absurd (hiff.1 hv) hout

/-- Witness for C1: a 2 by 2 grid with depth limit 1. -/
theorem getTile_bounds_contract_witness :
    ∃ tm : TileMap, (TileMap.init 2 2 1).buildTerrainMap (some (fun _ => 120)) = .ok tm ∧
      ∀ x y level : Int,
        ((0 ≤ level ∧ level ≤ 1 ∧ 0 ≤ x ∧ x < 2 ∧ 0 ≤ y ∧ y < 2) →
          ∃ t : Tile, tm.getTile ⟨x, y⟩ level = .ok t ∧
            tm.mTileMap.at? level.toNat y.toNat x.toNat = some t) ∧
        (¬ (0 ≤ level ∧ level ≤ 1 ∧ 0 ≤ x ∧ x < 2 ∧ 0 ≤ y ∧ y < 2) →
          tm.getTile ⟨x, y⟩ level = .error (.outOfBounds ⟨x, y⟩ level)) ∧
        (tm.isValidPosition ⟨x, y⟩ level = true ↔
          (0 ≤ level ∧ level ≤ 1 ∧ 0 ≤ x ∧ x < 2 ∧ 0 ≤ y ∧ y < 2)) :=
  getTile_bounds_contract 2 2 1 (fun _ => 120) (by decide) (by decide) (by decide)

/-- C10: after `buildTerrainMap` (which succeeds whenever the heightmap is
present), for every depth `d` in `[0, maxDepth]` and every column and row
inside the grid, `getTile ((col, row), d)` returns a tile whose position is
`(col, row)`, whose depth is `d`, whose terrain index is the heightmap red
value divided by 50 (so the same at every depth), and whose excavated flag is
false when `d > 0`. -/
theorem buildTerrainMap_postcondition (width height maxDepth : Int) (hm : Point → Nat)
    (hw : 0 ≤ width) (hh : 0 ≤ height) (hd : 0 ≤ maxDepth) :
    ∃ tm : TileMap, (TileMap.init width height maxDepth).buildTerrainMap (some hm) = .ok tm ∧
      ∀ d col row : Int, 0 ≤ d → d ≤ maxDepth → 0 ≤ col → col < width → 0 ≤ row →
        row < height →
        ∃ t : Tile, tm.getTile ⟨col, row⟩ d = .ok t ∧ t.position = ⟨col, row⟩ ∧ t.depth = d ∧
          t.index = (hm ⟨col, row⟩ : Int) / 50 ∧ (0 < d → t.excavated = false) := by
  have _ := hw
  have _ := hh
  have _ := hd
  obtain ⟨g, hbuild, hg⟩ := buildTerrainMap_spec (TileMap.init width height maxDepth) hm
  refine ⟨_, hbuild, ?_⟩
  have ha := built_allocated width height maxDepth g hm hg
  intro d col row hd0 hd1 hc0 hc1 hr0 hr1
  have hv : TileMap.isValidPosition { TileMap.init width height maxDepth with mTileMap := g }
      ⟨col, row⟩ d = true := by
    rw [isValidPosition_iff]
    simp only [TileMap.init]
    tauto
  obtain ⟨t, ht, hget⟩ := getTile_of_valid _ ha ⟨col, row⟩ d hv
  have hb := hg d.toNat row.toNat col.toNat (by rw [Int.toNat_of_nonneg hd0]; exact hd1)
    (by rw [Int.toNat_of_nonneg hr0]; exact hr1) (by rw [Int.toNat_of_nonneg hc0]; exact hc1)
  simp only at ht
  rw [hb] at ht
  have ht' : t = builtTile hm d.toNat row.toNat col.toNat := (Option.some.inj ht).symm
  refine ⟨t, hget, ?_⟩
  subst ht'
  simp only [builtTile, Int.toNat_of_nonneg hd0, Int.toNat_of_nonneg hr0,
    Int.toNat_of_nonneg hc0]
  by_cases hpos : d > 0
  · simp [hpos, Tile.new, Tile.setExcavated]
  · simp [hpos, Tile.new, Tile.setExcavated]

/-- Witness for C10: a 2 by 2 grid with depth limit 1 and a heightmap whose
red channel grows with the column. -/
theorem buildTerrainMap_postcondition_witness :
    ∃ tm : TileMap,
      (TileMap.init 2 2 1).buildTerrainMap (some (fun p => 100 * p.x.toNat)) = .ok tm ∧
      ∀ d col row : Int, 0 ≤ d → d ≤ 1 → 0 ≤ col → col < 2 → 0 ≤ row → row < 2 →
        ∃ t : Tile, tm.getTile ⟨col, row⟩ d = .ok t ∧ t.position = ⟨col, row⟩ ∧ t.depth = d ∧
          t.index = ((fun p : Point => 100 * p.x.toNat) ⟨col, row⟩ : Int) / 50 ∧
          (0 < d → t.excavated = false) :=
  buildTerrainMap_postcondition 2 2 1 (fun p => 100 * p.x.toNat) (by decide) (by decide)
    (by decide)

theorem excessBits_spec (fuel : Nat) : ∀ p : Nat, p < 2 ^ 24 * 2 ^ fuel →
    p / 2 ^ excessBits fuel p < 2 ^ 24 ∧
      (0 < excessBits fuel p → 2 ^ 23 ≤ p / 2 ^ excessBits fuel p) := by
  induction fuel with
  | zero =>
    intro p hp
    simp only [excessBits, pow_zero, Nat.div_one, mul_one] at hp ⊢
    exact ⟨hp, fun h => absurd h (lt_irrefl 0)⟩
  | succ fuel ih =>
    intro p hp
    by_cases hlt : p < 2 ^ 24
    · have h0 : excessBits (fuel + 1) p = 0 := by simp only [excessBits, hlt, if_true]
      rw [h0, pow_zero, Nat.div_one]
      exact ⟨hlt, fun h => absurd h (lt_irrefl 0)⟩
    · simp only [excessBits, hlt, if_false]
      have hp2 : p / 2 < 2 ^ 24 * 2 ^ fuel := by
        rw [pow_succ] at hp
        omega
      obtain ⟨h1, h2⟩ := ih (p / 2) hp2
      have hdiv : p / 2 ^ (excessBits fuel (p / 2) + 1) = p / 2 / 2 ^ excessBits fuel (p / 2) := by
        rw [pow_succ, mul_comm, Nat.div_div_eq_div_mul]
      rw [hdiv]
      refine ⟨h1, fun _ => ?_⟩
      by_cases hs : 0 < excessBits fuel (p / 2)
      · exact h2 hs
      · have hz : excessBits fuel (p / 2) = 0 := by omega
        rw [hz, pow_zero, Nat.div_one]
        omega

theorem roundSig24_of_lt (p : Nat) (hp : p < 2 ^ 24) : roundSig24 p = p := by
  have h0 : excessBits p p = 0 := by
    cases p with
    | zero => rfl
    | succ n => simp only [excessBits, hp, if_true]
  simp [roundSig24, h0, Nat.mod_one]

/-- The rounding error of `roundSig24` is at most half a unit in the last
place: the result is between `p - p / 2^24` and `p + p / 2^24`. -/
theorem roundSig24_bounds (p : Nat) :
    2 ^ 24 * roundSig24 p ≤ (2 ^ 24 + 1) * p ∧ (2 ^ 24 - 1) * p ≤ 2 ^ 24 * roundSig24 p := by
  have hfuel : p < 2 ^ 24 * 2 ^ p := by
    have := Nat.lt_two_pow p
    have h1 : 2 ^ p ≤ 2 ^ 24 * 2 ^ p := Nat.le_mul_of_pos_left _ (by norm_num)
    omega
  obtain ⟨h1, h2⟩ := excessBits_spec p p hfuel
  by_cases hs : excessBits p p = 0
  · have : roundSig24 p = p := by simp [roundSig24, hs, Nat.mod_one]
    rw [this]
    omega
  · have hq := h2 (by omega)
    have hdm := Nat.div_add_mod p (2 ^ excessBits p p)
    have hr := Nat.mod_lt p (Nat.two_pow_pos (excessBits p p))
    have hX : 2 ^ 23 * 2 ^ excessBits p p ≤ 2 ^ excessBits p p * (p / 2 ^ excessBits p p) := by
      rw [mul_comm]
      exact Nat.mul_le_mul_left _ hq
    simp only [roundSig24]
    generalize 2 ^ excessBits p p = T at *
    generalize p / T = q at *
    generalize p % T = r at *
    have hqT : (q + 1) * T = T * q + T := by ring
    have hqT' : q * T = T * q := by ring
    generalize T * q = X at *
    split_ifs with hup
    · rw [hqT]
      rcases hup with hup | ⟨hup, _⟩ <;> omega
    · rw [hqT']
      have : 2 * r ≤ T := by
        by_contra hgt
        exact hup (Or.inl (by omega))
      omega
theorem excessBits_self_spec (p : Nat) :
    p / 2 ^ excessBits p p < 2 ^ 24 ∧
      (0 < excessBits p p → 2 ^ 23 ≤ p / 2 ^ excessBits p p) := by
  apply excessBits_spec
  have := Nat.lt_two_pow p
  have h1 : 2 ^ p ≤ 2 ^ 24 * 2 ^ p := Nat.le_mul_of_pos_left _ (by norm_num)
  omega

theorem roundSig24_ge_floor (p : Nat) :
    p / 2 ^ excessBits p p * 2 ^ excessBits p p ≤ roundSig24 p := by
  simp only [roundSig24]
  split_ifs
  · exact Nat.mul_le_mul_right _ (Nat.le_succ _)
  · exact le_rfl

/-- Rounding never goes below a representable value that the argument
reaches (`k * 2^j` with `k < 2^24` is representable). -/
theorem roundSig24_ge_of_representable (p k j : Nat) (hk : k < 2 ^ 24) (hle : k * 2 ^ j ≤ p) :
    k * 2 ^ j ≤ roundSig24 p := by
  obtain ⟨_, h2⟩ := excessBits_self_spec p
  refine le_trans ?_ (roundSig24_ge_floor p)
  by_cases hs : excessBits p p = 0
  · simp only [hs, pow_zero, Nat.div_one, mul_one]
    exact hle
  · have hq := h2 (by omega)
    by_cases hj : excessBits p p ≤ j
    · obtain ⟨d, rfl⟩ := Nat.exists_eq_add_of_le hj
      have : k * 2 ^ d ≤ p / 2 ^ excessBits p p := by
        rw [Nat.le_div_iff_mul_le (Nat.two_pow_pos _)]
        calc k * 2 ^ d * 2 ^ excessBits p p = k * 2 ^ (excessBits p p + d) := by
              rw [pow_add]; ring
          _ ≤ p := hle
      calc k * 2 ^ (excessBits p p + d) = k * 2 ^ d * 2 ^ excessBits p p := by
            rw [pow_add]; ring
        _ ≤ p / 2 ^ excessBits p p * 2 ^ excessBits p p := Nat.mul_le_mul_right _ this
    · have hjs : j + 1 ≤ excessBits p p := by omega
      have hpow : 2 ^ (j + 1) ≤ 2 ^ excessBits p p := Nat.pow_le_pow_right (by norm_num) hjs
      calc k * 2 ^ j ≤ 2 ^ 24 * 2 ^ j := Nat.mul_le_mul_right _ (le_of_lt hk)
        _ = 2 ^ 23 * 2 ^ (j + 1) := by rw [pow_succ]; ring
        _ ≤ 2 ^ 23 * 2 ^ excessBits p p := Nat.mul_le_mul_left _ hpow
        _ ≤ p / 2 ^ excessBits p p * 2 ^ excessBits p p := Nat.mul_le_mul_right _ hq

/-- A value just below a multiple of `2^24` (closer than a relative `2^-25`)
rounds up to that multiple. -/
theorem roundSig24_ge_of_close (p k : Nat) (hp : p < 2 ^ 48) (hlt : p < k * 2 ^ 24)
    (hclose : 2 ^ 25 * (k * 2 ^ 24 - p) ≤ p) : k * 2 ^ 24 ≤ roundSig24 p := by
  obtain ⟨h1, h2⟩ := excessBits_self_spec p
  by_cases hs : excessBits p p = 0
  · rw [hs, pow_zero, Nat.div_one] at h1
    omega
  · have hq := h2 (by omega)
    have hdm := Nat.div_add_mod p (2 ^ excessBits p p)
    have hr := Nat.mod_lt p (Nat.two_pow_pos (excessBits p p))
    have hX : 2 ^ 23 * 2 ^ excessBits p p ≤ 2 ^ excessBits p p * (p / 2 ^ excessBits p p) := by
      rw [mul_comm]
      exact Nat.mul_le_mul_left _ hq
    have hX2 : 2 ^ excessBits p p * (p / 2 ^ excessBits p p) + 2 ^ excessBits p p
        ≤ 2 ^ 24 * 2 ^ excessBits p p := by
      have h3 : p / 2 ^ excessBits p p + 1 ≤ 2 ^ 24 := h1
      have h4 := Nat.mul_le_mul_right (2 ^ excessBits p p) h3
      calc 2 ^ excessBits p p * (p / 2 ^ excessBits p p) + 2 ^ excessBits p p
          = (p / 2 ^ excessBits p p + 1) * 2 ^ excessBits p p := by ring
        _ ≤ 2 ^ 24 * 2 ^ excessBits p p := h4
    have hs24 : excessBits p p ≤ 24 := by
      by_contra hgt
      have : 2 ^ 25 ≤ 2 ^ excessBits p p := Nat.pow_le_pow_right (by norm_num) (by omega)
      have : 2 ^ 23 * 2 ^ 25 ≤ 2 ^ 23 * 2 ^ excessBits p p := Nat.mul_le_mul_left _ this
      have h48 : (2 : Nat) ^ 23 * 2 ^ 25 = 2 ^ 48 := by norm_num
      omega
    obtain ⟨d, hd⟩ := Nat.exists_eq_add_of_le hs24
    have ha : k * 2 ^ 24 = 2 ^ excessBits p p * (k * 2 ^ d) := by
      rw [hd, pow_add]; ring
    simp only [roundSig24]
    rw [ha] at hlt hclose ⊢
    generalize k * 2 ^ d = k' at *
    generalize 2 ^ excessBits p p = T at *
    generalize hqq : p / T = q at *
    generalize p % T = r at *
    have hk' : q + 1 ≤ k' := by
      by_contra hcon
      have : k' ≤ q := by omega
      have := Nat.mul_le_mul_left T this
      omega
    have hk'' : k' ≤ q + 1 := by
      by_contra hcon
      have : q + 2 ≤ k' := by omega
      have h3 := Nat.mul_le_mul_left T this
      have : T * (q + 2) = T * q + 2 * T := by ring
      omega
    have hkq : k' = q + 1 := by omega
    subst hkq
    have hqT : T * (q + 1) = T * q + T := by ring
    have hup : 2 * r > T := by
      rw [hqT] at hclose hlt
      generalize T * q = X at *
      omega
    rw [if_pos (Or.inl hup), mul_comm]
theorem mulTruncate_natCast (k : Nat) (c : Float32) :
    Float32.mulTruncate (k : Int) c =
      ((roundSig24 (roundSig24 k * c.mantissa) / 2 ^ c.scale : Nat) : Int) := by
  cases k with
  | zero =>
    have h0 : roundSig24 0 = 0 := roundSig24_of_lt 0 (by norm_num)
    simp [Float32.mulTruncate, h0]
  | succ k =>
    have hs : Int.sign ((k + 1 : Nat) : Int) = 1 := Int.sign_eq_one_of_pos (by omega)
    simp only [Float32.mulTruncate, hs, Int.natAbs_ofNat, one_mul]

theorem roundSig24_mul_half (n : Nat) (hn : n < 2 ^ 24) :
    roundSig24 (n * 8388608) / 2 ^ 24 = n * 50 / 100 := by
  have hb := (roundSig24_bounds (n * 8388608)).1
  have hK1 := Nat.div_mul_le_self (n * 50) 100
  have hK2 := Nat.lt_div_mul_add (a := n * 50) (b := 100) (by norm_num)
  generalize n * 50 / 100 = K at *
  have hlow : K * 2 ^ 24 ≤ roundSig24 (n * 8388608) :=
    roundSig24_ge_of_representable _ K 24 (by omega) (by omega)
  exact Nat.div_eq_of_lt_le hlow (by omega)

theorem roundSig24_mul_020 (n : Nat) (hn : n ≤ 3000000) :
    roundSig24 (n * 13421773) / 2 ^ 26 = n * 20 / 100 := by
  have hb := (roundSig24_bounds (n * 13421773)).1
  have hK1 := Nat.div_mul_le_self (n * 20) 100
  have hK2 := Nat.lt_div_mul_add (a := n * 20) (b := 100) (by norm_num)
  generalize n * 20 / 100 = K at *
  have hlow : K * 2 ^ 26 ≤ roundSig24 (n * 13421773) :=
    roundSig24_ge_of_representable _ K 26 (by omega) (by omega)
  exact Nat.div_eq_of_lt_le hlow (by omega)

theorem roundSig24_mul_035 (n : Nat) (hn : n ≤ 3000000) :
    roundSig24 (n * 11744051) / 2 ^ 25 = n * 35 / 100 := by
  have hb := (roundSig24_bounds (n * 11744051)).1
  have hK1 := Nat.div_mul_le_self (n * 35) 100
  have hK2 := Nat.lt_div_mul_add (a := n * 35) (b := 100) (by norm_num)
  generalize n * 35 / 100 = K at *
  have hlow : K * 2 ^ 25 ≤ roundSig24 (n * 11744051) := by
    by_cases hc : K * 2 ^ 25 ≤ n * 11744051
    · exact roundSig24_ge_of_representable _ K 25 (by omega) hc
    · have := roundSig24_ge_of_close (n * 11744051) (2 * K) (by omega) (by omega) (by omega)
      omega
  exact Nat.div_eq_of_lt_le hlow (by omega)

theorem roundSig24_mul_045 (n : Nat) (hn : n ≤ 3000000) :
    roundSig24 (n * 15099494) / 2 ^ 25 = n * 45 / 100 := by
  have hb := (roundSig24_bounds (n * 15099494)).1
  have hK1 := Nat.div_mul_le_self (n * 45) 100
  have hK2 := Nat.lt_div_mul_add (a := n * 45) (b := 100) (by norm_num)
  generalize n * 45 / 100 = K at *
  have hlow : K * 2 ^ 25 ≤ roundSig24 (n * 15099494) := by
    by_cases hc : K * 2 ^ 25 ≤ n * 15099494
    · exact roundSig24_ge_of_representable _ K 25 (by omega) hc
    · have := roundSig24_ge_of_close (n * 15099494) (2 * K) (by omega) (by omega) (by omega)
      omega
  exact Nat.div_eq_of_lt_le hlow (by omega)

theorem table_low : HostilityMineYieldTable .Low =
    some (⟨10066330, 25⟩, ⟨8388608, 24⟩, ⟨13421773, 26⟩) := by decide

theorem table_medium : HostilityMineYieldTable .Medium =
    some (⟨15099494, 25⟩, ⟨11744051, 25⟩, ⟨13421773, 26⟩) := by decide

theorem table_high : HostilityMineYieldTable .High =
    some (⟨11744051, 25⟩, ⟨13421773, 26⟩, ⟨15099494, 25⟩) := by decide

/-- The result of `mineYieldCounts` in terms of the three raw products. -/
theorem mineYieldCounts_of_raw (n t1 t2 t3 : Nat) (hostility : Hostility)
    (c1 c2 c3 : Float32) (htab : HostilityMineYieldTable hostility = some (c1, c2, c3))
    (h1 : Float32.mulTruncate (n : Int) c1 = (t1 : Int))
    (h2 : Float32.mulTruncate (n : Int) c2 = (t2 : Int))
    (h3 : Float32.mulTruncate (n : Int) c3 = (t3 : Int))
    (hsum : t1 + t2 + t3 ≤ n) :
    mineYieldCounts (n : Int) hostility = .ok (((n - t2 - t3 : Nat) : Int), (t2 : Int), (t3 : Int)) := by
  simp only [mineYieldCounts, htab, h1, h2, h3]
  congr 2
  split_ifs <;> omega
theorem mulTruncate_of_lt (n : Nat) (hn : n < 2 ^ 24) (m e : Nat) :
    Float32.mulTruncate (n : Int) ⟨m, e⟩ = ((roundSig24 (n * m) / 2 ^ e : Nat) : Int) := by
  rw [mulTruncate_natCast, roundSig24_of_lt n hn]

/-- For at most `2^24` mines the three binary32 products never add up to more
than the requested count, so after the shortfall is added the counts add up
to exactly `mineCount`. -/
theorem mineYieldCounts_sum (n : Nat) (hn : n ≤ 2 ^ 24) (hostility : Hostility)
    (hh : hostility ≠ Hostility.None) :
    ∃ yl ym yh : Nat, mineYieldCounts (n : Int) hostility = .ok ((yl : Int), (ym : Int), (yh : Int)) ∧
      yl + ym + yh = n := by
  rcases Nat.lt_or_ge n (2 ^ 24) with hlt | hge
  · have hdiv : ∀ m e : Nat, roundSig24 (n * m) / 2 ^ e * 2 ^ e ≤ roundSig24 (n * m) :=
      fun m e => Nat.div_mul_le_self _ _
    have hbd : ∀ m : Nat, 2 ^ 24 * roundSig24 (n * m) ≤ (2 ^ 24 + 1) * (n * m) :=
      fun m => (roundSig24_bounds (n * m)).1
    cases hostility with
    | None => exact absurd rfl hh
    | Low =>
      have e2 := roundSig24_mul_half n hlt
      have h2 := Nat.div_mul_le_self (n * 50) 100
      have d1 := hdiv 10066330 25
      have d3 := hdiv 13421773 26
      have b1 := hbd 10066330
      have b3 := hbd 13421773
      have hsum : roundSig24 (n * 10066330) / 2 ^ 25 + roundSig24 (n * 8388608) / 2 ^ 24 +
          roundSig24 (n * 13421773) / 2 ^ 26 ≤ n := by
        rw [e2]
        omega
      refine ⟨_, _, _, mineYieldCounts_of_raw n _ _ _ .Low _ _ _ table_low
        (mulTruncate_of_lt n hlt _ _) (mulTruncate_of_lt n hlt _ _)
        (mulTruncate_of_lt n hlt _ _) hsum, by omega⟩
    | Medium =>
      have d1 := hdiv 15099494 25
      have d2 := hdiv 11744051 25
      have d3 := hdiv 13421773 26
      have b1 := hbd 15099494
      have b2 := hbd 11744051
      have b3 := hbd 13421773
      have hsum : roundSig24 (n * 15099494) / 2 ^ 25 + roundSig24 (n * 11744051) / 2 ^ 25 +
          roundSig24 (n * 13421773) / 2 ^ 26 ≤ n := by
        omega
      refine ⟨_, _, _, mineYieldCounts_of_raw n _ _ _ .Medium _ _ _ table_medium
        (mulTruncate_of_lt n hlt _ _) (mulTruncate_of_lt n hlt _ _)
        (mulTruncate_of_lt n hlt _ _) hsum, by omega⟩
    | High =>
      have d1 := hdiv 11744051 25
      have d2 := hdiv 13421773 26
      have d3 := hdiv 15099494 25
      have b1 := hbd 11744051
      have b2 := hbd 13421773
      have b3 := hbd 15099494
      have hsum : roundSig24 (n * 11744051) / 2 ^ 25 + roundSig24 (n * 13421773) / 2 ^ 26 +
          roundSig24 (n * 15099494) / 2 ^ 25 ≤ n := by
        omega
      refine ⟨_, _, _, mineYieldCounts_of_raw n _ _ _ .High _ _ _ table_high
        (mulTruncate_of_lt n hlt _ _) (mulTruncate_of_lt n hlt _ _)
        (mulTruncate_of_lt n hlt _ _) hsum, by omega⟩
  · have hn' : n = 16777216 := by
      have : (2 : Nat) ^ 24 = 16777216 := by norm_num
      omega
    subst hn'
    cases hostility with
    | None => exact absurd rfl hh
    | Low => exact ⟨5033165, 8388608, 3355443, by rfl, by norm_num⟩
    | Medium => exact ⟨7549748, 5872025, 3355443, by rfl, by norm_num⟩
    | High => exact ⟨5872026, 3355443, 7549747, by rfl, by norm_num⟩

theorem isValidPosition_congr (tm tm' : TileMap) (hsz : tm'.mSizeInTiles = tm.mSizeInTiles)
    (hd : tm'.mMaxDepth = tm.mMaxDepth) (q : Point) (l : Int) :
    tm'.isValidPosition q l = tm.isValidPosition q l := by
  simp only [TileMap.isValidPosition, hsz, hd]

theorem allocated_modify (tm tm' : TileMap) (l y x : Nat) (f : Tile → Tile)
    (ha : tm.Allocated) (hg : tm'.mTileMap = tm.mTileMap.modify l y x f)
    (hsz : tm'.mSizeInTiles = tm.mSizeInTiles) (hd : tm'.mMaxDepth = tm.mMaxDepth) :
    tm'.Allocated := by
  intro l' y' x' h1 h2 h3
  rw [hd] at h1
  rw [hsz] at h2 h3
  have h := ha l' y' x' h1 h2 h3
  rw [hg, TileArray.at?_modify]
  split_ifs with hc
  · obtain ⟨rfl, rfl, rfl⟩ := hc
    obtain ⟨t, ht⟩ := Option.isSome_iff_exists.1 h
    simp [ht]
  · exact h

theorem updateTile_of_valid (tm : TileMap) (ha : tm.Allocated) (p : Point) (l : Int)
    (f : Tile → Tile) (hv : tm.isValidPosition p l = true) :
    tm.updateTile p l f =
      .ok { tm with mTileMap := tm.mTileMap.modify l.toNat p.y.toNat p.x.toNat f } := by
  obtain ⟨t, _, hget⟩ := getTile_of_valid tm ha p l hv
  simp only [TileMap.updateTile, hget]

theorem getTile_modify (tm tm' : TileMap) (p : Point) (l : Int) (f : Tile → Tile)
    (hv : tm.isValidPosition p l = true)
    (hg : tm'.mTileMap = tm.mTileMap.modify l.toNat p.y.toNat p.x.toNat f)
    (hsz : tm'.mSizeInTiles = tm.mSizeInTiles) (hd : tm'.mMaxDepth = tm.mMaxDepth)
    (q : Point) (l' : Int) :
    tm'.getTile q l' =
      if q = p ∧ l' = l then
        (match tm.getTile p l with
          | .ok t => .ok (f t)
          | .error e => .error e)
      else tm.getTile q l' := by
  have hval := isValidPosition_congr tm tm' hsz hd q l'
  by_cases hc : q = p ∧ l' = l
  · obtain ⟨rfl, rfl⟩ := hc
    simp only [TileMap.getTile, hval, hv, hg, TileArray.at?_modify, and_self, if_true,
      Bool.not_true]
    cases tm.mTileMap.at? l'.toNat q.y.toNat q.x.toNat <;> rfl
  · rw [if_neg hc]
    cases hq : tm.isValidPosition q l' with
    | false => simp [TileMap.getTile, hval, hq]
    | true =>
      have h1 := (isValidPosition_iff tm p l).1 hv
      have h2 := (isValidPosition_iff tm q l').1 hq
      have hne : ¬ (l.toNat = l'.toNat ∧ p.y.toNat = q.y.toNat ∧ p.x.toNat = q.x.toNat) := by
        rintro ⟨e1, e2, e3⟩
        apply hc
        have hx : q.x = p.x := by omega
        have hy : q.y = p.y := by omega
        refine ⟨?_, by omega⟩
        cases q; cases p
        simp only [Point.mk.injEq] at *
        exact ⟨hx, hy⟩
      simp only [TileMap.getTile, hval, hq, hg, TileArray.at?_modify, if_neg hne]

theorem mineAt_modify (tm tm' : TileMap) (ha : tm.Allocated) (p : Point) (m : Option Mine)
    (g : Tile → Tile) (hv : tm.isValidPosition p 0 = true)
    (hg : tm'.mTileMap = tm.mTileMap.modify (0 : Int).toNat p.y.toNat p.x.toNat
      (fun tile => g (tile.pushMine m)))
    (hgm : ∀ t : Tile, (g t).mine = t.mine)
    (hsz : tm'.mSizeInTiles = tm.mSizeInTiles) (hd : tm'.mMaxDepth = tm.mMaxDepth) (q : Point) :
    tm'.mineAt q = if q = p then m.isSome else tm.mineAt q := by
  obtain ⟨t, _, hget⟩ := getTile_of_valid tm ha p 0 hv
  simp only [TileMap.mineAt, getTile_modify tm tm' p 0 _ hv hg hsz hd q 0, and_true]
  split_ifs with hc
  · simp [hget, Tile.hasMine, hgm, Tile.pushMine]
  · rfl

theorem getTile_hasMine_of_valid (tm : TileMap) (ha : tm.Allocated) (p : Point)
    (hv : tm.isValidPosition p 0 = true) :
    ∃ t, tm.getTile p 0 = .ok t ∧ t.hasMine = tm.mineAt p := by
  obtain ⟨t, _, hget⟩ := getTile_of_valid tm ha p 0 hv
  exact ⟨t, hget, by simp [TileMap.mineAt, hget]⟩

theorem scanLoop_none (tm : TileMap) (ha : tm.Allocated) (c : Point) (scan : List Vector)
    (hring : ∀ d ∈ scan, tm.isValidPosition (c.add d) 0 = true)
    (hnone : ∀ d ∈ scan, tm.mineAt (c.add d) = false) :
    findSurroundingMineLocation.scanLoop tm c scan = .ok none := by
  induction scan with
  | nil => rfl
  | cons d rest ih =>
    obtain ⟨t, hget, hm⟩ := getTile_hasMine_of_valid tm ha (c.add d)
      (hring d (List.mem_cons_self _ _))
    rw [hnone d (List.mem_cons_self _ _)] at hm
    simp only [findSurroundingMineLocation.scanLoop, hget, hm]
    exact ih (fun d' hd' => hring d' (List.mem_cons_of_mem _ hd'))
      (fun d' hd' => hnone d' (List.mem_cons_of_mem _ hd'))

theorem scanLoop_some (tm : TileMap) (ha : tm.Allocated) (c : Point) (scan : List Vector)
    (hring : ∀ d ∈ scan, tm.isValidPosition (c.add d) 0 = true)
    (hsome : ∃ d ∈ scan, tm.mineAt (c.add d) = true) :
    ∃ pre d post, scan = pre ++ d :: post ∧ (∀ d' ∈ pre, tm.mineAt (c.add d') = false) ∧
      tm.mineAt (c.add d) = true ∧
      findSurroundingMineLocation.scanLoop tm c scan = .ok (some (c.add d)) := by
  induction scan with
  | nil =>
    obtain ⟨d, hd, _⟩ := hsome
    exact absurd hd (List.not_mem_nil d)
  | cons d rest ih =>
    obtain ⟨t, hget, hm⟩ := getTile_hasMine_of_valid tm ha (c.add d)
      (hring d (List.mem_cons_self _ _))
    cases hmd : tm.mineAt (c.add d) with
    | true =>
      refine ⟨[], d, rest, rfl, fun d' hd' => absurd hd' (List.not_mem_nil d'), hmd, ?_⟩
      rw [hmd] at hm
      simp only [findSurroundingMineLocation.scanLoop, hget, hm, if_true]
    | false =>
      have hsome' : ∃ d' ∈ rest, tm.mineAt (c.add d') = true := by
        obtain ⟨d', hd', hmd'⟩ := hsome
        rcases List.mem_cons.1 hd' with rfl | hin
        · rw [hmd] at hmd'
          exact absurd hmd' (by decide)
        · exact ⟨d', hin, hmd'⟩
      obtain ⟨pre, d', post, hsplit, hpre, hd', hres⟩ :=
        ih (fun d' hd' => hring d' (List.mem_cons_of_mem _ hd')) hsome'
      refine ⟨d :: pre, d', post, by rw [hsplit]; rfl, ?_, hd', ?_⟩
      · intro e he
        rcases List.mem_cons.1 he with rfl | hin
        · exact hmd
        · exact hpre e hin
      · rw [hmd] at hm
        simp only [findSurroundingMineLocation.scanLoop, hget, hm]
        exact hres

theorem findSurroundingMineLocation_of_clear (tm : TileMap) (ha : tm.Allocated)
    (scan : List Vector) (c : Point) (hc : tm.isValidPosition c 0 = true)
    (hclear : tm.mineAt c = false) : tm.findSurroundingMineLocation scan c = .ok c := by
  obtain ⟨t, hget, hm⟩ := getTile_hasMine_of_valid tm ha c hc
  rw [hclear] at hm
  simp [TileMap.findSurroundingMineLocation, hget, hm]

/-- The location chosen by `findSurroundingMineLocation` is always a valid
depth-0 position when the centre and its scan ring are on the map. -/
theorem findSurroundingMineLocation_valid (tm : TileMap) (ha : tm.Allocated)
    (scan : List Vector) (c : Point) (hc : tm.isValidPosition c 0 = true)
    (hring : ∀ d ∈ scan, tm.isValidPosition (c.add d) 0 = true) :
    ∃ q, tm.findSurroundingMineLocation scan c = .ok q ∧ tm.isValidPosition q 0 = true := by
  obtain ⟨t, hget, hm⟩ := getTile_hasMine_of_valid tm ha c hc
  cases hmc : tm.mineAt c with
  | false => exact ⟨c, findSurroundingMineLocation_of_clear tm ha scan c hc hmc, hc⟩
  | true =>
    rw [hmc] at hm
    by_cases hsome : ∃ d ∈ scan, tm.mineAt (c.add d) = true
    · obtain ⟨pre, d, post, hsplit, _, _, hres⟩ := scanLoop_some tm ha c scan hring hsome
      refine ⟨c.add d, ?_, hring d (by rw [hsplit]; simp)⟩
      simp [TileMap.findSurroundingMineLocation, hget, hm, hres]
    · have hnone : ∀ d ∈ scan, tm.mineAt (c.add d) = false := by
        intro d hd
        cases hx : tm.mineAt (c.add d) with
        | false => rfl
        | true => exact absurd ⟨d, hd, hx⟩ hsome
      refine ⟨c, ?_, hc⟩
      simp [TileMap.findSurroundingMineLocation, hget, hm, scanLoop_none tm ha c scan hring hnone]

/-- The effect of one `addMineSet` call on a map where the suggested point
and its scan ring are valid positions. -/
theorem addMineSet_spec (tm : TileMap) (ha : tm.Allocated) (scan : List Vector) (p : Point)
    (rate : MineProductionRate) (hp : tm.isValidPosition p 0 = true)
    (hring : ∀ d ∈ scan, tm.isValidPosition (p.add d) 0 = true) :
    ∃ (q : Point) (tm' : TileMap), tm.findSurroundingMineLocation scan p = .ok q ∧
      tm.isValidPosition q 0 = true ∧ tm.addMineSet scan p rate = .ok tm' ∧
      tm'.Allocated ∧ tm'.mSizeInTiles = tm.mSizeInTiles ∧ tm'.mMaxDepth = tm.mMaxDepth ∧
      tm'.mMineLocations = tm.mMineLocations ++ [q] ∧
      ∀ r, tm'.mineAt r = if r = q then true else tm.mineAt r := by
  obtain ⟨q, hfind, hq⟩ := findSurroundingMineLocation_valid tm ha scan p hp hring
  have hupd := updateTile_of_valid tm ha q 0
    (fun tile => (tile.pushMine (some (Mine.new rate))).setIndex TERRAIN_DOZED) hq
  refine ⟨q, { tm with
      mTileMap := tm.mTileMap.modify (0 : Int).toNat q.y.toNat q.x.toNat
        (fun tile => (tile.pushMine (some (Mine.new rate))).setIndex TERRAIN_DOZED),
      mMineLocations := tm.mMineLocations ++ [q] }, hfind, hq, ?_, ?_, rfl, rfl, rfl, ?_⟩
  · simp only [TileMap.addMineSet, hfind, hupd]
  · exact allocated_modify tm _ _ _ _ _ ha rfl rfl rfl
  · intro r
    have h := mineAt_modify tm { tm with
      mTileMap := tm.mTileMap.modify (0 : Int).toNat q.y.toNat q.x.toNat
        (fun tile => (tile.pushMine (some (Mine.new rate))).setIndex TERRAIN_DOZED),
      mMineLocations := tm.mMineLocations ++ [q] } ha q (some (Mine.new rate))
      (fun t => t.setIndex TERRAIN_DOZED) hq rfl (fun _ => rfl) rfl rfl r
    simpa using h

theorem forRange_invariant {σ : Type} (body : Nat → σ → Except Error σ) (Inv : Nat → σ → Prop)
    (k : Nat) : ∀ (s : Nat) (st : σ),
      (∀ i st, s ≤ i → i < s + k → Inv i st → ∃ st', body i st = .ok st' ∧ Inv (i + 1) st') →
      Inv s st → ∃ st', forRange body s k st = .ok st' ∧ Inv (s + k) st' := by
  induction k with
  | zero => exact fun s st _ h => ⟨st, rfl, h⟩
  | succ k ih =>
    intro s st hstep h
    obtain ⟨st1, h1, hInv1⟩ := hstep s st le_rfl (by omega) h
    obtain ⟨st2, h2, hInv2⟩ := ih (s + 1) st1
      (fun i st' hi1 hi2 hI => hstep i st' (by omega) (by omega) hI) hInv1
    refine ⟨st2, ?_, ?_⟩
    · simp only [forRange, h1]
      exact h2
    · have : s + (k + 1) = s + 1 + k := by omega
      rw [this]
      exact hInv2

/-- An invariant indexed by the number of draws that every `addMineSet` call
preserves holds after `setupMines` for the total number of mines generated. -/
theorem setupMines_invariant (scan : List Vector) (randPoint : Nat → Point)
    (Inv : Nat → TileMap → Prop) (mineCount : Int) (hostility : Hostility) (yl ym yh : Nat)
    (hh : hostility ≠ Hostility.None)
    (hcounts : mineYieldCounts mineCount hostility = .ok ((yl : Int), (ym : Int), (yh : Int)))
    (hstep : ∀ i tm rate, i < yl + ym + yh → Inv i tm →
      ∃ tm', tm.addMineSet scan (randPoint i) rate = .ok tm' ∧ Inv (i + 1) tm')
    (tm : TileMap) (h0 : Inv 0 tm) :
    ∃ tm', tm.setupMines scan randPoint mineCount hostility = .ok tm' ∧
      Inv (yl + ym + yh) tm' := by
  obtain ⟨tm1, h1, hI1⟩ := forRange_invariant
    (fun k tm1 => tm1.addMineSet scan (randPoint k) .Low) Inv yl 0 tm
    (fun i st _ hi hI => hstep i st .Low (by omega) hI) h0
  obtain ⟨tm2, h2, hI2⟩ := forRange_invariant
    (fun k tm1 => tm1.addMineSet scan (randPoint k) .Medium) Inv ym (0 + yl) tm1
    (fun i st _ hi hI => hstep i st .Medium (by omega) hI) hI1
  obtain ⟨tm3, h3, hI3⟩ := forRange_invariant
    (fun k tm1 => tm1.addMineSet scan (randPoint k) .High) Inv yh (0 + yl + ym) tm2
    (fun i st _ hi hI => hstep i st .High (by omega) hI) hI2
  refine ⟨tm3, ?_, by simpa using hI3⟩
  simp only [zero_add] at h2 h3
  simp only [TileMap.setupMines, if_neg hh, hcounts, setupMines.generateAll,
    setupMines.generateMines, Int.toNat_ofNat, h1, h2, h3]

/-- C9: `setupMines` with hostility `None` returns at once: the result is the
map it was given, so the mine location list and every tile are unchanged, and
a list that was empty is still empty. -/
theorem setupMines_none_unchanged (tm : TileMap) (scan : List Vector) (randPoint : Nat → Point)
    (mineCount : Int) :
    tm.setupMines scan randPoint mineCount Hostility.None = .ok tm ∧
      (tm.mMineLocations = [] →
        ∃ tm', tm.setupMines scan randPoint mineCount Hostility.None = .ok tm' ∧
          tm'.mMineLocations = [] ∧ tm'.mTileMap = tm.mTileMap) := by
  have h : tm.setupMines scan randPoint mineCount Hostility.None = .ok tm := by
    simp [TileMap.setupMines]
  exact ⟨h, fun hempty => ⟨tm, h, hempty, rfl⟩⟩

theorem built_eq (width height maxDepth : Int) (hm : Point → Nat) :
    ∃ g : TileArray,
      TileMap.built width height maxDepth hm =
        { TileMap.init width height maxDepth with mTileMap := g } ∧
      ∀ l y x : Nat, (l : Int) ≤ maxDepth → (y : Int) < height → (x : Int) < width →
        g.at? l y x = some (builtTile hm l y x) := by
  obtain ⟨g, hbuild, hg⟩ := buildTerrainMap_spec (TileMap.init width height maxDepth) hm
  exact ⟨g, by simp only [TileMap.built, hbuild], hg⟩

theorem built_size (width height maxDepth : Int) (hm : Point → Nat) :
    (TileMap.built width height maxDepth hm).mSizeInTiles = ⟨width, height⟩ := by
  obtain ⟨g, h, _⟩ := built_eq width height maxDepth hm
  rw [h]; rfl

theorem built_maxDepth (width height maxDepth : Int) (hm : Point → Nat) :
    (TileMap.built width height maxDepth hm).mMaxDepth = maxDepth := by
  obtain ⟨g, h, _⟩ := built_eq width height maxDepth hm
  rw [h]; rfl

theorem built_mineLocations (width height maxDepth : Int) (hm : Point → Nat) :
    (TileMap.built width height maxDepth hm).mMineLocations = [] := by
  obtain ⟨g, h, _⟩ := built_eq width height maxDepth hm
  rw [h]; rfl

theorem built_is_allocated (width height maxDepth : Int) (hm : Point → Nat) :
    (TileMap.built width height maxDepth hm).Allocated := by
  obtain ⟨g, h, hg⟩ := built_eq width height maxDepth hm
  rw [h]
  exact built_allocated width height maxDepth g hm hg

theorem built_getTile (width height maxDepth : Int) (hm : Point → Nat) (p : Point) (l : Int)
    (hv : (TileMap.built width height maxDepth hm).isValidPosition p l = true) :
    (TileMap.built width height maxDepth hm).getTile p l =
      .ok (builtTile hm l.toNat p.y.toNat p.x.toNat) := by
  obtain ⟨t, ht, hget⟩ := getTile_of_valid _ (built_is_allocated width height maxDepth hm) p l hv
  have hiff := (isValidPosition_iff _ p l).1 hv
  rw [built_size, built_maxDepth] at hiff
  obtain ⟨g, h, hg⟩ := built_eq width height maxDepth hm
  rw [h] at ht
  simp only at ht hiff
  rw [hg l.toNat p.y.toNat p.x.toNat (by omega) (by omega) (by omega)] at ht
  rw [hget, ← Option.some.inj ht]

theorem built_mineAt (width height maxDepth : Int) (hm : Point → Nat) (p : Point) :
    (TileMap.built width height maxDepth hm).mineAt p = false := by
  cases hv : (TileMap.built width height maxDepth hm).isValidPosition p 0 with
  | false => simp [TileMap.mineAt, getTile_of_invalid _ p 0 hv]
  | true =>
    simp only [TileMap.mineAt, built_getTile width height maxDepth hm p 0 hv, builtTile,
      Tile.hasMine]
    split_ifs <;> rfl

/-- Every point the two `uniform_int_distribution`s of `setupMines` can
return (`5 ≤ x ≤ MAP_WIDTH - 5`, `5 ≤ y ≤ MAP_HEIGHT - 5`) and every point of
its scan ring is a valid depth-0 position of a map of the constructor's size. -/
theorem drawn_point_valid (tm : TileMap) (hsz : tm.mSizeInTiles = ⟨MAP_WIDTH, MAP_HEIGHT⟩)
    (hd : 0 ≤ tm.mMaxDepth) (p : Point) (hx : 5 ≤ p.x ∧ p.x ≤ MAP_WIDTH - 5)
    (hy : 5 ≤ p.y ∧ p.y ≤ MAP_HEIGHT - 5) :
    tm.isValidPosition p 0 = true ∧
      ∀ d ∈ DirectionScan323, tm.isValidPosition (p.add d) 0 = true := by
  simp only [MAP_WIDTH, MAP_HEIGHT] at hx hy
  constructor
  · rw [isValidPosition_iff, hsz]
    simp only [MAP_WIDTH, MAP_HEIGHT]
    omega
  · intro d hdm
    rw [isValidPosition_iff, hsz]
    simp only [MAP_WIDTH, MAP_HEIGHT]
    simp only [DirectionScan323, List.mem_cons, List.mem_singleton, List.not_mem_nil,
      or_false] at hdm
    rcases hdm with rfl | rfl | rfl | rfl | rfl | rfl | rfl | rfl <;>
      simp only [Point.add] <;> omega

/-- The list-length invariant of the mine generation loops. -/
theorem addMineSet_length_step (tm0 : TileMap) (scan : List Vector) (randPoint : Nat → Point)
    (hdraw : ∀ k, tm0.isValidPosition (randPoint k) 0 = true ∧
      ∀ d ∈ scan, tm0.isValidPosition ((randPoint k).add d) 0 = true)
    (i : Nat) (tm : TileMap) (rate : MineProductionRate)
    (hI : tm.Allocated ∧ tm.mSizeInTiles = tm0.mSizeInTiles ∧ tm.mMaxDepth = tm0.mMaxDepth ∧
      tm.mMineLocations.length = i) :
    ∃ tm', tm.addMineSet scan (randPoint i) rate = .ok tm' ∧
      (tm'.Allocated ∧ tm'.mSizeInTiles = tm0.mSizeInTiles ∧ tm'.mMaxDepth = tm0.mMaxDepth ∧
        tm'.mMineLocations.length = i + 1) := by
  obtain ⟨ha, hsz, hd, hlen⟩ := hI
  have hv := isValidPosition_congr tm0 tm hsz hd
  obtain ⟨q, tm', _, _, hadd, ha', hsz', hd', hlist, _⟩ := addMineSet_spec tm ha scan
    (randPoint i) rate (by rw [hv]; exact (hdraw i).1)
    (fun d hdm => by rw [hv]; exact (hdraw i).2 d hdm)
  exact ⟨tm', hadd, ha', hsz'.trans hsz, hd'.trans hd, by simp [hlist, hlen]⟩

/-- C3 (amended): for every `mineCount` from 0 to 16777216 (`2^24`) and every
hostility other than `None`, `setupMines` on an allocated map with an empty
mine list, whatever valid points the generator draws, succeeds and leaves
exactly `mineCount` entries in the mine location list; the low, medium and
high tier counts add up to `mineCount` after the shortfall is added to the
low tier. -/
theorem setupMines_count (tm : TileMap) (ha : tm.Allocated) (scan : List Vector)
    (randPoint : Nat → Point) (mineCount : Int) (hostility : Hostility)
    (h0 : 0 ≤ mineCount) (hB : mineCount ≤ 16777216) (hh : hostility ≠ Hostility.None)
    (hempty : tm.mMineLocations = [])
    (hdraw : ∀ k, tm.isValidPosition (randPoint k) 0 = true ∧
      ∀ d ∈ scan, tm.isValidPosition ((randPoint k).add d) 0 = true) :
    ∃ tm', tm.setupMines scan randPoint mineCount hostility = .ok tm' ∧
      (tm'.mMineLocations.length : Int) = mineCount ∧
      ∃ yieldLow yieldMedium yieldHigh : Int,
        mineYieldCounts mineCount hostility = .ok (yieldLow, yieldMedium, yieldHigh) ∧
        0 ≤ yieldLow ∧ 0 ≤ yieldMedium ∧ 0 ≤ yieldHigh ∧
        yieldLow + yieldMedium + yieldHigh = mineCount := by
  obtain ⟨n, rfl⟩ := Int.eq_ofNat_of_zero_le h0
  have hn : n ≤ 2 ^ 24 := by
    have : (2 : Nat) ^ 24 = 16777216 := by norm_num
    omega
  obtain ⟨yl, ym, yh, hcounts, hsum⟩ := mineYieldCounts_sum n hn hostility hh
  obtain ⟨tm', hrun, _, _, _, hlen⟩ := setupMines_invariant scan randPoint
    (fun i t => t.Allocated ∧ t.mSizeInTiles = tm.mSizeInTiles ∧ t.mMaxDepth = tm.mMaxDepth ∧
      t.mMineLocations.length = i) (n : Int) hostility yl ym yh hh hcounts
    (fun i t rate _ hI => addMineSet_length_step tm scan randPoint hdraw i t rate hI)
    tm ⟨ha, rfl, rfl, by simp [hempty]⟩
  refine ⟨tm', hrun, ?_, yl, ym, yh, hcounts, by omega, by omega, by omega, by omega⟩
  rw [hlen]
  omega

theorem built_maxDepth_nonneg (width height maxDepth : Int) (hm : Point → Nat)
    (hd : 0 ≤ maxDepth) : 0 ≤ (TileMap.built width height maxDepth hm).mMaxDepth := by
  rw [built_maxDepth]
  exact hd

theorem insetDraws_valid (tm : TileMap) (hsz : tm.mSizeInTiles = ⟨MAP_WIDTH, MAP_HEIGHT⟩)
    (hd : 0 ≤ tm.mMaxDepth) (k : Nat) :
    tm.isValidPosition (insetDraws k) 0 = true ∧
      ∀ d ∈ DirectionScan323, tm.isValidPosition ((insetDraws k).add d) 0 = true :=
  drawn_point_valid tm hsz hd (insetDraws k)
    (by simp only [insetDraws, MAP_WIDTH]; omega) (by simp only [insetDraws, MAP_HEIGHT]; omega)

/-- Witness for C3: 20 mines at low hostility on a map of the constructor's
size, the generator drawing points of the inset rectangle. -/
theorem setupMines_count_witness :
    ∃ tm', (TileMap.built MAP_WIDTH MAP_HEIGHT 4 (fun _ => 120)).setupMines DirectionScan323
        insetDraws 20 Hostility.Low = .ok tm' ∧
      (tm'.mMineLocations.length : Int) = 20 ∧
      ∃ yieldLow yieldMedium yieldHigh : Int,
        mineYieldCounts 20 Hostility.Low = .ok (yieldLow, yieldMedium, yieldHigh) ∧
        0 ≤ yieldLow ∧ 0 ≤ yieldMedium ∧ 0 ≤ yieldHigh ∧
        yieldLow + yieldMedium + yieldHigh = 20 :=
  setupMines_count (TileMap.built MAP_WIDTH MAP_HEIGHT 4 (fun _ => 120))
    (built_is_allocated MAP_WIDTH MAP_HEIGHT 4 (fun _ => 120)) DirectionScan323
    insetDraws 20 Hostility.Low (by decide)
    (by decide) (by decide) (built_mineLocations MAP_WIDTH MAP_HEIGHT 4 (fun _ => 120))
    (insetDraws_valid (TileMap.built MAP_WIDTH MAP_HEIGHT 4 (fun _ => 120))
      (built_size MAP_WIDTH MAP_HEIGHT 4 (fun _ => 120))
      (built_maxDepth_nonneg MAP_WIDTH MAP_HEIGHT 4 (fun _ => 120) (by decide)))

/-- Counterexample to C3 as stated: for `mineCount = 16777219` at low
hostility the conversion of the count to `float` rounds up to 16777220, the
three tier counts are 5033166, 8388610 and 3355444, their sum exceeds
`mineCount`, and `setupMines` leaves 16777220 entries in the list. -/
theorem setupMines_count_counterexample :
    mineYieldCounts 16777219 Hostility.Low = .ok (5033166, 8388610, 3355444) ∧
      ∃ tm', (TileMap.built MAP_WIDTH MAP_HEIGHT 4 (fun _ => 120)).setupMines DirectionScan323
          insetDraws 16777219 Hostility.Low = .ok tm' ∧
        tm'.mMineLocations.length = 16777220 ∧
        (tm'.mMineLocations.length : Int) ≠ 16777219 := by
  have hcounts : mineYieldCounts 16777219 Hostility.Low =
      .ok (((5033166 : Nat) : Int), ((8388610 : Nat) : Int), ((3355444 : Nat) : Int)) := by
    rfl
  refine ⟨hcounts, ?_⟩
  have hdraw := insetDraws_valid (TileMap.built MAP_WIDTH MAP_HEIGHT 4 (fun _ => 120))
    (built_size MAP_WIDTH MAP_HEIGHT 4 (fun _ => 120))
    (built_maxDepth_nonneg MAP_WIDTH MAP_HEIGHT 4 (fun _ => 120) (by decide))
  obtain ⟨tm', hrun, _, _, _, hlen⟩ := setupMines_invariant DirectionScan323 insetDraws
    (fun i t => t.Allocated ∧
      t.mSizeInTiles = (TileMap.built MAP_WIDTH MAP_HEIGHT 4 (fun _ => 120)).mSizeInTiles ∧
      t.mMaxDepth = (TileMap.built MAP_WIDTH MAP_HEIGHT 4 (fun _ => 120)).mMaxDepth ∧
      t.mMineLocations.length = i) 16777219 Hostility.Low 5033166 8388610 3355444
    (by decide) hcounts
    (fun i t rate _ hI => addMineSet_length_step
      (TileMap.built MAP_WIDTH MAP_HEIGHT 4 (fun _ => 120)) DirectionScan323 insetDraws
      hdraw i t rate hI)
    (TileMap.built MAP_WIDTH MAP_HEIGHT 4 (fun _ => 120))
    ⟨built_is_allocated MAP_WIDTH MAP_HEIGHT 4 (fun _ => 120), rfl, rfl,
      by rw [built_mineLocations]; rfl⟩
  refine ⟨tm', hrun, ?_, ?_⟩
  · rw [hlen]
  · rw [hlen]
    decide

theorem findSurroundingMineLocation_of_isolated (tm : TileMap) (ha : tm.Allocated)
    (scan : List Vector) (c : Point) (hc : tm.isValidPosition c 0 = true)
    (hring : ∀ d ∈ scan, tm.isValidPosition (c.add d) 0 = true)
    (hmine : tm.mineAt c = true) (hnone : ∀ d ∈ scan, tm.mineAt (c.add d) = false) :
    tm.findSurroundingMineLocation scan c = .ok c := by
  obtain ⟨t, hget, hm⟩ := getTile_hasMine_of_valid tm ha c hc
  rw [hmine] at hm
  simp [TileMap.findSurroundingMineLocation, hget, hm, scanLoop_none tm ha c scan hring hnone]

theorem findSurroundingMineLocation_of_neighbour (tm : TileMap) (ha : tm.Allocated)
    (scan : List Vector) (c : Point) (hc : tm.isValidPosition c 0 = true)
    (hring : ∀ d ∈ scan, tm.isValidPosition (c.add d) 0 = true)
    (hmine : tm.mineAt c = true) (hsome : ∃ d ∈ scan, tm.mineAt (c.add d) = true) :
    ∃ pre d post, scan = pre ++ d :: post ∧ (∀ d' ∈ pre, tm.mineAt (c.add d') = false) ∧
      tm.mineAt (c.add d) = true ∧ tm.findSurroundingMineLocation scan c = .ok (c.add d) := by
  obtain ⟨t, hget, hm⟩ := getTile_hasMine_of_valid tm ha c hc
  rw [hmine] at hm
  obtain ⟨pre, d, post, hsplit, hpre, hd, hres⟩ := scanLoop_some tm ha c scan hring hsome
  exact ⟨pre, d, post, hsplit, hpre, hd,
    by simp [TileMap.findSurroundingMineLocation, hget, hm, hres]⟩

/-- One `addMineSet` call at a point whose tile holds no mine: the mine goes
to that very point. -/
theorem addMineSet_of_clear (tm : TileMap) (ha : tm.Allocated) (scan : List Vector) (p : Point)
    (rate : MineProductionRate) (hp : tm.isValidPosition p 0 = true)
    (hring : ∀ d ∈ scan, tm.isValidPosition (p.add d) 0 = true)
    (hclear : tm.mineAt p = false) :
    ∃ tm' : TileMap, tm.addMineSet scan p rate = .ok tm' ∧
      tm'.Allocated ∧ tm'.mSizeInTiles = tm.mSizeInTiles ∧ tm'.mMaxDepth = tm.mMaxDepth ∧
      tm'.mMineLocations = tm.mMineLocations ++ [p] ∧
      ∀ r, tm'.mineAt r = if r = p then true else tm.mineAt r := by
  obtain ⟨q, tm', hfind, _, hadd, ha', hsz, hd, hlist, hmine⟩ :=
    addMineSet_spec tm ha scan p rate hp hring
  rw [findSurroundingMineLocation_of_clear tm ha scan p hp hclear] at hfind
  have hq : p = q := Except.ok.inj hfind
  subst hq
  exact ⟨tm', hadd, ha', hsz, hd, hlist, hmine⟩

/-- The invariant of mine generation from pairwise distinct draws: the list
is the sequence of drawn points and a tile holds a mine exactly when its
position is in the list. -/
theorem addMineSet_distinct_step (tm0 : TileMap) (scan : List Vector) (randPoint : Nat → Point)
    (total : Nat)
    (hdraw : ∀ k, tm0.isValidPosition (randPoint k) 0 = true ∧
      ∀ d ∈ scan, tm0.isValidPosition ((randPoint k).add d) 0 = true)
    (hinj : ∀ i j : Nat, i < total → j < total → randPoint i = randPoint j → i = j)
    (i : Nat) (tm : TileMap) (rate : MineProductionRate) (hi : i < total)
    (hI : tm.Allocated ∧ tm.mSizeInTiles = tm0.mSizeInTiles ∧ tm.mMaxDepth = tm0.mMaxDepth ∧
      tm.mMineLocations = (List.range i).map randPoint ∧
      ∀ q, tm.mineAt q = true ↔ q ∈ tm.mMineLocations) :
    ∃ tm', tm.addMineSet scan (randPoint i) rate = .ok tm' ∧
      (tm'.Allocated ∧ tm'.mSizeInTiles = tm0.mSizeInTiles ∧ tm'.mMaxDepth = tm0.mMaxDepth ∧
        tm'.mMineLocations = (List.range (i + 1)).map randPoint ∧
        ∀ q, tm'.mineAt q = true ↔ q ∈ tm'.mMineLocations) := by
  obtain ⟨ha, hsz, hd, hlist, hmine⟩ := hI
  have hv := isValidPosition_congr tm0 tm hsz hd
  have hnotin : randPoint i ∉ tm.mMineLocations := by
    rw [hlist]
    intro hin
    obtain ⟨j, hj, hje⟩ := List.mem_map.1 hin
    have hji : j < i := List.mem_range.1 hj
    have := hinj j i (by omega) hi hje
    omega
  have hclear : tm.mineAt (randPoint i) = false := by
    cases h : tm.mineAt (randPoint i) with
    | false => rfl
    | true => exact absurd ((hmine _).1 h) hnotin
  obtain ⟨tm', hadd, ha', hsz', hd', hlist', hmine'⟩ := addMineSet_of_clear tm ha scan
    (randPoint i) rate (by rw [hv]; exact (hdraw i).1)
    (fun d hdm => by rw [hv]; exact (hdraw i).2 d hdm) hclear
  refine ⟨tm', hadd, ha', hsz'.trans hsz, hd'.trans hd, ?_, ?_⟩
  · rw [hlist', hlist, List.range_succ, List.map_append]
    rfl
  · intro q
    rw [hmine' q, hlist', List.mem_append, List.mem_singleton]
    by_cases hq : q = randPoint i
    · simp [hq]
    · simp only [if_neg hq, hq, or_false]
      exact hmine q

/-- C4 (amended): after `setupMines` with a hostility other than `None` and
`0 ≤ mineCount ≤ 2^24`, on an allocated map with an empty mine list and no
mine on any tile, no two entries of the mine location list are equal provided
the points drawn by the generator are pairwise distinct; the list is then
the sequence of drawn points. -/
theorem setupMines_distinct (tm : TileMap) (ha : tm.Allocated) (scan : List Vector)
    (randPoint : Nat → Point) (mineCount : Int) (hostility : Hostility)
    (h0 : 0 ≤ mineCount) (hB : mineCount ≤ 16777216) (hh : hostility ≠ Hostility.None)
    (hempty : tm.mMineLocations = []) (hclear : ∀ q, tm.mineAt q = false)
    (hdraw : ∀ k, tm.isValidPosition (randPoint k) 0 = true ∧
      ∀ d ∈ scan, tm.isValidPosition ((randPoint k).add d) 0 = true)
    (hinj : ∀ i j : Nat, (i : Int) < mineCount → (j : Int) < mineCount →
      randPoint i = randPoint j → i = j) :
    ∃ tm', tm.setupMines scan randPoint mineCount hostility = .ok tm' ∧
      tm'.mMineLocations.Nodup ∧
      tm'.mMineLocations = (List.range mineCount.toNat).map randPoint := by
  obtain ⟨n, rfl⟩ := Int.eq_ofNat_of_zero_le h0
  have hn : n ≤ 2 ^ 24 := by
    have : (2 : Nat) ^ 24 = 16777216 := by norm_num
    omega
  obtain ⟨yl, ym, yh, hcounts, hsum⟩ := mineYieldCounts_sum n hn hostility hh
  have hinj' : ∀ i j : Nat, i < n → j < n → randPoint i = randPoint j → i = j :=
    fun i j hi hj => hinj i j (by omega) (by omega)
  obtain ⟨tm', hrun, _, _, _, hlist, _⟩ := setupMines_invariant scan randPoint
    (fun i t => t.Allocated ∧ t.mSizeInTiles = tm.mSizeInTiles ∧ t.mMaxDepth = tm.mMaxDepth ∧
      t.mMineLocations = (List.range i).map randPoint ∧
      ∀ q, t.mineAt q = true ↔ q ∈ t.mMineLocations) (n : Int) hostility yl ym yh hh hcounts
    (fun i t rate hi hI =>
      addMineSet_distinct_step tm scan randPoint n hdraw hinj' i t rate (by omega) hI)
    tm ⟨ha, rfl, rfl, by simp [hempty], fun q => by simp [hempty, hclear q]⟩
  rw [hsum] at hlist
  refine ⟨tm', hrun, ?_, by simpa using hlist⟩
  rw [hlist]
  exact List.Nodup.map_on
    (fun i hi j hj hij => hinj' i j (List.mem_range.1 hi) (List.mem_range.1 hj) hij)
    (List.nodup_range n)

theorem orKeep_ok (tm tm' : TileMap) : orKeep (.ok tm') tm = tm' := rfl

theorem exampleMap_allocated : exampleMap.Allocated := by
  unfold exampleMap
  exact built_is_allocated _ _ _ _

theorem exampleMap_size : exampleMap.mSizeInTiles = ⟨MAP_WIDTH, MAP_HEIGHT⟩ := by
  unfold exampleMap
  exact built_size _ _ _ _

theorem exampleMap_maxDepth : exampleMap.mMaxDepth = 4 := by
  unfold exampleMap
  exact built_maxDepth _ _ _ _

theorem exampleMap_mineLocations : exampleMap.mMineLocations = [] := by
  unfold exampleMap
  exact built_mineLocations _ _ _ _

theorem exampleMap_mineAt (q : Point) : exampleMap.mineAt q = false := by
  unfold exampleMap
  exact built_mineAt _ _ _ _ q

theorem exampleMap_insetDraws (k : Nat) :
    exampleMap.isValidPosition (insetDraws k) 0 = true ∧
      ∀ d ∈ DirectionScan323, exampleMap.isValidPosition ((insetDraws k).add d) 0 = true :=
  insetDraws_valid exampleMap exampleMap_size (by rw [exampleMap_maxDepth]; omega) k

/-- Witness for C4: 20 mines at low hostility from the pairwise distinct
points of `insetDraws`. -/
theorem setupMines_distinct_witness :
    ∃ tm', exampleMap.setupMines DirectionScan323 insetDraws 20 Hostility.Low = .ok tm' ∧
      tm'.mMineLocations.Nodup ∧
      tm'.mMineLocations = (List.range (20 : Int).toNat).map insetDraws :=
  setupMines_distinct exampleMap exampleMap_allocated DirectionScan323 insetDraws 20
    Hostility.Low (by omega) (by omega) (fun h => Hostility.noConfusion h)
    exampleMap_mineLocations exampleMap_mineAt exampleMap_insetDraws
    (fun i j hi hj h => by
      simp only [insetDraws, Point.mk.injEq] at h
      omega)

/-- The points of the scan ring around a valid inset point, and the point
itself, seen from any map of the example map's shape. -/
theorem valid_of_shape (tm : TileMap) (hsz : tm.mSizeInTiles = exampleMap.mSizeInTiles)
    (hd : tm.mMaxDepth = exampleMap.mMaxDepth) (p : Point)
    (hx : 5 ≤ p.x ∧ p.x ≤ MAP_WIDTH - 5) (hy : 5 ≤ p.y ∧ p.y ≤ MAP_HEIGHT - 5) :
    tm.isValidPosition p 0 = true ∧
      ∀ d ∈ DirectionScan323, tm.isValidPosition (p.add d) 0 = true :=
  drawn_point_valid tm (hsz.trans exampleMap_size)
    (by rw [hd, exampleMap_maxDepth]; omega) p hx hy

theorem valid_centre (tm : TileMap) (hsz : tm.mSizeInTiles = exampleMap.mSizeInTiles)
    (hd : tm.mMaxDepth = exampleMap.mMaxDepth) :
    tm.isValidPosition ⟨10, 10⟩ 0 = true ∧
      ∀ d ∈ DirectionScan323, tm.isValidPosition ((⟨10, 10⟩ : Point).add d) 0 = true :=
  valid_of_shape tm hsz hd ⟨10, 10⟩ (by simp only [MAP_WIDTH]; omega)
    (by simp only [MAP_HEIGHT]; omega)

theorem ring_ne_centre (p : Point) : ∀ d ∈ DirectionScan323, p.add d ≠ p := by
  intro d hdm heq
  simp only [DirectionScan323, List.mem_cons, List.mem_singleton, List.not_mem_nil,
    or_false] at hdm
  have hx : p.x + d.x = p.x := congrArg Point.x heq
  have hy : p.y + d.y = p.y := congrArg Point.y heq
  rcases hdm with rfl | rfl | rfl | rfl | rfl | rfl | rfl | rfl <;> simp at hx hy

/-- Repeated `addMineSet` calls at one point `p` of a map that has no other
mine: every call lands on `p` again and appends `p` to the list. -/
theorem addMineSet_repeat_step (tm0 : TileMap) (p : Point)
    (hv : tm0.isValidPosition p 0 = true ∧
      ∀ d ∈ DirectionScan323, tm0.isValidPosition (p.add d) 0 = true)
    (i : Nat) (tm : TileMap) (rate : MineProductionRate)
    (hI : tm.Allocated ∧ tm.mSizeInTiles = tm0.mSizeInTiles ∧ tm.mMaxDepth = tm0.mMaxDepth ∧
      tm.mMineLocations = List.replicate i p ∧
      ∀ r, tm.mineAt r = (decide (r = p) && decide (0 < i))) :
    ∃ tm', tm.addMineSet DirectionScan323 p rate = .ok tm' ∧
      (tm'.Allocated ∧ tm'.mSizeInTiles = tm0.mSizeInTiles ∧ tm'.mMaxDepth = tm0.mMaxDepth ∧
        tm'.mMineLocations = List.replicate (i + 1) p ∧
        ∀ r, tm'.mineAt r = (decide (r = p) && decide (0 < i + 1))) := by
  obtain ⟨ha, hsz, hd, hlist, hmine⟩ := hI
  have hveq := isValidPosition_congr tm0 tm hsz hd
  have hp : tm.isValidPosition p 0 = true := by rw [hveq]; exact hv.1
  have hring : ∀ d ∈ DirectionScan323, tm.isValidPosition (p.add d) 0 = true :=
    fun d hdm => by rw [hveq]; exact hv.2 d hdm
  have hfind : tm.findSurroundingMineLocation DirectionScan323 p = .ok p := by
    cases hmp : tm.mineAt p with
    | false => exact findSurroundingMineLocation_of_clear tm ha _ p hp hmp
    | true =>
      refine findSurroundingMineLocation_of_isolated tm ha _ p hp hring hmp (fun d hdm => ?_)
      rw [hmine]
      simp [ring_ne_centre p d hdm]
  obtain ⟨q, tm', hfind', _, hadd, ha', hsz', hd', hlist', hmine'⟩ :=
    addMineSet_spec tm ha DirectionScan323 p rate hp hring
  rw [hfind] at hfind'
  have hq : p = q := Except.ok.inj hfind'
  subst hq
  refine ⟨tm', hadd, ha', hsz'.trans hsz, hd'.trans hd, ?_, fun r => ?_⟩
  · rw [hlist', hlist, List.replicate_succ']
  · rw [hmine' r, hmine r]
    by_cases hr : r = p <;> simp [hr]

/-- The state of `oneMineMap`: one mine, on `(10, 10)`. -/
theorem oneMineMap_spec :
    exampleMap.addMineSet DirectionScan323 ⟨10, 10⟩ .Low = .ok oneMineMap ∧
      oneMineMap.Allocated ∧ oneMineMap.mSizeInTiles = exampleMap.mSizeInTiles ∧
      oneMineMap.mMaxDepth = exampleMap.mMaxDepth ∧
      oneMineMap.mMineLocations = List.replicate 1 ⟨10, 10⟩ ∧
      ∀ r, oneMineMap.mineAt r = (decide (r = ⟨10, 10⟩) && decide (0 < 1)) := by
  obtain ⟨tm', hadd, h⟩ := addMineSet_repeat_step exampleMap ⟨10, 10⟩
    (valid_centre exampleMap rfl rfl) 0 exampleMap .Low
    ⟨exampleMap_allocated, rfl, rfl, exampleMap_mineLocations,
      fun r => by rw [exampleMap_mineAt]; simp⟩
  have he : oneMineMap = tm' := by
    unfold oneMineMap
    rw [hadd, orKeep_ok]
  rw [he]
  exact ⟨hadd, h⟩

/-- The state of `twoMineMap`: the second call lands on the same point, which
is now listed twice. -/
theorem twoMineMap_spec :
    oneMineMap.addMineSet DirectionScan323 ⟨10, 10⟩ .Low = .ok twoMineMap ∧
      twoMineMap.Allocated ∧ twoMineMap.mSizeInTiles = exampleMap.mSizeInTiles ∧
      twoMineMap.mMaxDepth = exampleMap.mMaxDepth ∧
      twoMineMap.mMineLocations = List.replicate 2 ⟨10, 10⟩ ∧
      ∀ r, twoMineMap.mineAt r = (decide (r = ⟨10, 10⟩) && decide (0 < 2)) := by
  obtain ⟨tm', hadd, h⟩ := addMineSet_repeat_step exampleMap ⟨10, 10⟩
    (valid_centre exampleMap rfl rfl) 1 oneMineMap .Low oneMineMap_spec.2
  have he : twoMineMap = tm' := by
    unfold twoMineMap
    rw [hadd, orKeep_ok]
  rw [he]
  exact ⟨hadd, h⟩

/-- Counterexample to C4 as stated: when the generator draws `(10, 10)` twice
(`mineCount = 2`, low hostility, tier counts 1, 1, 0) both mines go to
`(10, 10)` and the mine location list is `[(10, 10), (10, 10)]`. -/
theorem setupMines_distinct_counterexample :
    ∃ tm', exampleMap.setupMines DirectionScan323 (fun _ => ⟨10, 10⟩) 2 Hostility.Low
        = .ok tm' ∧
      tm'.mMineLocations = [⟨10, 10⟩, ⟨10, 10⟩] ∧ ¬ tm'.mMineLocations.Nodup := by
  have hcounts : mineYieldCounts 2 Hostility.Low =
      .ok (((1 : Nat) : Int), ((1 : Nat) : Int), ((0 : Nat) : Int)) := by rfl
  obtain ⟨tm', hrun, _, _, _, hlist, _⟩ := setupMines_invariant DirectionScan323
    (fun _ => ⟨10, 10⟩)
    (fun i t => t.Allocated ∧ t.mSizeInTiles = exampleMap.mSizeInTiles ∧
      t.mMaxDepth = exampleMap.mMaxDepth ∧ t.mMineLocations = List.replicate i ⟨10, 10⟩ ∧
      ∀ r, t.mineAt r = (decide (r = ⟨10, 10⟩) && decide (0 < i)))
    2 Hostility.Low 1 1 0 (fun h => Hostility.noConfusion h) hcounts
    (fun i t rate _ hI => addMineSet_repeat_step exampleMap ⟨10, 10⟩
      (valid_centre exampleMap rfl rfl) i t rate hI)
    exampleMap ⟨exampleMap_allocated, rfl, rfl, exampleMap_mineLocations,
      fun r => by rw [exampleMap_mineAt]; simp⟩
  have hl : tm'.mMineLocations = [⟨10, 10⟩, ⟨10, 10⟩] := hlist
  refine ⟨tm', hrun, hl, ?_⟩
  rw [hl]
  exact fun h => absurd (List.nodup_cons.1 h).1 (by simp)

theorem blockDraws_valid (tm : TileMap) (hsz : tm.mSizeInTiles = exampleMap.mSizeInTiles)
    (hd : tm.mMaxDepth = exampleMap.mMaxDepth) (k : Nat) :
    tm.isValidPosition (blockDraws k) 0 = true ∧
      ∀ d ∈ DirectionScan323, tm.isValidPosition ((blockDraws k).add d) 0 = true :=
  valid_of_shape tm hsz hd (blockDraws k) (by simp only [blockDraws, MAP_WIDTH]; omega)
    (by simp only [blockDraws, MAP_HEIGHT]; omega)

theorem blockDraws_ring :
    ∀ d ∈ DirectionScan323, (⟨10, 10⟩ : Point).add d ∈ (List.range 9).map blockDraws := by
  decide

/-- The state of `blockMineMap`: the nine points of the block are listed and
a tile holds a mine exactly when its position is listed. -/
theorem blockMineMap_spec :
    setupMines.generateMines DirectionScan323 blockDraws 0 9 .Low exampleMap = .ok blockMineMap ∧
      blockMineMap.Allocated ∧ blockMineMap.mSizeInTiles = exampleMap.mSizeInTiles ∧
      blockMineMap.mMaxDepth = exampleMap.mMaxDepth ∧
      blockMineMap.mMineLocations = (List.range 9).map blockDraws ∧
      ∀ q, blockMineMap.mineAt q = true ↔ q ∈ blockMineMap.mMineLocations := by
  have hinj : ∀ i j : Nat, i < 9 → j < 9 → blockDraws i = blockDraws j → i = j := by
    intro i j hi hj h
    simp only [blockDraws, Point.mk.injEq] at h
    omega
  obtain ⟨tm', hrun, h⟩ := forRange_invariant
    (fun k tm1 => tm1.addMineSet DirectionScan323 (blockDraws k) .Low)
    (fun i t => t.Allocated ∧ t.mSizeInTiles = exampleMap.mSizeInTiles ∧
      t.mMaxDepth = exampleMap.mMaxDepth ∧ t.mMineLocations = (List.range i).map blockDraws ∧
      ∀ q, t.mineAt q = true ↔ q ∈ t.mMineLocations) 9 0 exampleMap
    (fun i t _ hi hI => addMineSet_distinct_step exampleMap DirectionScan323 blockDraws 9
      (blockDraws_valid exampleMap rfl rfl) hinj i t .Low (by omega) hI)
    ⟨exampleMap_allocated, rfl, rfl, by rw [exampleMap_mineLocations]; rfl,
      fun q => by rw [exampleMap_mineAt, exampleMap_mineLocations]; simp⟩
  have hgen : setupMines.generateMines DirectionScan323 blockDraws 0 9 .Low exampleMap
      = .ok tm' := hrun
  have he : blockMineMap = tm' := by
    unfold blockMineMap
    rw [hgen, orKeep_ok]
  rw [he]
  exact ⟨hgen, h⟩

theorem blockMineMap_centre : blockMineMap.mineAt ⟨10, 10⟩ = true := by
  rw [blockMineMap_spec.2.2.2.2.2, blockMineMap_spec.2.2.2.2.1]
  exact List.mem_map.2 ⟨4, List.mem_range.2 (by omega), rfl⟩

theorem blockMineMap_ring :
    ∀ d ∈ DirectionScan323, blockMineMap.mineAt ((⟨10, 10⟩ : Point).add d) = true := by
  intro d hd
  rw [blockMineMap_spec.2.2.2.2.2, blockMineMap_spec.2.2.2.2.1]
  exact blockDraws_ring d hd

/-- C5 (amended): on an allocated map where the centre and its scan ring are
valid positions, `findSurroundingMineLocation` returns the centre itself when
the centre tile holds no mine; when the centre tile holds a mine and at
least one ring position holds a mine, it returns the first ring position in
scan order whose tile holds a mine (every ring position scanned before it
holds none). -/
theorem findSurroundingMineLocation_redirect (tm : TileMap) (ha : tm.Allocated)
    (scan : List Vector) (c : Point) (hc : tm.isValidPosition c 0 = true)
    (hring : ∀ d ∈ scan, tm.isValidPosition (c.add d) 0 = true) :
    (tm.mineAt c = false → tm.findSurroundingMineLocation scan c = .ok c) ∧
      (tm.mineAt c = true → (∃ d ∈ scan, tm.mineAt (c.add d) = true) →
        ∃ pre d post, scan = pre ++ d :: post ∧
          (∀ d' ∈ pre, tm.mineAt (c.add d') = false) ∧ tm.mineAt (c.add d) = true ∧
          tm.findSurroundingMineLocation scan c = .ok (c.add d)) :=
  ⟨fun hclear => findSurroundingMineLocation_of_clear tm ha scan c hc hclear,
    fun hmine hsome => findSurroundingMineLocation_of_neighbour tm ha scan c hc hring hmine hsome⟩

/-- Witness for C5: the map with mines on `(10, 10)` and all eight
neighbours, centre `(10, 10)`. -/
theorem findSurroundingMineLocation_redirect_witness :
    (blockMineMap.mineAt ⟨10, 10⟩ = false →
        blockMineMap.findSurroundingMineLocation DirectionScan323 ⟨10, 10⟩ = .ok ⟨10, 10⟩) ∧
      (blockMineMap.mineAt ⟨10, 10⟩ = true →
        (∃ d ∈ DirectionScan323, blockMineMap.mineAt ((⟨10, 10⟩ : Point).add d) = true) →
        ∃ pre d post, DirectionScan323 = pre ++ d :: post ∧
          (∀ d' ∈ pre, blockMineMap.mineAt ((⟨10, 10⟩ : Point).add d') = false) ∧
          blockMineMap.mineAt ((⟨10, 10⟩ : Point).add d) = true ∧
          blockMineMap.findSurroundingMineLocation DirectionScan323 ⟨10, 10⟩
            = .ok ((⟨10, 10⟩ : Point).add d)) :=
  findSurroundingMineLocation_redirect blockMineMap blockMineMap_spec.2.1 DirectionScan323
    ⟨10, 10⟩
    (valid_centre blockMineMap blockMineMap_spec.2.2.1 blockMineMap_spec.2.2.2.1).1
    (valid_centre blockMineMap blockMineMap_spec.2.2.1 blockMineMap_spec.2.2.2.1).2

/-- Counterexample to C5 as stated: after `addMineSet((10, 10))` on a fresh
map the centre `(10, 10)` holds a mine and every ring position is free, yet
`findSurroundingMineLocation((10, 10))` returns the centre, whose tile holds
a mine; it does not return a ring position without a mine. -/
theorem findSurroundingMineLocation_redirect_counterexample :
    exampleMap.addMineSet DirectionScan323 ⟨10, 10⟩ .Low = .ok oneMineMap ∧
      oneMineMap.mineAt ⟨10, 10⟩ = true ∧
      (∀ d ∈ DirectionScan323, oneMineMap.mineAt ((⟨10, 10⟩ : Point).add d) = false) ∧
      oneMineMap.findSurroundingMineLocation DirectionScan323 ⟨10, 10⟩ = .ok ⟨10, 10⟩ ∧
      ¬ ∃ d ∈ DirectionScan323,
        oneMineMap.findSurroundingMineLocation DirectionScan323 ⟨10, 10⟩
          = .ok ((⟨10, 10⟩ : Point).add d) := by
  obtain ⟨hadd, ha, hsz, hd, _, hmine⟩ := oneMineMap_spec
  have hv := valid_centre oneMineMap hsz hd
  have hcentre : oneMineMap.mineAt ⟨10, 10⟩ = true := by rw [hmine]; rfl
  have hring : ∀ d ∈ DirectionScan323, oneMineMap.mineAt ((⟨10, 10⟩ : Point).add d) = false := by
    intro d hdm
    rw [hmine]
    simp [ring_ne_centre ⟨10, 10⟩ d hdm]
  have hfind := findSurroundingMineLocation_of_isolated oneMineMap ha DirectionScan323 ⟨10, 10⟩
    hv.1 hv.2 hcentre hring
  refine ⟨hadd, hcentre, hring, hfind, ?_⟩
  rintro ⟨d, hdm, hres⟩
  rw [hfind] at hres
  exact ring_ne_centre ⟨10, 10⟩ d hdm (Except.ok.inj hres).symm

/-- C6 (amended): on an allocated map where the centre and its scan ring are
valid positions, when the centre tile holds a mine and none of its scan-ring
neighbours holds a mine, `findSurroundingMineLocation` returns the original
centre point. -/
theorem findSurroundingMineLocation_isolated (tm : TileMap) (ha : tm.Allocated)
    (scan : List Vector) (c : Point) (hc : tm.isValidPosition c 0 = true)
    (hring : ∀ d ∈ scan, tm.isValidPosition (c.add d) 0 = true)
    (hmine : tm.mineAt c = true) (hnone : ∀ d ∈ scan, tm.mineAt (c.add d) = false) :
    tm.findSurroundingMineLocation scan c = .ok c :=
  findSurroundingMineLocation_of_isolated tm ha scan c hc hring hmine hnone

/-- Witness for C6: the map with a single mine on `(10, 10)`. -/
theorem findSurroundingMineLocation_isolated_witness :
    oneMineMap.findSurroundingMineLocation DirectionScan323 ⟨10, 10⟩ = .ok ⟨10, 10⟩ :=
  findSurroundingMineLocation_isolated oneMineMap oneMineMap_spec.2.1 DirectionScan323 ⟨10, 10⟩
    (valid_centre oneMineMap oneMineMap_spec.2.2.1 oneMineMap_spec.2.2.2.1).1
    (valid_centre oneMineMap oneMineMap_spec.2.2.1 oneMineMap_spec.2.2.2.1).2
    (by rw [oneMineMap_spec.2.2.2.2.2]; rfl)
    (fun d hdm => by
      rw [oneMineMap_spec.2.2.2.2.2]
      simp [ring_ne_centre ⟨10, 10⟩ d hdm])

/-- Counterexample to C6 as stated: with a mine on `(10, 10)` and on each of
its eight scan-ring neighbours, `findSurroundingMineLocation((10, 10))` does
not return the centre: it returns a ring position, which holds a mine. -/
theorem findSurroundingMineLocation_isolated_counterexample :
    setupMines.generateMines DirectionScan323 blockDraws 0 9 .Low exampleMap = .ok blockMineMap ∧
      blockMineMap.mineAt ⟨10, 10⟩ = true ∧
      (∀ d ∈ DirectionScan323, blockMineMap.mineAt ((⟨10, 10⟩ : Point).add d) = true) ∧
      ∃ q, blockMineMap.findSurroundingMineLocation DirectionScan323 ⟨10, 10⟩ = .ok q ∧
        q ≠ ⟨10, 10⟩ ∧ blockMineMap.mineAt q = true := by
  obtain ⟨hgen, ha, hsz, hd, _, _⟩ := blockMineMap_spec
  have hv := valid_centre blockMineMap hsz hd
  obtain ⟨pre, d, post, hsplit, _, hdmine, hres⟩ := findSurroundingMineLocation_of_neighbour
    blockMineMap ha DirectionScan323 ⟨10, 10⟩ hv.1 hv.2 blockMineMap_centre
    ⟨⟨0, -1⟩, by simp [DirectionScan323], blockMineMap_ring _ (by simp [DirectionScan323])⟩
  have hdm : d ∈ DirectionScan323 := by rw [hsplit]; simp
  exact ⟨hgen, blockMineMap_centre, blockMineMap_ring, _, hres,
    ring_ne_centre ⟨10, 10⟩ d hdm, hdmine⟩

/-- The effect of `removeMineLocation` at a listed, valid point. -/
theorem removeMineLocation_spec (tm : TileMap) (ha : tm.Allocated) (pt : Point)
    (hmem : pt ∈ tm.mMineLocations) (hv : tm.isValidPosition pt 0 = true) :
    ∃ tm' : TileMap, tm.removeMineLocation pt = .ok tm' ∧ tm'.Allocated ∧
      tm'.mSizeInTiles = tm.mSizeInTiles ∧ tm'.mMaxDepth = tm.mMaxDepth ∧
      tm'.mMineLocations = tm.mMineLocations.erase pt ∧
      ∀ r, tm'.mineAt r = if r = pt then false else tm.mineAt r := by
  have ha1 : TileMap.Allocated { tm with mMineLocations := tm.mMineLocations.erase pt } := ha
  have hupd := updateTile_of_valid { tm with mMineLocations := tm.mMineLocations.erase pt } ha1
    pt 0 (fun tile => tile.pushMine none) hv
  refine ⟨{ tm with
      mTileMap := tm.mTileMap.modify (0 : Int).toNat pt.y.toNat pt.x.toNat
        (fun tile => tile.pushMine none),
      mMineLocations := tm.mMineLocations.erase pt }, ?_, ?_, rfl, rfl, rfl, fun r => ?_⟩
  · simp only [TileMap.removeMineLocation, if_pos hmem, hupd]
  · exact allocated_modify tm _ _ _ _ _ ha rfl rfl rfl
  · have h := mineAt_modify tm { tm with
      mTileMap := tm.mTileMap.modify (0 : Int).toNat pt.y.toNat pt.x.toNat
        (fun tile => tile.pushMine none),
      mMineLocations := tm.mMineLocations.erase pt } ha pt none (fun t => t) hv rfl
      (fun _ => rfl) rfl rfl r
    simpa using h

/-- The mines section of `serialize` dereferences a null `mine()` pointer when
a listed location holds no mine. -/
theorem serialize_stale_location (tm : TileMap) (ha : tm.Allocated) (p : Point)
    (rest : List Point) (hlist : tm.mMineLocations = p :: rest)
    (hv : tm.isValidPosition p 0 = true) (hclear : tm.mineAt p = false) :
    tm.serialize = .error .nullPointer := by
  obtain ⟨t, hget, hm⟩ := getTile_hasMine_of_valid tm ha p hv
  rw [hclear] at hm
  have hnone : t.mine = none := by
    cases hmine : t.mine with
    | none => rfl
    | some m => simp [Tile.hasMine, hmine] at hm
  simp only [TileMap.serialize, hlist, serialize.mines, hget, hnone]

/-- C7 (the code at the failing input): on a fresh map, two calls
`addMineSet((10, 10))` list `(10, 10)` twice; `removeMineLocation((10, 10))`,
called with a point that is in the list, erases one entry and clears the
tile's mine.  Afterwards `(10, 10)` is still listed but its depth-0 tile holds
no mine, and `serialize` dereferences the null `mine()` pointer. -/
theorem mineLocation_invariant_broken :
    exampleMap.mMineLocations = [] ∧
      exampleMap.addMineSet DirectionScan323 ⟨10, 10⟩ .Low = .ok oneMineMap ∧
      oneMineMap.addMineSet DirectionScan323 ⟨10, 10⟩ .Low = .ok twoMineMap ∧
      (⟨10, 10⟩ : Point) ∈ twoMineMap.mMineLocations ∧
      ∃ tm', twoMineMap.removeMineLocation ⟨10, 10⟩ = .ok tm' ∧
        (⟨10, 10⟩ : Point) ∈ tm'.mMineLocations ∧ tm'.mineAt ⟨10, 10⟩ = false ∧
        tm'.serialize = .error .nullPointer := by
  obtain ⟨hadd2, ha, hsz, hd, hlist, _⟩ := twoMineMap_spec
  have hv := valid_centre twoMineMap hsz hd
  have hmem : (⟨10, 10⟩ : Point) ∈ twoMineMap.mMineLocations := by
    rw [hlist]
    exact List.mem_cons_self _ _
  obtain ⟨tm', hrem, ha', hsz', hd', hlist', hmine'⟩ :=
    removeMineLocation_spec twoMineMap ha ⟨10, 10⟩ hmem hv.1
  have hl : tm'.mMineLocations = [⟨10, 10⟩] := by
    rw [hlist', hlist]
    exact List.erase_cons_head _ _
  have hclear : tm'.mineAt ⟨10, 10⟩ = false := by rw [hmine']; exact if_pos rfl
  refine ⟨exampleMap_mineLocations, oneMineMap_spec.1, hadd2, hmem, tm', hrem, ?_, hclear, ?_⟩
  · rw [hl]
    exact List.mem_cons_self _ _
  · exact serialize_stale_location tm' ha' ⟨10, 10⟩ [] hl
      (by rw [isValidPosition_congr twoMineMap tm' hsz' hd']; exact hv.1) hclear

theorem roundSig24_div_le (n m e : Nat) :
    2 ^ 24 * (roundSig24 (n * m) / 2 ^ e * 2 ^ e) ≤ (2 ^ 24 + 1) * (n * m) :=
  le_trans (Nat.mul_le_mul_left _ (Nat.div_mul_le_self _ _)) (roundSig24_bounds (n * m)).1

/-- C8 (amended): for every `mineCount` from 0 to 3000000 and every hostility
with table fractions `low`, `med`, `high` percent (Low 30/50/20, Medium
45/35/20, High 35/20/45, each row summing to 100), the three floors
`mineCount * fraction / 100` add up to at most `mineCount`, and `setupMines`
generates `floor (mineCount * med / 100)` medium-yield mines,
`floor (mineCount * high / 100)` high-yield mines and
`floor (mineCount * low / 100)` plus the whole shortfall low-yield mines. -/
theorem mineYieldCounts_tier_split (mineCount : Int) (hostility : Hostility)
    (low med high : Nat) (hpct : yieldPercent hostility = some (low, med, high))
    (h0 : 0 ≤ mineCount) (hB : mineCount ≤ 3000000) :
    low + med + high = 100 ∧
      mineCount * low / 100 + mineCount * med / 100 + mineCount * high / 100 ≤ mineCount ∧
      mineYieldCounts mineCount hostility = .ok (specTierCounts mineCount low med high) ∧
      ∀ (tm : TileMap) (scan : List Vector) (randPoint : Nat → Point),
        tm.setupMines scan randPoint mineCount hostility =
          setupMines.generateAll scan randPoint (specTierCounts mineCount low med high).1
            (specTierCounts mineCount low med high).2.1
            (specTierCounts mineCount low med high).2.2 tm := by
  obtain ⟨n, rfl⟩ := Int.eq_ofNat_of_zero_le h0
  have hn : n ≤ 3000000 := by omega
  have hlt : n < 2 ^ 24 := by
    have : (2 : Nat) ^ 24 = 16777216 := by norm_num
    omega
  have hcounts : low + med + high = 100 ∧
      mineYieldCounts (n : Int) hostility =
        .ok (((n - n * med / 100 - n * high / 100 : Nat) : Int), ((n * med / 100 : Nat) : Int),
          ((n * high / 100 : Nat) : Int)) := by
    cases hostility with
    | None => simp [yieldPercent] at hpct
    | Low =>
      simp only [yieldPercent, Option.some.injEq, Prod.mk.injEq] at hpct
      obtain ⟨rfl, rfl, rfl⟩ := hpct
      refine ⟨rfl, ?_⟩
      have e2 := roundSig24_mul_half n hlt
      have e3 := roundSig24_mul_020 n hn
      have b1 := roundSig24_div_le n 10066330 25
      have k2 := Nat.div_mul_le_self (n * 50) 100
      have k3 := Nat.div_mul_le_self (n * 20) 100
      have h := mineYieldCounts_of_raw n _ _ _ .Low _ _ _ table_low
        (mulTruncate_of_lt n hlt _ _) (mulTruncate_of_lt n hlt _ _)
        (mulTruncate_of_lt n hlt _ _) (by rw [e2, e3]; omega)
      rw [e2, e3] at h
      exact h
    | Medium =>
      simp only [yieldPercent, Option.some.injEq, Prod.mk.injEq] at hpct
      obtain ⟨rfl, rfl, rfl⟩ := hpct
      refine ⟨rfl, ?_⟩
      have e1 := roundSig24_mul_045 n hn
      have e2 := roundSig24_mul_035 n hn
      have e3 := roundSig24_mul_020 n hn
      have k1 := Nat.div_mul_le_self (n * 45) 100
      have k2 := Nat.div_mul_le_self (n * 35) 100
      have k3 := Nat.div_mul_le_self (n * 20) 100
      have h := mineYieldCounts_of_raw n _ _ _ .Medium _ _ _ table_medium
        (mulTruncate_of_lt n hlt _ _) (mulTruncate_of_lt n hlt _ _)
        (mulTruncate_of_lt n hlt _ _) (by rw [e1, e2, e3]; omega)
      rw [e2, e3] at h
      exact h
    | High =>
      simp only [yieldPercent, Option.some.injEq, Prod.mk.injEq] at hpct
      obtain ⟨rfl, rfl, rfl⟩ := hpct
      refine ⟨rfl, ?_⟩
      have e1 := roundSig24_mul_035 n hn
      have e2 := roundSig24_mul_020 n hn
      have e3 := roundSig24_mul_045 n hn
      have k1 := Nat.div_mul_le_self (n * 35) 100
      have k2 := Nat.div_mul_le_self (n * 20) 100
      have k3 := Nat.div_mul_le_self (n * 45) 100
      have h := mineYieldCounts_of_raw n _ _ _ .High _ _ _ table_high
        (mulTruncate_of_lt n hlt _ _) (mulTruncate_of_lt n hlt _ _)
        (mulTruncate_of_lt n hlt _ _) (by rw [e1, e2, e3]; omega)
      rw [e2, e3] at h
      exact h
  obtain ⟨hsum, hc⟩ := hcounts
  have hhigh : high = 100 - low - med := by omega
  have hfloors : (n : Int) * low / 100 + (n : Int) * med / 100 + (n : Int) * high / 100 ≤ n := by
    have h1 : (n : Int) * low / 100 * 100 ≤ n * low := Int.ediv_mul_le _ (by norm_num)
    have h2 : (n : Int) * med / 100 * 100 ≤ n * med := Int.ediv_mul_le _ (by norm_num)
    have h3 : (n : Int) * high / 100 * 100 ≤ n * high := Int.ediv_mul_le _ (by norm_num)
    have h4 : (n : Int) * low + n * med + n * high = n * 100 := by
      have : ((low + med + high : Nat) : Int) = 100 := by rw [hsum]; rfl
      push_cast at this
      linear_combination (n : Int) * this
    omega
  have hm : ((n * med / 100 : Nat) : Int) = (n : Int) * med / 100 := by push_cast; rfl
  have hh' : ((n * high / 100 : Nat) : Int) = (n : Int) * high / 100 := by push_cast; rfl
  have hmle : n * med / 100 + n * high / 100 ≤ n := by
    have h1 : 0 ≤ (n : Int) * low / 100 := Int.ediv_nonneg (by positivity) (by norm_num)
    omega
  have hl : ((n - n * med / 100 - n * high / 100 : Nat) : Int) =
      (n : Int) * low / 100 + ((n : Int) - ((n : Int) * low / 100 + (n : Int) * med / 100 +
        (n : Int) * high / 100)) := by
    omega
  have hfinal : mineYieldCounts (n : Int) hostility =
      .ok (specTierCounts (n : Int) low med high) := by
    rw [hc, hm, hh', hl]
    rfl
  refine ⟨hsum, hfloors, hfinal, fun tm scan randPoint => ?_⟩
  have hne : hostility ≠ Hostility.None := by
    rintro rfl
    simp [yieldPercent] at hpct
  simp only [TileMap.setupMines, if_neg hne, hfinal, specTierCounts]

/-- Witness for C8: 20 mines at medium hostility (9 low, 7 medium and 4 high
yield mines, no shortfall). -/
theorem mineYieldCounts_tier_split_witness :
    45 + 35 + 20 = 100 ∧
      (20 : Int) * (45 : Nat) / 100 + (20 : Int) * (35 : Nat) / 100 +
        (20 : Int) * (20 : Nat) / 100 ≤ 20 ∧
      mineYieldCounts 20 Hostility.Medium = .ok (specTierCounts 20 45 35 20) ∧
      ∀ (tm : TileMap) (scan : List Vector) (randPoint : Nat → Point),
        tm.setupMines scan randPoint 20 Hostility.Medium =
          setupMines.generateAll scan randPoint (specTierCounts 20 45 35 20).1
            (specTierCounts 20 45 35 20).2.1 (specTierCounts 20 45 35 20).2.2 tm :=
  mineYieldCounts_tier_split 20 Hostility.Medium 45 35 20 rfl (by omega) (by omega)

/-- Counterexample to C8 as stated: for `mineCount = 4660351` at high
hostility the code generates 2097158 high-yield mines although
`floor (4660351 * 0.45) = 2097157`; and for `mineCount = 16777219` at low
hostility the three products 5033166, 8388610 and 3355444 add up to more than
`mineCount` (and 8388610 is not `floor (16777219 * 0.50) = 8388609`). -/
theorem mineYieldCounts_tier_split_counterexample :
    mineYieldCounts 4660351 Hostility.High = .ok (1631123, 932070, 2097158) ∧
      (4660351 : Int) * 45 / 100 = 2097157 ∧
      specTierCounts 4660351 35 20 45 = (1631124, 932070, 2097157) ∧
      mineYieldCounts 16777219 Hostility.Low = .ok (5033166, 8388610, 3355444) ∧
      (5033166 : Int) + 8388610 + 3355444 > 16777219 ∧
      (16777219 : Int) * 50 / 100 = 8388609 := by
  refine ⟨by rfl, by decide, by rfl, by rfl, by decide, by decide⟩

theorem forRange_append {α : Type} (body : Nat → List α → Except Error (List α))
    (f : Nat → List α) (k : Nat) : ∀ (s : Nat) (acc : List α),
      (∀ i acc', s ≤ i → i < s + k → body i acc' = .ok (acc' ++ f i)) →
      forRange body s k acc = .ok (acc ++ ((List.range' s k).map f).flatten) := by
  induction k with
  | zero => intro s acc _; simp [forRange]
  | succ k ih =>
    intro s acc h
    simp only [forRange, h s acc le_rfl (by omega)]
    rw [ih (s + 1) (acc ++ f s) (fun i acc' h1 h2 => h i acc' (by omega) (by omega))]
    simp [List.range'_succ]

theorem serialize_tile_eq (tm : TileMap) (ha : tm.Allocated) (d y x : Nat)
    (hd : (d : Int) ≤ tm.mMaxDepth) (hy : (y : Int) < tm.mSizeInTiles.y)
    (hx : (x : Int) < tm.mSizeInTiles.x) (acc : List TileElement) :
    serialize.tile tm d y x acc = .ok (acc ++ serialize.written tm d y x) := by
  have hv : tm.isValidPosition ⟨x, y⟩ d = true := by
    rw [isValidPosition_iff]
    exact ⟨⟨Int.natCast_nonneg d, hd⟩, ⟨Int.natCast_nonneg x, hx⟩, Int.natCast_nonneg y, hy⟩
  obtain ⟨t, ht, hget⟩ := getTile_of_valid tm ha ⟨x, y⟩ d hv
  simp only [Int.toNat_ofNat] at ht
  simp only [serialize.tile, hget, serialize.written, ht]
  split_ifs <;> simp

/-- The tiles section written by `serialize`, in closed form: the elements of
`serialize.written` in depth, row, column order. -/
theorem serialize_tiles_eq (tm : TileMap) (ha : tm.Allocated) :
    serialize.tiles tm = .ok (serialize.allWritten tm) := by
  have hrow : ∀ d y : Nat, (d : Int) ≤ tm.mMaxDepth → (y : Int) < tm.mSizeInTiles.y →
      ∀ acc, forRange (fun x => serialize.tile tm d y x) 0 tm.mSizeInTiles.x.toNat acc =
        .ok (acc ++ ((List.range' 0 tm.mSizeInTiles.x.toNat).map fun x =>
          serialize.written tm d y x).flatten) :=
    fun d y hd hy acc => forRange_append _ _ _ 0 acc
      (fun x acc' _ hx => serialize_tile_eq tm ha d y x hd hy (by omega) acc')
  have hlevel : ∀ d : Nat, (d : Int) ≤ tm.mMaxDepth →
      ∀ acc, forRange (fun y => forRange (fun x => serialize.tile tm d y x) 0
          tm.mSizeInTiles.x.toNat) 0 tm.mSizeInTiles.y.toNat acc =
        .ok (acc ++ ((List.range' 0 tm.mSizeInTiles.y.toNat).map fun y =>
          ((List.range' 0 tm.mSizeInTiles.x.toNat).map fun x =>
            serialize.written tm d y x).flatten).flatten) :=
    fun d hd acc => forRange_append _ _ _ 0 acc
      (fun y acc' _ hy => hrow d y hd (by omega) acc')
  have hall := forRange_append (fun d => forRange (fun y =>
      forRange (fun x => serialize.tile tm d y x) 0 tm.mSizeInTiles.x.toNat) 0
      tm.mSizeInTiles.y.toNat)
    (fun d => ((List.range' 0 tm.mSizeInTiles.y.toNat).map fun y =>
      ((List.range' 0 tm.mSizeInTiles.x.toNat).map fun x =>
        serialize.written tm d y x).flatten).flatten)
    (tm.mMaxDepth + 1).toNat 0 [] (fun d acc' _ hd => hlevel d (by omega) acc')
  simp only [serialize.tiles, hall, List.nil_append, serialize.allWritten]

theorem mem_allWritten (tm : TileMap) (e : TileElement) (d y x : Nat)
    (hd : (d : Int) ≤ tm.mMaxDepth) (hy : (y : Int) < tm.mSizeInTiles.y)
    (hx : (x : Int) < tm.mSizeInTiles.x) (he : e ∈ serialize.written tm d y x) :
    e ∈ serialize.allWritten tm := by
  unfold serialize.allWritten
  simp only [List.mem_flatten, List.mem_map, List.mem_range'_1]
  refine ⟨_, ⟨d, ⟨by omega, by omega⟩, rfl⟩, ?_⟩
  simp only [List.mem_flatten, List.mem_map, List.mem_range'_1]
  refine ⟨_, ⟨y, ⟨by omega, by omega⟩, rfl⟩, ?_⟩
  simp only [List.mem_flatten, List.mem_map, List.mem_range'_1]
  exact ⟨_, ⟨x, ⟨by omega, by omega⟩, rfl⟩, he⟩

theorem allWritten_valid (tm : TileMap) (e : TileElement) (he : e ∈ serialize.allWritten tm) :
    tm.isValidPosition ⟨e.x, e.y⟩ e.depth = true := by
  unfold serialize.allWritten at he
  simp only [List.mem_flatten, List.mem_map, List.mem_range'_1] at he
  obtain ⟨_, ⟨d, ⟨_, hd⟩, rfl⟩, he⟩ := he
  simp only [List.mem_flatten, List.mem_map, List.mem_range'_1] at he
  obtain ⟨_, ⟨y, ⟨_, hy⟩, rfl⟩, he⟩ := he
  simp only [List.mem_flatten, List.mem_map, List.mem_range'_1] at he
  obtain ⟨_, ⟨x, ⟨_, hx⟩, rfl⟩, he⟩ := he
  have hcoords : e.x = x ∧ e.y = y ∧ e.depth = d := by
    unfold serialize.written at he
    split at he
    · simp at he
    · split_ifs at he <;> simp at he <;> simp [he]
  rw [isValidPosition_iff, hcoords.1, hcoords.2.1, hcoords.2.2]
  simp only
  omega

/-- The effect of one write through `getTile` at a valid address. -/
theorem updateTile_spec (tm : TileMap) (ha : tm.Allocated) (p : Point) (l : Int)
    (f : Tile → Tile) (hv : tm.isValidPosition p l = true) :
    ∃ tm1 : TileMap, tm.updateTile p l f = .ok tm1 ∧ tm1.Allocated ∧
      tm1.mSizeInTiles = tm.mSizeInTiles ∧ tm1.mMaxDepth = tm.mMaxDepth ∧
      tm1.mMineLocations = tm.mMineLocations ∧
      ∀ q l', tm1.getTile q l' =
        if q = p ∧ l' = l then
          (match tm.getTile p l with
            | .ok t => .ok (f t)
            | .error e => .error e)
        else tm.getTile q l' :=
  ⟨{ tm with mTileMap := tm.mTileMap.modify l.toNat p.y.toNat p.x.toNat f },
    updateTile_of_valid tm ha p l f hv, allocated_modify tm _ _ _ _ _ ha rfl rfl rfl, rfl, rfl,
    rfl, fun q l' => getTile_modify tm
      { tm with mTileMap := tm.mTileMap.modify l.toNat p.y.toNat p.x.toNat f } p l f hv
      rfl rfl rfl q l'⟩

theorem deserialize_tiles_spec (tiles : List TileElement) : ∀ tm : TileMap, tm.Allocated →
    (∀ e ∈ tiles, tm.isValidPosition ⟨e.x, e.y⟩ e.depth = true) →
    ∃ tm' : TileMap, deserialize.tiles tiles tm = .ok tm' ∧ tm'.Allocated ∧
      tm'.mSizeInTiles = tm.mSizeInTiles ∧ tm'.mMaxDepth = tm.mMaxDepth ∧
      ∀ (p : Point) (l : Int), 0 < l →
        ((∃ e ∈ tiles, e.x = p.x ∧ e.y = p.y ∧ e.depth = l) ∨ tm.excavatedAt p l = true) →
        tm'.excavatedAt p l = true := by
  induction tiles with
  | nil =>
    intro tm ha _
    refine ⟨tm, rfl, ha, rfl, rfl, fun p l _ h => ?_⟩
    rcases h with ⟨e, he, _⟩ | h
    · exact absurd he (List.not_mem_nil e)
    · exact h
  | cons e rest ih =>
    intro tm ha hvalid
    have hv := hvalid e (List.mem_cons_self _ _)
    obtain ⟨tm1, hupd, ha1, hsz1, hd1, _, hget1⟩ := updateTile_spec tm ha ⟨e.x, e.y⟩ e.depth
      (fun tile =>
        let tile := tile.setIndex e.index
        if e.depth > 0 then tile.setExcavated true else tile) hv
    obtain ⟨tm', hrun, ha', hsz', hd', hex'⟩ := ih tm1 ha1
      (fun e' he' => by
        rw [isValidPosition_congr tm tm1 hsz1 hd1]
        exact hvalid e' (List.mem_cons_of_mem _ he'))
    refine ⟨tm', ?_, ha', hsz'.trans hsz1, hd'.trans hd1, fun p l hl h => ?_⟩
    · simp only [deserialize.tiles, hupd]
      exact hrun
    · apply hex' p l hl
      have hstep : ∀ q l', tm1.excavatedAt q l' =
          if q = ⟨e.x, e.y⟩ ∧ l' = e.depth then
            (if e.depth > 0 then true else tm.excavatedAt q l')
          else tm.excavatedAt q l' := by
        intro q l'
        obtain ⟨t, _, hget⟩ := getTile_of_valid tm ha ⟨e.x, e.y⟩ e.depth hv
        simp only [TileMap.excavatedAt]
        rw [hget1 q l']
        split_ifs with hc hpos
        · simp [hget, Tile.setExcavated]
        · obtain ⟨rfl, rfl⟩ := hc
          simp [hget, Tile.setIndex]
        · rfl
      rcases h with ⟨e', he', hx, hy, hdep⟩ | h
      · rcases List.mem_cons.1 he' with rfl | hin
        · right
          rw [hstep]
          have hp : p = ⟨e'.x, e'.y⟩ := by
            cases p
            simp only [Point.mk.injEq]
            exact ⟨hx.symm, hy.symm⟩
          rw [if_pos ⟨hp, hdep.symm⟩, if_pos (by omega)]
        · exact Or.inl ⟨e', hin, hx, hy, hdep⟩
      · right
        rw [hstep]
        split_ifs with hc hpos
        · rfl
        · exact h
        · exact h

/-- On a map without mines `serialize` succeeds and its tiles section is the
closed-form list. -/
theorem serialize_of_no_mines (tm : TileMap) (ha : tm.Allocated) (hlist : tm.mMineLocations = []) :
    tm.serialize = .ok ⟨some ⟨tm.mCurrentDepth, tm.mMapViewLocation.x, tm.mMapViewLocation.y⟩,
      some [], some (serialize.allWritten tm)⟩ := by
  simp only [TileMap.serialize, hlist, serialize.mines, serialize_tiles_eq tm ha]

/-- Every underground tile that `serialize` writes is excavated after the
document is read back into a map of the same shape, whatever its flag was. -/
theorem roundtrip_forces_excavated (tm fresh : TileMap) (ha : tm.Allocated)
    (hlist : tm.mMineLocations = []) (hfa : fresh.Allocated)
    (hsz : fresh.mSizeInTiles = tm.mSizeInTiles) (hd : fresh.mMaxDepth = tm.mMaxDepth)
    (e : TileElement) (he : e ∈ serialize.allWritten tm) (hdepth : 0 < e.depth) :
    ∃ doc tm', tm.serialize = .ok doc ∧ doc.tiles = some (serialize.allWritten tm) ∧
      fresh.deserialize doc = .ok tm' ∧ tm'.excavatedAt ⟨e.x, e.y⟩ e.depth = true := by
  obtain ⟨fresh1, hf1⟩ : ∃ t : TileMap, t = (fresh.mapViewLocation
      ⟨tm.mMapViewLocation.x, tm.mMapViewLocation.y⟩).currentDepth tm.mCurrentDepth := ⟨_, rfl⟩
  have hfa1 : fresh1.Allocated := by rw [hf1]; exact hfa
  have hsz1 : fresh1.mSizeInTiles = tm.mSizeInTiles := by rw [hf1]; exact hsz
  have hd1 : fresh1.mMaxDepth = tm.mMaxDepth := by rw [hf1]; exact hd
  obtain ⟨tm', hrun, _, _, _, hex⟩ := deserialize_tiles_spec (serialize.allWritten tm) fresh1 hfa1
    (fun e' he' => by
      rw [isValidPosition_congr tm fresh1 hsz1 hd1]
      exact allWritten_valid tm e' he')
  refine ⟨_, tm', serialize_of_no_mines tm ha hlist, rfl, ?_,
    hex ⟨e.x, e.y⟩ e.depth hdepth (Or.inl ⟨e, he, rfl, rfl, rfl⟩)⟩
  simp only [TileMap.deserialize, deserialize.mines, ← hf1, hrun]

theorem built_at? (width height maxDepth : Int) (hm : Point → Nat) (l y x : Nat)
    (hl : (l : Int) ≤ maxDepth) (hy : (y : Int) < height) (hx : (x : Int) < width) :
    (TileMap.built width height maxDepth hm).mTileMap.at? l y x = some (builtTile hm l y x) := by
  obtain ⟨g, h, hg⟩ := built_eq width height maxDepth hm
  rw [h]
  exact hg l y x hl hy hx

/-- A tile that is not excavated, has the bulldozed index, no occupant and no
mine is written by `serialize` at any depth. -/
theorem written_of_dozed (tm : TileMap) (d y x : Nat) (t : Tile)
    (hat : tm.mTileMap.at? d y x = some t) (hexc : t.excavated = false) (hidx : t.index = 0)
    (hthing : t.thing = none) (hmine : t.mine = none) :
    serialize.written tm d y x = [⟨x, y, d, 0⟩] := by
  unfold serialize.written
  rw [hat]
  simp [hexc, hidx, hthing, hmine, Tile.empty]

theorem excavatedAt_of_getTile (tm : TileMap) (p : Point) (l : Int) (t : Tile)
    (hget : tm.getTile p l = .ok t) : tm.excavatedAt p l = t.excavated := by
  simp only [TileMap.excavatedAt, hget]

theorem darkSpot_tile :
    (builtTile darkSpotHeightmap 1 10 10).excavated = false ∧
      (builtTile darkSpotHeightmap 1 10 10).index = 0 ∧
      (builtTile darkSpotHeightmap 1 10 10).thing = none ∧
      (builtTile darkSpotHeightmap 1 10 10).mine = none := by
  decide

theorem darkSpotMap_eq :
    darkSpotMap = TileMap.built MAP_WIDTH MAP_HEIGHT 4 darkSpotHeightmap := by
  unfold darkSpotMap
  rfl
theorem darkSpotMap_facts :
    darkSpotMap.Allocated ∧ darkSpotMap.mSizeInTiles = ⟨MAP_WIDTH, MAP_HEIGHT⟩ ∧
      darkSpotMap.mMaxDepth = 4 ∧ darkSpotMap.mMineLocations = [] ∧
      darkSpotMap.mTileMap.at? 1 10 10 = some (builtTile darkSpotHeightmap 1 10 10) := by
  rw [darkSpotMap_eq]
  exact ⟨built_is_allocated _ _ _ _, built_size _ _ _ _, built_maxDepth _ _ _ _,
    built_mineLocations _ _ _ _,
    built_at? MAP_WIDTH MAP_HEIGHT 4 darkSpotHeightmap 1 10 10 (by omega)
      (by simp only [MAP_HEIGHT]; omega) (by simp only [MAP_WIDTH]; omega)⟩

/-- The general form of the C2 failure: a listed-free, allocated map on which
the tile at column `x`, row `y`, depth `d > 0` is unexcavated, bulldozed,
empty and without a mine.  `serialize` writes the tile and `deserialize` into
a map of the same shape leaves it excavated. -/
theorem roundtrip_dozed_tile (tm fresh : TileMap) (ha : tm.Allocated)
    (hlist : tm.mMineLocations = []) (hfa : fresh.Allocated)
    (hsz : fresh.mSizeInTiles = tm.mSizeInTiles) (hd : fresh.mMaxDepth = tm.mMaxDepth)
    (d y x : Nat) (t : Tile) (hpos : 0 < d) (hdr : (d : Int) ≤ tm.mMaxDepth)
    (hy : (y : Int) < tm.mSizeInTiles.y) (hx : (x : Int) < tm.mSizeInTiles.x)
    (hat : tm.mTileMap.at? d y x = some t) (hexc : t.excavated = false) (hidx : t.index = 0)
    (hthing : t.thing = none) (hmine : t.mine = none) :
    tm.excavatedAt ⟨x, y⟩ d = false ∧
      ∃ doc tiles tm', tm.serialize = .ok doc ∧ doc.tiles = some tiles ∧
        (⟨x, y, d, 0⟩ : TileElement) ∈ tiles ∧
        fresh.deserialize doc = .ok tm' ∧ tm'.excavatedAt ⟨x, y⟩ d = true := by
  have hv : tm.isValidPosition ⟨x, y⟩ d = true := by
    rw [isValidPosition_iff]
    exact ⟨⟨Int.natCast_nonneg d, hdr⟩, ⟨Int.natCast_nonneg x, hx⟩, Int.natCast_nonneg y, hy⟩
  obtain ⟨t', ht', hget⟩ := getTile_of_valid tm ha ⟨x, y⟩ d hv
  simp only [Int.toNat_ofNat] at ht'
  rw [hat] at ht'
  have htt : t = t' := Option.some.inj ht'
  subst htt
  have hmem : (⟨x, y, d, 0⟩ : TileElement) ∈ serialize.allWritten tm :=
    mem_allWritten tm _ d y x hdr hy hx
      (by rw [written_of_dozed tm d y x t hat hexc hidx hthing hmine]
          exact List.mem_singleton.2 rfl)
  obtain ⟨doc, tm', hser, htiles, hdes, hex⟩ := roundtrip_forces_excavated tm fresh ha hlist hfa
    hsz hd ⟨x, y, d, 0⟩ hmem (by show (0 : Int) < (d : Int); omega)
  exact ⟨by rw [excavatedAt_of_getTile tm _ _ t hget, hexc], doc, _, tm', hser, htiles, hmem,
    hdes, hex⟩

/-- C2 (the code at the failing input): on a freshly built map whose
heightmap is dark (red value 10, terrain index 0) at pixel `(10, 10)`, the
tile `(10, 10)` at depth 1 is not excavated; `serialize` writes it to the
tiles list (bulldozed index, empty, no mine), and `deserialize` of the
produced document into the same freshly built map leaves that tile
excavated: the flag is not the original one. -/
theorem roundtrip_excavated_flag_broken :
    darkSpotMap.excavatedAt ⟨10, 10⟩ 1 = false ∧
      ∃ doc tiles tm', darkSpotMap.serialize = .ok doc ∧ doc.tiles = some tiles ∧
        (⟨10, 10, 1, 0⟩ : TileElement) ∈ tiles ∧
        darkSpotMap.deserialize doc = .ok tm' ∧ tm'.excavatedAt ⟨10, 10⟩ 1 = true :=
  roundtrip_dozed_tile darkSpotMap darkSpotMap darkSpotMap_facts.1 darkSpotMap_facts.2.2.2.1
    darkSpotMap_facts.1 rfl rfl 1 10 10 (builtTile darkSpotHeightmap 1 10 10) (by omega)
    (by rw [darkSpotMap_facts.2.2.1]; omega)
    (by rw [darkSpotMap_facts.2.1]; simp only [MAP_HEIGHT]; omega)
    (by rw [darkSpotMap_facts.2.1]; simp only [MAP_WIDTH]; omega)
    darkSpotMap_facts.2.2.2.2 darkSpot_tile.1 darkSpot_tile.2.1 darkSpot_tile.2.2.1
    darkSpot_tile.2.2.2

theorem written_eq (tm : TileMap) (d y x : Nat) (t : Tile)
    (hat : tm.mTileMap.at? d y x = some t) :
    serialize.written tm d y x = if sparseRule d t = true then [⟨x, y, d, t.index⟩] else [] := by
  unfold serialize.written sparseRule
  rw [hat]
  simp only
  generalize decide ((d : Int) > 0) = b1
  generalize decide (t.index = 0) = b5
  generalize t.excavated = b2
  generalize t.empty = b3
  generalize t.mine.isNone = b4
  cases b1 <;> cases b2 <;> cases b3 <;> cases b4 <;> cases b5 <;> rfl

theorem mem_written (tm : TileMap) (d y x : Nat) (e : TileElement)
    (he : e ∈ serialize.written tm d y x) :
    e.x = x ∧ e.y = y ∧ e.depth = d ∧
      ∃ t, tm.mTileMap.at? d y x = some t ∧ sparseRule d t = true ∧ e.index = t.index := by
  cases hat : tm.mTileMap.at? d y x with
  | none => simp [serialize.written, hat] at he
  | some t =>
    rw [written_eq tm d y x t hat] at he
    split_ifs at he with hrule
    · rw [List.mem_singleton] at he
      subst he
      exact ⟨rfl, rfl, rfl, t, rfl, hrule, rfl⟩
    · exact absurd he (List.not_mem_nil e)

theorem mem_allWritten_iff (tm : TileMap) (e : TileElement) :
    e ∈ serialize.allWritten tm ↔
      ∃ d y x : Nat, d < (tm.mMaxDepth + 1).toNat ∧ y < tm.mSizeInTiles.y.toNat ∧
        x < tm.mSizeInTiles.x.toNat ∧ e ∈ serialize.written tm d y x := by
  unfold serialize.allWritten
  simp only [List.mem_flatten, List.mem_map, List.mem_range'_1, zero_le, zero_add, true_and]
  constructor
  · rintro ⟨_, ⟨d, hd, rfl⟩, he⟩
    simp only [List.mem_flatten, List.mem_map, List.mem_range'_1, zero_le, zero_add,
      true_and] at he
    obtain ⟨_, ⟨y, hy, rfl⟩, he⟩ := he
    simp only [List.mem_flatten, List.mem_map, List.mem_range'_1, zero_le, zero_add,
      true_and] at he
    obtain ⟨_, ⟨x, hx, rfl⟩, he⟩ := he
    exact ⟨d, y, x, hd, hy, hx, he⟩
  · rintro ⟨d, y, x, hd, hy, hx, he⟩
    refine ⟨_, ⟨d, hd, rfl⟩, ?_⟩
    simp only [List.mem_flatten, List.mem_map, List.mem_range'_1, zero_le, zero_add, true_and]
    refine ⟨_, ⟨y, hy, rfl⟩, ?_⟩
    simp only [List.mem_flatten, List.mem_map, List.mem_range'_1, zero_le, zero_add, true_and]
    exact ⟨_, ⟨x, hx, rfl⟩, he⟩

/-- Lists produced for increasing loop indices, each ordered in itself and
every element of an earlier one before every element of a later one, are
ordered when concatenated. -/
theorem pairwise_flatten_range {α : Type} (R : α → α → Prop) (f : Nat → List α) (n : Nat)
    (hin : ∀ i, i < n → (f i).Pairwise R)
    (hcross : ∀ i j, i < j → j < n → ∀ a ∈ f i, ∀ b ∈ f j, R a b) :
    (((List.range' 0 n).map f).flatten).Pairwise R := by
  rw [List.pairwise_flatten]
  constructor
  · intro l hl
    obtain ⟨i, hi, rfl⟩ := List.mem_map.1 hl
    exact hin i (by simpa using hi)
  · rw [List.pairwise_map]
    refine List.Pairwise.imp_of_mem ?_ (List.pairwise_lt_range' 0 n)
    intro i j hi hj hij a ha b hb
    exact hcross i j hij (by simpa using hj) a ha b hb

theorem allWritten_pairwise (tm : TileMap) :
    (serialize.allWritten tm).Pairwise TileElement.before := by
  unfold serialize.allWritten
  apply pairwise_flatten_range
  · intro d _
    apply pairwise_flatten_range
    · intro y _
      apply pairwise_flatten_range
      · intro x _
        cases hat : tm.mTileMap.at? d y x with
        | none => simp [serialize.written, hat]
        | some t =>
          rw [written_eq tm d y x t hat]
          split_ifs <;> simp
      · intro x x' hxx _ a ha b hb
        obtain ⟨hax, hay, had, _⟩ := mem_written tm d y x a ha
        obtain ⟨hbx, hby, hbd, _⟩ := mem_written tm d y x' b hb
        refine Or.inr ⟨by rw [had, hbd], Or.inr ⟨by rw [hay, hby], ?_⟩⟩
        rw [hax, hbx]
        exact_mod_cast hxx
    · intro y y' hyy _ a ha b hb
      simp only [List.mem_flatten, List.mem_map, List.mem_range'_1] at ha hb
      obtain ⟨_, ⟨x, _, rfl⟩, ha⟩ := ha
      obtain ⟨_, ⟨x', _, rfl⟩, hb⟩ := hb
      obtain ⟨_, hay, had, _⟩ := mem_written tm d y x a ha
      obtain ⟨_, hby, hbd, _⟩ := mem_written tm d y' x' b hb
      refine Or.inr ⟨by rw [had, hbd], Or.inl ?_⟩
      rw [hay, hby]
      exact_mod_cast hyy
  · intro d d' hdd _ a ha b hb
    simp only [List.mem_flatten, List.mem_map, List.mem_range'_1] at ha hb
    obtain ⟨_, ⟨y, _, rfl⟩, ha⟩ := ha
    obtain ⟨_, ⟨y', _, rfl⟩, hb⟩ := hb
    simp only [List.mem_flatten, List.mem_map, List.mem_range'_1] at ha hb
    obtain ⟨_, ⟨x, _, rfl⟩, ha⟩ := ha
    obtain ⟨_, ⟨x', _, rfl⟩, hb⟩ := hb
    obtain ⟨_, _, had, _⟩ := mem_written tm d y x a ha
    obtain ⟨_, _, hbd, _⟩ := mem_written tm d' y' x' b hb
    refine Or.inl ?_
    rw [had, hbd]
    exact_mod_cast hdd

theorem getTile_ok_iff (tm : TileMap) (p : Point) (l : Int) (t : Tile) :
    tm.getTile p l = .ok t ↔
      tm.isValidPosition p l = true ∧ tm.mTileMap.at? l.toNat p.y.toNat p.x.toNat = some t := by
  unfold TileMap.getTile
  cases hv : tm.isValidPosition p l with
  | false => simp
  | true =>
    cases hat : tm.mTileMap.at? l.toNat p.y.toNat p.x.toNat with
    | none => simp
    | some t' => simp

theorem serialize_tiles_of_ok (tm : TileMap) (tiles : List TileElement)
    (h : serialize.tiles tm = .ok tiles) (doc : MapDocument) (hdoc : tm.serialize = .ok doc) :
    doc.tiles = some tiles := by
  unfold TileMap.serialize at hdoc
  rw [h] at hdoc
  cases hm : serialize.mines tm tm.mMineLocations with
  | error e => simp [hm] at hdoc
  | ok mines =>
    simp only [hm] at hdoc
    rw [← Except.ok.inj hdoc]

/-- C11: on an allocated map the tiles loop of `serialize` succeeds, and the
list it writes (the `tiles` child of every document `serialize` returns)
contains the element `(x, y, depth, index)` for a tile of the grid if and
only if the tile is empty, has no mine, and is either underground and
excavated or of terrain index 0, with `index` the tile's current terrain
index; every element is a grid address; the elements are strictly ordered by
depth, then row, then column, so no tile is written twice. -/
theorem serialize_sparse_tile_rule (tm : TileMap) (ha : tm.Allocated) :
    ∃ tiles : List TileElement, serialize.tiles tm = .ok tiles ∧
      (∀ doc, tm.serialize = .ok doc → doc.tiles = some tiles) ∧
      (∀ (x y depth : Int) (t : Tile), tm.getTile ⟨x, y⟩ depth = .ok t → ∀ index : Int,
        ((⟨x, y, depth, index⟩ : TileElement) ∈ tiles ↔
          (sparseRule depth t = true ∧ index = t.index))) ∧
      (∀ e ∈ tiles, ∃ t, tm.getTile ⟨e.x, e.y⟩ e.depth = .ok t) ∧
      tiles.Pairwise TileElement.before ∧ tiles.Nodup := by
  refine ⟨serialize.allWritten tm, serialize_tiles_eq tm ha,
    fun doc hdoc => serialize_tiles_of_ok tm _ (serialize_tiles_eq tm ha) doc hdoc, ?_, ?_,
    allWritten_pairwise tm, ?_⟩
  · intro x y depth t hget index
    obtain ⟨hv, hat⟩ := (getTile_ok_iff tm ⟨x, y⟩ depth t).1 hget
    obtain ⟨⟨hl0, hl1⟩, ⟨hx0, hx1⟩, hy0, hy1⟩ := (isValidPosition_iff tm ⟨x, y⟩ depth).1 hv
    simp only at hx0 hx1 hy0 hy1 hat
    constructor
    · intro hmem
      obtain ⟨d', y', x', _, _, _, hw⟩ := (mem_allWritten_iff tm _).1 hmem
      obtain ⟨hex, hey, hed, t', hat', hrule, hidx⟩ := mem_written tm d' y' x' _ hw
      simp only at hex hey hed hidx
      have hd' : d' = depth.toNat := by omega
      have hy' : y' = y.toNat := by omega
      have hx' : x' = x.toNat := by omega
      subst hd' hy' hx'
      rw [hat] at hat'
      have htt : t = t' := Option.some.inj hat'
      subst htt
      rw [Int.toNat_of_nonneg hl0] at hrule
      exact ⟨hrule, hidx⟩
    · rintro ⟨hrule, rfl⟩
      apply (mem_allWritten_iff tm _).2
      refine ⟨depth.toNat, y.toNat, x.toNat, by omega, by omega, by omega, ?_⟩
      rw [written_eq tm _ _ _ t hat, Int.toNat_of_nonneg hl0, if_pos hrule,
        Int.toNat_of_nonneg hx0, Int.toNat_of_nonneg hy0]
      exact List.mem_singleton.2 rfl
  · intro e he
    obtain ⟨t, _, hget⟩ := getTile_of_valid tm ha ⟨e.x, e.y⟩ e.depth (allWritten_valid tm e he)
    exact ⟨t, hget⟩
  · refine (allWritten_pairwise tm).imp ?_
    intro a b hab heq
    subst heq
    unfold TileElement.before at hab
    omega

/-- Witness for C11: the freshly built example map. -/
theorem serialize_sparse_tile_rule_witness :
    ∃ tiles : List TileElement, serialize.tiles exampleMap = .ok tiles ∧
      (∀ doc, exampleMap.serialize = .ok doc → doc.tiles = some tiles) ∧
      (∀ (x y depth : Int) (t : Tile), exampleMap.getTile ⟨x, y⟩ depth = .ok t →
        ∀ index : Int, ((⟨x, y, depth, index⟩ : TileElement) ∈ tiles ↔
          (sparseRule depth t = true ∧ index = t.index))) ∧
      (∀ e ∈ tiles, ∃ t, exampleMap.getTile ⟨e.x, e.y⟩ e.depth = .ok t) ∧
      tiles.Pairwise TileElement.before ∧ tiles.Nodup :=
  serialize_sparse_tile_rule exampleMap exampleMap_allocated

theorem updateTile_of_invalid (tm : TileMap) (p : Point) (l : Int) (f : Tile → Tile)
    (hv : tm.isValidPosition p l = false) :
    tm.updateTile p l f = .error (.outOfBounds p l) := by
  simp only [TileMap.updateTile, TileMap.getTile, hv, Bool.not_false, if_true]

theorem deserialize_mines_result (mines : List MineElement) : ∀ tm : TileMap, tm.Allocated →
    ((∀ m ∈ mines, tm.isValidPosition ⟨m.x, m.y⟩ 0 = true) ∧
        ∃ tm' : TileMap, deserialize.mines mines tm = .ok tm' ∧ tm'.Allocated ∧
          tm'.mSizeInTiles = tm.mSizeInTiles ∧ tm'.mMaxDepth = tm.mMaxDepth) ∨
      (∃ m ∈ mines, tm.isValidPosition ⟨m.x, m.y⟩ 0 = false ∧
        deserialize.mines mines tm = .error (.outOfBounds ⟨m.x, m.y⟩ 0)) := by
  induction mines with
  | nil =>
    intro tm ha
    exact Or.inl ⟨fun m hm => absurd hm (List.not_mem_nil m), tm, rfl, ha, rfl, rfl⟩
  | cons m rest ih =>
    intro tm ha
    cases hv : tm.isValidPosition ⟨m.x, m.y⟩ 0 with
    | false =>
      refine Or.inr ⟨m, List.mem_cons_self _ _, hv, ?_⟩
      simp only [deserialize.mines, updateTile_of_invalid tm _ _ _ hv]
    | true =>
      obtain ⟨tm1, hupd, ha1, hsz1, hd1, _, _⟩ := updateTile_spec tm ha ⟨m.x, m.y⟩ 0
        (fun tile => (tile.pushMine (some
          (if m.mine.depth = 0 ∧ m.mine.active = true then m.mine.increaseDepth
            else m.mine))).setIndex TERRAIN_DOZED) hv
      have ha2 : TileMap.Allocated
          { tm1 with mMineLocations := tm1.mMineLocations ++ [⟨m.x, m.y⟩] } := ha1
      have hstep : deserialize.mines (m :: rest) tm = deserialize.mines rest
          { tm1 with mMineLocations := tm1.mMineLocations ++ [⟨m.x, m.y⟩] } := by
        simp only [deserialize.mines, hupd]
      rcases ih _ ha2 with ⟨hall, tm', hrun, ha', hsz', hd'⟩ | ⟨m', hm', hinv, hrun⟩
      · refine Or.inl ⟨fun m'' hm'' => ?_, tm', hstep.trans hrun, ha', hsz'.trans hsz1,
          hd'.trans hd1⟩
        rcases List.mem_cons.1 hm'' with rfl | hin
        · exact hv
        · rw [← isValidPosition_congr tm
            { tm1 with mMineLocations := tm1.mMineLocations ++ [⟨m.x, m.y⟩] } hsz1 hd1]
          exact hall m'' hin
      · refine Or.inr ⟨m', List.mem_cons_of_mem _ hm', ?_, hstep.trans hrun⟩
        rw [← isValidPosition_congr tm
          { tm1 with mMineLocations := tm1.mMineLocations ++ [⟨m.x, m.y⟩] } hsz1 hd1]
        exact hinv

theorem deserialize_tiles_result (tiles : List TileElement) : ∀ tm : TileMap, tm.Allocated →
    ((∀ t ∈ tiles, tm.isValidPosition ⟨t.x, t.y⟩ t.depth = true) ∧
        ∃ tm' : TileMap, deserialize.tiles tiles tm = .ok tm') ∨
      (∃ t ∈ tiles, tm.isValidPosition ⟨t.x, t.y⟩ t.depth = false ∧
        deserialize.tiles tiles tm = .error (.outOfBounds ⟨t.x, t.y⟩ t.depth)) := by
  induction tiles with
  | nil =>
    intro tm _
    exact Or.inl ⟨fun t ht => absurd ht (List.not_mem_nil t), tm, rfl⟩
  | cons t rest ih =>
    intro tm ha
    cases hv : tm.isValidPosition ⟨t.x, t.y⟩ t.depth with
    | false =>
      refine Or.inr ⟨t, List.mem_cons_self _ _, hv, ?_⟩
      simp only [deserialize.tiles, updateTile_of_invalid tm _ _ _ hv]
    | true =>
      obtain ⟨tm1, hupd, ha1, hsz1, hd1, _, _⟩ := updateTile_spec tm ha ⟨t.x, t.y⟩ t.depth
        (fun tile =>
          let tile := tile.setIndex t.index
          if t.depth > 0 then tile.setExcavated true else tile) hv
      have hstep : deserialize.tiles (t :: rest) tm = deserialize.tiles rest tm1 := by
        simp only [deserialize.tiles, hupd]
      rcases ih tm1 ha1 with ⟨hall, tm', hrun⟩ | ⟨t', ht', hinv, hrun⟩
      · refine Or.inl ⟨fun t'' ht'' => ?_, tm', hstep.trans hrun⟩
        rcases List.mem_cons.1 ht'' with rfl | hin
        · exact hv
        · rw [← isValidPosition_congr tm tm1 hsz1 hd1]
          exact hall t'' hin
      · refine Or.inr ⟨t', List.mem_cons_of_mem _ ht', ?_, hstep.trans hrun⟩
        rw [← isValidPosition_congr tm tm1 hsz1 hd1]
        exact hinv

theorem deserialize_missing_view (tm : TileMap) (mines : Option (List MineElement))
    (tiles : Option (List TileElement)) :
    tm.deserialize ⟨none, mines, tiles⟩ = .error .nullPointer := rfl

theorem deserialize_missing_mines (tm : TileMap) (view : ViewParameters)
    (tiles : Option (List TileElement)) :
    tm.deserialize ⟨some view, none, tiles⟩ = .error .nullPointer := rfl

theorem deserialize_all_present (tm : TileMap) (ha : tm.Allocated) (view : ViewParameters)
    (mines : List MineElement) (tiles : List TileElement) :
    ((∀ m ∈ mines, tm.isValidPosition ⟨m.x, m.y⟩ 0 = true) ∧
        (∀ t ∈ tiles, tm.isValidPosition ⟨t.x, t.y⟩ t.depth = true) ∧
        ∃ tm' : TileMap, tm.deserialize ⟨some view, some mines, some tiles⟩ = .ok tm') ∨
      (∃ (p : Point) (l : Int), tm.isValidPosition p l = false ∧
        tm.deserialize ⟨some view, some mines, some tiles⟩ = .error (.outOfBounds p l)) := by
  have ha0 : TileMap.Allocated ((tm.mapViewLocation
      ⟨view.viewlocation_x, view.viewlocation_y⟩).currentDepth view.currentdepth) := ha
  have hc : ∀ q l, TileMap.isValidPosition ((tm.mapViewLocation
      ⟨view.viewlocation_x, view.viewlocation_y⟩).currentDepth view.currentdepth) q l =
      tm.isValidPosition q l := fun q l => rfl
  rcases deserialize_mines_result mines _ ha0 with ⟨hall, tm2, hrun, ha2, hsz2, hd2⟩ |
    ⟨m, _, hinv, hrun⟩
  · have hc2 : ∀ q l, tm2.isValidPosition q l = tm.isValidPosition q l := fun q l =>
      (isValidPosition_congr _ tm2 hsz2 hd2 q l).trans (hc q l)
    rcases deserialize_tiles_result tiles tm2 ha2 with ⟨hallt, tm', hrunt⟩ | ⟨t, _, hinvt, hrunt⟩
    · refine Or.inl ⟨fun m hm => (hc _ _).symm.trans (hall m hm),
        fun t ht => (hc2 _ _).symm.trans (hallt t ht), tm', ?_⟩
      simp only [TileMap.deserialize, hrun]
      exact hrunt
    · refine Or.inr ⟨⟨t.x, t.y⟩, t.depth, (hc2 _ _).symm.trans hinvt, ?_⟩
      simp only [TileMap.deserialize, hrun]
      exact hrunt
  · refine Or.inr ⟨⟨m.x, m.y⟩, 0, (hc _ _).symm.trans hinv, ?_⟩
    simp only [TileMap.deserialize, hrun]

theorem deserialize_missing_tiles (tm : TileMap) (ha : tm.Allocated) (view : ViewParameters)
    (mines : List MineElement) :
    tm.deserialize ⟨some view, some mines, none⟩ = .error .nullPointer ∨
      ∃ (p : Point), tm.isValidPosition p 0 = false ∧
        tm.deserialize ⟨some view, some mines, none⟩ = .error (.outOfBounds p 0) := by
  have ha0 : TileMap.Allocated ((tm.mapViewLocation
      ⟨view.viewlocation_x, view.viewlocation_y⟩).currentDepth view.currentdepth) := ha
  rcases deserialize_mines_result mines _ ha0 with ⟨_, tm2, hrun, _⟩ | ⟨m, _, hinv, hrun⟩
  · left
    simp only [TileMap.deserialize, hrun]
  · right
    refine ⟨⟨m.x, m.y⟩, hinv, ?_⟩
    simp only [TileMap.deserialize, hrun]

/-- C12 (amended): `deserialize` never answers an absent wrapper element with a
malformed-save error.  On an allocated map, a document without
`view_parameters`, a document without `mines`, and a document without `tiles`
whose `mine` elements all address valid grid positions end in the dereference
of a null pointer, which is not a reported error; a document without `tiles`
that has a `mine` element off the grid fails with the out-of-bounds error of
`getTile` for such a `mine` element. -/
theorem deserialize_wrapper_contract (tm : TileMap) (ha : tm.Allocated) (view : ViewParameters)
    (mines : List MineElement) :
    (∀ (m : Option (List MineElement)) (t : Option (List TileElement)),
      tm.deserialize ⟨none, m, t⟩ = .error .nullPointer) ∧
    (∀ t : Option (List TileElement),
      tm.deserialize ⟨some view, none, t⟩ = .error .nullPointer) ∧
    ((∀ m ∈ mines, tm.isValidPosition ⟨m.x, m.y⟩ 0 = true) →
      tm.deserialize ⟨some view, some mines, none⟩ = .error .nullPointer) ∧
    ((∃ m ∈ mines, tm.isValidPosition ⟨m.x, m.y⟩ 0 = false) →
      ∃ m ∈ mines, tm.isValidPosition ⟨m.x, m.y⟩ 0 = false ∧
        tm.deserialize ⟨some view, some mines, none⟩ = .error (.outOfBounds ⟨m.x, m.y⟩ 0)) ∧
    Error.nullPointer.reported = false := by
  have ha0 : TileMap.Allocated ((tm.mapViewLocation
      ⟨view.viewlocation_x, view.viewlocation_y⟩).currentDepth view.currentdepth) := ha
  have hc : ∀ q l, TileMap.isValidPosition ((tm.mapViewLocation
      ⟨view.viewlocation_x, view.viewlocation_y⟩).currentDepth view.currentdepth) q l =
      tm.isValidPosition q l := fun q l => rfl
  refine ⟨fun m t => deserialize_missing_view tm m t,
    fun t => deserialize_missing_mines tm view t, ?_, ?_, rfl⟩
  · intro hall
    rcases deserialize_mines_result mines _ ha0 with ⟨_, tm2, hrun, _⟩ | ⟨m, hm, hinv, _⟩
    · simp only [TileMap.deserialize, hrun]
    · rw [hc, hall m hm] at hinv
      exact absurd hinv (by decide)
  · rintro ⟨m0, hm0, hinv0⟩
    rcases deserialize_mines_result mines _ ha0 with ⟨hall, _⟩ | ⟨m, hm, hinv, hrun⟩
    · have h := hall m0 hm0
      rw [hc, hinv0] at h
      exact absurd h (by decide)
    · refine ⟨m, hm, (hc _ _).symm.trans hinv, ?_⟩
      simp only [TileMap.deserialize, hrun]

/-- Witness for C12 (amended): on the freshly built example map, a document
without `tiles` whose single mine lies on the tile `(0, 0)` ends in the null
dereference, and one whose single mine lies at `(-1, 0)` fails with the
out-of-bounds error for that mine. -/
theorem deserialize_wrapper_contract_witness :
    ((∀ m ∈ [(⟨0, 0, Mine.new .Low⟩ : MineElement)],
        exampleMap.isValidPosition ⟨m.x, m.y⟩ 0 = true) ∧
      exampleMap.deserialize ⟨some ⟨0, 0, 0⟩, some [⟨0, 0, Mine.new .Low⟩], none⟩ =
        .error .nullPointer) ∧
    ((∃ m ∈ [(⟨-1, 0, Mine.new .Low⟩ : MineElement)],
        exampleMap.isValidPosition ⟨m.x, m.y⟩ 0 = false) ∧
      ∃ m ∈ [(⟨-1, 0, Mine.new .Low⟩ : MineElement)],
        exampleMap.isValidPosition ⟨m.x, m.y⟩ 0 = false ∧
          exampleMap.deserialize ⟨some ⟨0, 0, 0⟩, some [⟨-1, 0, Mine.new .Low⟩], none⟩ =
            .error (.outOfBounds ⟨m.x, m.y⟩ 0)) := by
  have hin : ∀ m ∈ [(⟨0, 0, Mine.new .Low⟩ : MineElement)],
      exampleMap.isValidPosition ⟨m.x, m.y⟩ 0 = true := by
    intro m hm
    rw [List.mem_singleton.1 hm, isValidPosition_iff, exampleMap_size, exampleMap_maxDepth]
    decide
  have hout : ∃ m ∈ [(⟨-1, 0, Mine.new .Low⟩ : MineElement)],
      exampleMap.isValidPosition ⟨m.x, m.y⟩ 0 = false := by
    refine ⟨_, List.mem_singleton.2 rfl, ?_⟩
    rw [← Bool.not_eq_true, isValidPosition_iff, exampleMap_size, exampleMap_maxDepth]
    decide
  exact ⟨⟨hin, (deserialize_wrapper_contract exampleMap exampleMap_allocated ⟨0, 0, 0⟩
      [⟨0, 0, Mine.new .Low⟩]).2.2.1 hin⟩,
    ⟨hout, (deserialize_wrapper_contract exampleMap exampleMap_allocated ⟨0, 0, 0⟩
      [⟨-1, 0, Mine.new .Low⟩]).2.2.2.1 hout⟩⟩

/-- Counterexample for C12: on the freshly built example map, a document whose
`mines` wrapper is absent does not make `deserialize` fail with a reported
error: the result is the null-pointer dereference. -/
theorem deserialize_wrapper_contract_counterexample :
    exampleMap.deserialize ⟨some ⟨0, 0, 0⟩, none, some []⟩ = .error .nullPointer ∧
      ¬ ∃ e : Error, exampleMap.deserialize ⟨some ⟨0, 0, 0⟩, none, some []⟩ = .error e ∧
        e.reported = true := by
  have h := deserialize_missing_mines exampleMap ⟨0, 0, 0⟩ (some [])
  refine ⟨h, ?_⟩
  rw [h]
  rintro ⟨e, he, hr⟩
  cases he
  exact absurd hr (by decide)

theorem contains_grid_iff (tm : TileMap) (q : Point) :
    (Rectangle.mk 0 0 tm.mSizeInTiles.x tm.mSizeInTiles.y).contains q = tm.inGrid q := by
  simp only [Rectangle.contains, TileMap.inGrid]
  by_cases h : 0 ≤ q.x ∧ q.x < tm.mSizeInTiles.x ∧ 0 ≤ q.y ∧ q.y < tm.mSizeInTiles.y
  · simp only [h, and_self, decide_True]
    obtain ⟨h1, h2, h3, h4⟩ := h
    simp [h1, h2, h3, h4]
  · simp only [h, decide_False]
    simp only [not_and, not_lt] at h
    by_cases h1 : 0 ≤ q.x
    · by_cases h2 : q.x < tm.mSizeInTiles.x
      · by_cases h3 : 0 ≤ q.y
        · have h4 := h h1 h2 h3
          simp [h1, h2, h3, not_lt.2 h4]
        · simp [h3]
      · simp [h2]
    · simp [h1]

theorem getTile_of_inGrid (tm : TileMap) (ha : tm.Allocated) (hd : 0 ≤ tm.mMaxDepth)
    (q : Point) (hq : tm.inGrid q = true) : ∃ n, tm.getTile q 0 = .ok n := by
  have hv : tm.isValidPosition q 0 = true := by
    rw [isValidPosition_iff]
    simp only [TileMap.inGrid, decide_eq_true_eq] at hq
    exact ⟨⟨le_refl 0, hd⟩, ⟨hq.1, hq.2.1⟩, hq.2.2.1, hq.2.2.2⟩
  obtain ⟨n, _, hget⟩ := getTile_of_valid tm ha q 0 hv
  exact ⟨n, hget⟩

theorem adjacentCost_step_eq (tm : TileMap) (ha : tm.Allocated) (hd : 0 ≤ tm.mMaxDepth)
    (R : Float32) (T : Int) (p : Point) (d : Vector) (adj : List StateCost) :
    AdjacentCost.step tm R T p d adj = .ok (adj ++ AdjacentCost.pushed tm R T (p.add d)) := by
  unfold AdjacentCost.step AdjacentCost.pushed
  dsimp only
  cases hin : (Rectangle.mk 0 0 tm.mSizeInTiles.x tm.mSizeInTiles.y).contains (p.add d) with
  | false => simp
  | true =>
    rw [contains_grid_iff] at hin
    obtain ⟨n, hget⟩ := getTile_of_inGrid tm ha hd _ hin
    simp only [Bool.not_true, Bool.false_eq_true, if_false, hget]

theorem adjacentCost_loop_eq (tm : TileMap) (ha : tm.Allocated) (hd : 0 ≤ tm.mMaxDepth)
    (R : Float32) (T : Int) (p : Point) (dirs : List Vector) : ∀ adj : List StateCost,
    AdjacentCost.loop tm R T p dirs adj =
      .ok (adj ++ (dirs.map fun d => AdjacentCost.pushed tm R T (p.add d)).flatten) := by
  induction dirs with
  | nil => intro adj; simp [AdjacentCost.loop]
  | cons d rest ih =>
    intro adj
    simp only [AdjacentCost.loop, adjacentCost_step_eq tm ha hd, ih, List.map_cons,
      List.flatten_cons, List.append_assoc]

theorem adjacentCost_eq (tm : TileMap) (ha : tm.Allocated) (hd : 0 ≤ tm.mMaxDepth)
    (R : Float32) (T : Int) (dirs : List Vector) (state : TilePtr) (tile : Tile)
    (hstate : tm.getTile state.position state.level = .ok tile) (adj : List StateCost) :
    tm.AdjacentCost R T dirs state adj =
      .ok (adj ++ (dirs.map fun d => AdjacentCost.pushed tm R T (tile.position.add d)).flatten) := by
  simp only [TileMap.AdjacentCost, hstate]
  exact adjacentCost_loop_eq tm ha hd R T _ dirs adj

theorem pushed_of_inGrid (tm : TileMap) (R : Float32) (T : Int) (q : Point) (n : Tile)
    (hq : tm.inGrid q = true) (hget : tm.getTile q 0 = .ok n) :
    AdjacentCost.pushed tm R T q =
      [⟨⟨q, 0⟩, specAdjacentCost R T tm.mPathStartEndPair.1 tm.mPathStartEndPair.2 ⟨q, 0⟩ n⟩] := by
  unfold AdjacentCost.pushed specAdjacentCost
  rw [contains_grid_iff, hq, hget]
  simp only [Bool.not_true, Bool.false_eq_true, if_false]
  by_cases hi : n.index = T
  · simp only [hi, if_true]
  · simp only [hi, if_false]
    cases he : n.empty with
    | true => simp
    | false =>
      by_cases hp : some (⟨q, 0⟩ : TilePtr) = tm.mPathStartEndPair.1 ∨
          some (⟨q, 0⟩ : TilePtr) = tm.mPathStartEndPair.2
      · simp [hp]
      · simp [hp]

theorem pushed_of_not_inGrid (tm : TileMap) (R : Float32) (T : Int) (q : Point)
    (hq : tm.inGrid q = false) : AdjacentCost.pushed tm R T q = [] := by
  unfold AdjacentCost.pushed
  rw [contains_grid_iff, hq]
  rfl

theorem pushed_states (tm : TileMap) (ha : tm.Allocated) (hd : 0 ≤ tm.mMaxDepth)
    (R : Float32) (T : Int) (q : Point) :
    (AdjacentCost.pushed tm R T q).map (fun sc => sc.state) =
      if tm.inGrid q = true then [⟨q, 0⟩] else [] := by
  cases hq : tm.inGrid q with
  | false => rw [pushed_of_not_inGrid tm R T q hq]; rfl
  | true =>
    obtain ⟨n, hget⟩ := getTile_of_inGrid tm ha hd q hq
    rw [pushed_of_inGrid tm R T q n hq hget]
    rfl

theorem flatten_pushed_states (tm : TileMap) (ha : tm.Allocated) (hd : 0 ≤ tm.mMaxDepth)
    (R : Float32) (T : Int) (qs : List Point) :
    ((qs.map fun q => AdjacentCost.pushed tm R T q).flatten).map (fun sc => sc.state) =
      (qs.filter tm.inGrid).map (fun q => (⟨q, 0⟩ : TilePtr)) := by
  induction qs with
  | nil => rfl
  | cons q rest ih =>
    simp only [List.map_cons, List.flatten_cons, List.map_append, ih,
      pushed_states tm ha hd R T q, List.filter_cons]
    cases tm.inGrid q <;> simp

theorem exampleMap_getTile_centre :
    exampleMap.getTile ⟨10, 10⟩ 0 = .ok (builtTile (fun _ => 120) 0 10 10) := by
  have hv := (valid_centre exampleMap rfl rfl).1
  unfold exampleMap at hv ⊢
  exact built_getTile _ _ _ _ _ _ hv

theorem exampleMap_maxDepth_nonneg : 0 ≤ exampleMap.mMaxDepth := by
  rw [exampleMap_maxDepth]
  omega

/-- C14: on an allocated map, `AdjacentCost` for a tile at position `p`
succeeds and appends exactly one entry for each of `p + N`, `p + E`, `p + S`,
`p + W` that lies inside `[0, width) x [0, height)`, in this order, and none
for a position outside; the node of each entry is the depth-0 tile at that
position; at most four entries are appended. -/
theorem adjacentCost_neighbours (tm : TileMap) (ROUTE_BASE_COST : Float32)
    (TERRAIN_IMPASSABLE : Int) (state : TilePtr) (tile : Tile) (adjacent : List StateCost)
    (ha : tm.Allocated) (hd : 0 ≤ tm.mMaxDepth)
    (hstate : tm.getTile state.position state.level = .ok tile) :
    ∃ pushed : List StateCost,
      tm.AdjacentCost ROUTE_BASE_COST TERRAIN_IMPASSABLE DirectionClockwise4 state adjacent =
        .ok (adjacent ++ pushed) ∧
      pushed.map (fun sc => sc.state) =
        (([⟨tile.position.x, tile.position.y - 1⟩, ⟨tile.position.x + 1, tile.position.y⟩,
            ⟨tile.position.x, tile.position.y + 1⟩,
            ⟨tile.position.x - 1, tile.position.y⟩] : List Point).filter tm.inGrid).map
          (fun q => (⟨q, 0⟩ : TilePtr)) ∧
      pushed.length ≤ 4 ∧
      ∀ sc ∈ pushed, ∃ n, tm.getTile sc.state.position sc.state.level = .ok n := by
  have hdirs : DirectionClockwise4.map (fun d => tile.position.add d) =
      [⟨tile.position.x, tile.position.y - 1⟩, ⟨tile.position.x + 1, tile.position.y⟩,
        ⟨tile.position.x, tile.position.y + 1⟩, ⟨tile.position.x - 1, tile.position.y⟩] := by
    simp only [DirectionClockwise4, List.map_cons, List.map_nil, Point.add, add_zero,
      sub_eq_add_neg]
  have hmap : (DirectionClockwise4.map fun d =>
      AdjacentCost.pushed tm ROUTE_BASE_COST TERRAIN_IMPASSABLE (tile.position.add d)) =
      (DirectionClockwise4.map (fun d => tile.position.add d)).map
        (fun q => AdjacentCost.pushed tm ROUTE_BASE_COST TERRAIN_IMPASSABLE q) := by
    rw [List.map_map]
    rfl
  have hstates := flatten_pushed_states tm ha hd ROUTE_BASE_COST TERRAIN_IMPASSABLE
    (DirectionClockwise4.map (fun d => tile.position.add d))
  rw [← hmap] at hstates
  refine ⟨_, adjacentCost_eq tm ha hd ROUTE_BASE_COST TERRAIN_IMPASSABLE DirectionClockwise4
    state tile hstate adjacent, ?_, ?_, ?_⟩
  · rw [hstates, hdirs]
  · have hlen := congrArg List.length hstates
    rw [List.length_map, List.length_map] at hlen
    rw [hlen]
    exact (List.length_filter_le _ _).trans (by simp [DirectionClockwise4])
  · intro sc hsc
    obtain ⟨l, hl, hmem⟩ := List.mem_flatten.1 hsc
    obtain ⟨d, _, rfl⟩ := List.mem_map.1 hl
    cases hin : tm.inGrid (tile.position.add d) with
    | false =>
      rw [pushed_of_not_inGrid _ _ _ _ hin] at hmem
      exact absurd hmem (List.not_mem_nil sc)
    | true =>
      obtain ⟨n, hget⟩ := getTile_of_inGrid _ ha hd _ hin
      rw [pushed_of_inGrid _ ROUTE_BASE_COST TERRAIN_IMPASSABLE _ n hin hget] at hmem
      rw [List.mem_singleton.1 hmem]
      exact ⟨n, hget⟩
/-- Witness for C14: the tile at `(10, 10)` of the freshly built example map. -/
theorem adjacentCost_neighbours_witness :
    exampleMap.Allocated ∧ 0 ≤ exampleMap.mMaxDepth ∧
      exampleMap.getTile ⟨10, 10⟩ 0 = .ok (builtTile (fun _ => 120) 0 10 10) ∧
      ∃ pushed : List StateCost,
        exampleMap.AdjacentCost ⟨8388608, 24⟩ 4 DirectionClockwise4 ⟨⟨10, 10⟩, 0⟩ [] =
          .ok ([] ++ pushed) ∧
        pushed.map (fun sc => sc.state) =
          (([⟨(builtTile (fun _ => 120) 0 10 10).position.x,
                (builtTile (fun _ => 120) 0 10 10).position.y - 1⟩,
              ⟨(builtTile (fun _ => 120) 0 10 10).position.x + 1,
                (builtTile (fun _ => 120) 0 10 10).position.y⟩,
              ⟨(builtTile (fun _ => 120) 0 10 10).position.x,
                (builtTile (fun _ => 120) 0 10 10).position.y + 1⟩,
              ⟨(builtTile (fun _ => 120) 0 10 10).position.x - 1,
                (builtTile (fun _ => 120) 0 10 10).position.y⟩] : List Point).filter
            exampleMap.inGrid).map (fun q => (⟨q, 0⟩ : TilePtr)) ∧
        pushed.length ≤ 4 ∧
        ∀ sc ∈ pushed, ∃ n, exampleMap.getTile sc.state.position sc.state.level = .ok n :=
  ⟨exampleMap_allocated, exampleMap_maxDepth_nonneg, exampleMap_getTile_centre,
    adjacentCost_neighbours exampleMap ⟨8388608, 24⟩ 4 ⟨⟨10, 10⟩, 0⟩
      (builtTile (fun _ => 120) 0 10 10) [] exampleMap_allocated exampleMap_maxDepth_nonneg
      exampleMap_getTile_centre⟩

theorem roundSig24_mul_strict (m a b : Nat) (hm : 0 < m) (ha : a < 2 ^ 23) (hab : a < b) :
    roundSig24 (m * a) < roundSig24 (m * b) := by
  obtain ⟨ha1, _⟩ := roundSig24_bounds (m * a)
  obtain ⟨_, hb2⟩ := roundSig24_bounds (m * b)
  have hX : m * a ≤ m * (2 ^ 23 - 1) := Nat.mul_le_mul_left m (by omega)
  have hY : m * (a + 1) ≤ m * b := Nat.mul_le_mul_left m hab
  rw [Nat.mul_add, Nat.mul_one] at hY
  generalize m * a = X at *
  generalize m * b = Y at *
  generalize roundSig24 X = Ra at *
  generalize roundSig24 Y = Rb at *
  norm_num at ha1 hb2 hX
  omega

theorem roundInt_of_small (k : Nat) (hk : k < 2 ^ 24) : Float32.roundInt (k : Int) = (k : Int) := by
  unfold Float32.roundInt
  rw [Int.natAbs_ofNat, roundSig24_of_lt k hk]
  have := Int.sign_mul_natAbs (k : Int)
  rwa [Int.natAbs_ofNat] at this

theorem routeCost_of_small (R : Float32) (t : Int) (h0 : 0 ≤ t) (hlt : t + 1 < 2 ^ 24) :
    Float32.routeCost R t = (roundSig24 (R.mantissa * (t + 1).toNat) : Int) := by
  obtain ⟨k, rfl⟩ := Int.eq_ofNat_of_zero_le h0
  have hk : k + 1 < 2 ^ 24 := by
    have : ((k + 1 : Nat) : Int) < ((2 ^ 24 : Nat) : Int) := by
      push_cast
      exact hlt
    exact Int.ofNat_lt.1 this
  unfold Float32.routeCost
  simp only
  rw [roundInt_of_small k (by omega)]
  have hcast : ((k : Int) + 1) = ((k + 1 : Nat) : Int) := by push_cast; rfl
  rw [hcast, roundInt_of_small (k + 1) hk, Int.natAbs_ofNat, Int.toNat_ofNat]
  have hs : Int.sign ((k + 1 : Nat) : Int) = 1 := Int.sign_of_add_one k
  rw [hs, one_mul]

theorem adjacentCost_step_of_inGrid (tm : TileMap) (R : Float32) (T : Int) (p : Point)
    (d : Vector) (adj : List StateCost) (n : Tile) (hin : tm.inGrid (p.add d) = true)
    (hget : tm.getTile (p.add d) 0 = .ok n) :
    AdjacentCost.step tm R T p d adj = .ok (adj ++ [⟨⟨p.add d, 0⟩,
      specAdjacentCost R T tm.mPathStartEndPair.1 tm.mPathStartEndPair.2 ⟨p.add d, 0⟩ n⟩]) := by
  rw [← pushed_of_inGrid tm R T (p.add d) n hin hget]
  unfold AdjacentCost.step AdjacentCost.pushed
  dsimp only
  rw [contains_grid_iff, hin, hget]
  rfl

theorem specAdjacentCost_of_free (R : Float32) (T : Int) (start finish : Option TilePtr)
    (ptr : TilePtr) (n : Tile) (hT : n.index ≠ T) (he : n.empty = true) :
    specAdjacentCost R T start finish ptr n = .finite (Float32.routeCost R n.index) := by
  unfold specAdjacentCost
  rw [if_neg hT, if_neg]
  rw [he]
  simp

/-- C16 (amended): for two unoccupied neighbour tiles inside the grid with
terrain indices `0 ≤ t1 < t2`, neither equal to `TERRAIN_IMPASSABLE`, with
`t1 + 1 < 2^23` and `t2 + 1 < 2^24`, and a positive `ROUTE_BASE_COST`, the
cost `AdjacentCost` reports for the `t2` tile is strictly greater than the one
it reports for the `t1` tile; the two costs are the binary32 products of
`ROUTE_BASE_COST` with `t1 + 1` and `t2 + 1`, which are the exact products
whenever these fit into 24 bits of significand. -/
theorem adjacentCost_cost_monotone (tm : TileMap) (ROUTE_BASE_COST : Float32)
    (TERRAIN_IMPASSABLE : Int) (p1 p2 : Point) (d1 d2 : Vector) (n1 n2 : Tile)
    (adj1 adj2 : List StateCost)
    (hin1 : tm.inGrid (p1.add d1) = true) (hin2 : tm.inGrid (p2.add d2) = true)
    (hget1 : tm.getTile (p1.add d1) 0 = .ok n1) (hget2 : tm.getTile (p2.add d2) 0 = .ok n2)
    (he1 : n1.empty = true) (he2 : n2.empty = true)
    (hT1 : n1.index ≠ TERRAIN_IMPASSABLE) (hT2 : n2.index ≠ TERRAIN_IMPASSABLE)
    (hpos : 0 < ROUTE_BASE_COST.mantissa) (h0 : 0 ≤ n1.index) (hlt : n1.index < n2.index)
    (hb1 : n1.index + 1 < 2 ^ 23) (hb2 : n2.index + 1 < 2 ^ 24) :
    ∃ c1 c2 : Int,
      AdjacentCost.step tm ROUTE_BASE_COST TERRAIN_IMPASSABLE p1 d1 adj1 =
        .ok (adj1 ++ [⟨⟨p1.add d1, 0⟩, .finite c1⟩]) ∧
      AdjacentCost.step tm ROUTE_BASE_COST TERRAIN_IMPASSABLE p2 d2 adj2 =
        .ok (adj2 ++ [⟨⟨p2.add d2, 0⟩, .finite c2⟩]) ∧
      c1 < c2 ∧
      c1 = (roundSig24 (ROUTE_BASE_COST.mantissa * (n1.index + 1).toNat) : Int) ∧
      c2 = (roundSig24 (ROUTE_BASE_COST.mantissa * (n2.index + 1).toNat) : Int) ∧
      (ROUTE_BASE_COST.mantissa * (n2.index + 1).toNat < 2 ^ 24 →
        c1 = (ROUTE_BASE_COST.mantissa : Int) * (n1.index + 1) ∧
        c2 = (ROUTE_BASE_COST.mantissa : Int) * (n2.index + 1)) := by
  have hs1 := adjacentCost_step_of_inGrid tm ROUTE_BASE_COST TERRAIN_IMPASSABLE p1 d1 adj1 n1
    hin1 hget1
  have hs2 := adjacentCost_step_of_inGrid tm ROUTE_BASE_COST TERRAIN_IMPASSABLE p2 d2 adj2 n2
    hin2 hget2
  rw [specAdjacentCost_of_free _ _ _ _ _ n1 hT1 he1,
    routeCost_of_small ROUTE_BASE_COST n1.index h0 (by omega)] at hs1
  rw [specAdjacentCost_of_free _ _ _ _ _ n2 hT2 he2,
    routeCost_of_small ROUTE_BASE_COST n2.index (by omega) hb2] at hs2
  have hb1' : n1.index + 1 < 8388608 := lt_of_lt_of_le hb1 (by norm_num)
  have ha : (n1.index + 1).toNat < 2 ^ 23 := by
    have h23 : (2 : Nat) ^ 23 = 8388608 := by norm_num
    omega
  have hab : (n1.index + 1).toNat < (n2.index + 1).toNat := by omega
  have hstrict := roundSig24_mul_strict ROUTE_BASE_COST.mantissa _ _ hpos ha hab
  refine ⟨_, _, hs1, hs2, Int.ofNat_lt.2 hstrict, rfl, rfl, fun hfit => ?_⟩
  have hle : ROUTE_BASE_COST.mantissa * (n1.index + 1).toNat ≤
      ROUTE_BASE_COST.mantissa * (n2.index + 1).toNat := Nat.mul_le_mul_left _ (le_of_lt hab)
  rw [roundSig24_of_lt _ hfit, roundSig24_of_lt _ (lt_of_le_of_lt hle hfit)]
  push_cast
  rw [Int.toNat_of_nonneg (by omega), Int.toNat_of_nonneg (by omega)]
  exact ⟨rfl, rfl⟩

/-- Witness for C16 (amended): on the one-row map `ridgeMap`, the tile at
`(1, 0)` (index 0) seen from `(0, 0)` and the tile at `(0, 0)` (index 8390656)
seen from `(1, 0)`, with base cost `0.5f` and impassable terrain index 4. -/
theorem adjacentCost_cost_monotone_witness :
    ∃ c1 c2 : Int,
      AdjacentCost.step ridgeMap ⟨8388608, 24⟩ 4 ⟨0, 0⟩ ⟨1, 0⟩ [] =
        .ok ([] ++ [⟨⟨(⟨0, 0⟩ : Point).add ⟨1, 0⟩, 0⟩, .finite c1⟩]) ∧
      AdjacentCost.step ridgeMap ⟨8388608, 24⟩ 4 ⟨1, 0⟩ ⟨-1, 0⟩ [] =
        .ok ([] ++ [⟨⟨(⟨1, 0⟩ : Point).add ⟨-1, 0⟩, 0⟩, .finite c2⟩]) ∧
      c1 < c2 ∧
      c1 = (roundSig24 ((⟨8388608, 24⟩ : Float32).mantissa *
        ((Tile.new ⟨1, 0⟩ 0 0).index + 1).toNat) : Int) ∧
      c2 = (roundSig24 ((⟨8388608, 24⟩ : Float32).mantissa *
        ((Tile.new ⟨0, 0⟩ 0 8390656).index + 1).toNat) : Int) ∧
      ((⟨8388608, 24⟩ : Float32).mantissa * ((Tile.new ⟨0, 0⟩ 0 8390656).index + 1).toNat
          < 2 ^ 24 →
        c1 = (((⟨8388608, 24⟩ : Float32).mantissa : Nat) : Int) *
          ((Tile.new ⟨1, 0⟩ 0 0).index + 1) ∧
        c2 = (((⟨8388608, 24⟩ : Float32).mantissa : Nat) : Int) *
          ((Tile.new ⟨0, 0⟩ 0 8390656).index + 1)) :=
  adjacentCost_cost_monotone ridgeMap ⟨8388608, 24⟩ 4 ⟨0, 0⟩ ⟨1, 0⟩ ⟨1, 0⟩ ⟨-1, 0⟩
    (Tile.new ⟨1, 0⟩ 0 0) (Tile.new ⟨0, 0⟩ 0 8390656) [] [] (by decide) (by decide) (by rfl)
    (by rfl) (by rfl) (by rfl) (by decide) (by decide) (by decide) (by decide) (by decide)
    (by decide) (by decide)

/-- Counterexample to C16 as stated: on the one-row map `ridgeMap` the east
and west neighbours of the tile at `(1, 0)` are unoccupied, inside the grid and
have the terrain indices 8390657 and 8390656, neither equal to the impassable
index 4; with the positive base cost `16773122 * 2^-24`, `AdjacentCost`
reports the same cost `140737521909760 * 2^-24 = 8388610` for both. -/
theorem adjacentCost_cost_monotone_counterexample :
    ridgeMap.getTile ⟨0, 0⟩ 0 = .ok (Tile.new ⟨0, 0⟩ 0 8390656) ∧
      ridgeMap.getTile ⟨2, 0⟩ 0 = .ok (Tile.new ⟨2, 0⟩ 0 8390657) ∧
      (Tile.new ⟨0, 0⟩ 0 8390656).empty = true ∧ (Tile.new ⟨2, 0⟩ 0 8390657).empty = true ∧
      ridgeMap.AdjacentCost ⟨16773122, 24⟩ 4 DirectionClockwise4 ⟨⟨1, 0⟩, 0⟩ [] =
        .ok [⟨⟨⟨2, 0⟩, 0⟩, .finite 140737521909760⟩, ⟨⟨⟨0, 0⟩, 0⟩, .finite 140737521909760⟩] ∧
      ¬ ((140737521909760 : Int) < 140737521909760) := by
  refine ⟨by rfl, by rfl, by rfl, by rfl, by rfl, by decide⟩

theorem mem_tilePositions (tm : TileMap) (q : Point) :
    q ∈ draw.tilePositions tm ↔
      ∃ row col : Nat, row < tm.mEdgeLength.toNat ∧ col < tm.mEdgeLength.toNat ∧
        q = tm.mMapViewLocation.add ⟨(col : Int), (row : Int)⟩ := by
  unfold draw.tilePositions
  constructor
  · intro h
    obtain ⟨l, hl, hq⟩ := List.mem_flatten.1 h
    obtain ⟨row, hrow, rfl⟩ := List.mem_map.1 hl
    obtain ⟨col, hcol, rfl⟩ := List.mem_map.1 hq
    exact ⟨row, col, List.mem_range.1 hrow, List.mem_range.1 hcol, rfl⟩
  · rintro ⟨row, col, hrow, hcol, rfl⟩
    exact List.mem_flatten.2 ⟨_, List.mem_map.2 ⟨row, List.mem_range.2 hrow, rfl⟩,
      List.mem_map.2 ⟨col, List.mem_range.2 hcol, rfl⟩⟩

theorem clamp_bounds (v lo hi : Int) (h : lo ≤ hi) : lo ≤ clamp v lo hi ∧ clamp v lo hi ≤ hi := by
  unfold clamp
  split_ifs <;> omega

theorem clamp_of_mem (v lo hi : Int) (h1 : lo ≤ v) (h2 : v ≤ hi) : clamp v lo hi = v := by
  unfold clamp
  split_ifs <;> omega

theorem contains_iff (r : Rectangle) (p : Point) :
    r.contains p = true ↔
      r.x ≤ p.x ∧ p.x < r.x + r.width ∧ r.y ≤ p.y ∧ p.y < r.y + r.height := by
  simp only [Rectangle.contains, Bool.and_eq_true, decide_eq_true_eq]
  tauto

/-- C17: for an edge length `e` with `3 ≤ e ≤ min(width, height)`, the view
origin `o` stored by `mapViewLocation(p)` satisfies `0 ≤ o.x ≤ width - e` and
`0 ≤ o.y ≤ height - e`; every tile position `o + (col, row)` with
`0 ≤ col, row < e` is read by the loops of `draw`, and every position these
loops read lies inside the grid (and is a valid position at the current depth
when that depth is in `0..maxDepth`); a point already in the range is stored
unchanged. -/
theorem mapViewLocation_clamps (tm : TileMap) (p : Point) (he3 : 3 ≤ tm.mEdgeLength)
    (hemin : tm.mEdgeLength ≤ min tm.mSizeInTiles.x tm.mSizeInTiles.y) :
    (0 ≤ (tm.mapViewLocation p).mMapViewLocation.x ∧
      (tm.mapViewLocation p).mMapViewLocation.x ≤ tm.mSizeInTiles.x - tm.mEdgeLength ∧
      0 ≤ (tm.mapViewLocation p).mMapViewLocation.y ∧
      (tm.mapViewLocation p).mMapViewLocation.y ≤ tm.mSizeInTiles.y - tm.mEdgeLength) ∧
    (∀ col row : Int, 0 ≤ col → col < tm.mEdgeLength → 0 ≤ row → row < tm.mEdgeLength →
      (tm.mapViewLocation p).mMapViewLocation.add ⟨col, row⟩ ∈
        draw.tilePositions (tm.mapViewLocation p)) ∧
    (∀ q ∈ draw.tilePositions (tm.mapViewLocation p),
      (tm.mapViewLocation p).inGrid q = true ∧
      (0 ≤ tm.mCurrentDepth → tm.mCurrentDepth ≤ tm.mMaxDepth →
        (tm.mapViewLocation p).isValidPosition q (tm.mapViewLocation p).mCurrentDepth = true)) ∧
    (0 ≤ p.x → p.x ≤ tm.mSizeInTiles.x - tm.mEdgeLength → 0 ≤ p.y →
      p.y ≤ tm.mSizeInTiles.y - tm.mEdgeLength → (tm.mapViewLocation p).mMapViewLocation = p) := by
  have hx := clamp_bounds p.x 0 (tm.mSizeInTiles.x - tm.mEdgeLength) (by omega)
  have hy := clamp_bounds p.y 0 (tm.mSizeInTiles.y - tm.mEdgeLength) (by omega)
  have hox : (tm.mapViewLocation p).mMapViewLocation.x =
      clamp p.x 0 (tm.mSizeInTiles.x - tm.mEdgeLength) := rfl
  have hoy : (tm.mapViewLocation p).mMapViewLocation.y =
      clamp p.y 0 (tm.mSizeInTiles.y - tm.mEdgeLength) := rfl
  have hsz : (tm.mapViewLocation p).mSizeInTiles = tm.mSizeInTiles := rfl
  have hed : (tm.mapViewLocation p).mEdgeLength = tm.mEdgeLength := rfl
  have hgrid : ∀ q ∈ draw.tilePositions (tm.mapViewLocation p),
      (0 ≤ q.x ∧ q.x < tm.mSizeInTiles.x) ∧ (0 ≤ q.y ∧ q.y < tm.mSizeInTiles.y) := by
    intro q hq
    obtain ⟨row, col, hrow, hcol, rfl⟩ := (mem_tilePositions _ q).1 hq
    rw [hed] at hrow hcol
    simp only [Point.add]
    rw [hox, hoy]
    omega
  refine ⟨⟨by rw [hox]; exact hx.1, by rw [hox]; exact hx.2, by rw [hoy]; exact hy.1,
    by rw [hoy]; exact hy.2⟩, ?_, ?_, ?_⟩
  · intro col row hc0 hc1 hr0 hr1
    apply (mem_tilePositions _ _).2
    refine ⟨row.toNat, col.toNat, by rw [hed]; omega, by rw [hed]; omega, ?_⟩
    rw [Int.toNat_of_nonneg hc0, Int.toNat_of_nonneg hr0]
  · intro q hq
    obtain ⟨hqx, hqy⟩ := hgrid q hq
    constructor
    · simp only [TileMap.inGrid, hsz, decide_eq_true_eq]
      exact ⟨hqx.1, hqx.2, hqy.1, hqy.2⟩
    · intro hd0 hd1
      rw [isValidPosition_iff]
      exact ⟨⟨hd0, hd1⟩, hqx, hqy⟩
  · intro h1 h2 h3 h4
    show (⟨clamp p.x 0 (tm.mSizeInTiles.x - tm.mEdgeLength),
      clamp p.y 0 (tm.mSizeInTiles.y - tm.mEdgeLength)⟩ : Point) = p
    rw [clamp_of_mem _ _ _ h1 h2, clamp_of_mem _ _ _ h3 h4]

/-- Witness for C17: the constructor's map of 300 x 150 tiles with edge
length 3 and the requested point `(400, -7)`. -/
theorem mapViewLocation_clamps_witness :
    (0 ≤ ((TileMap.init 300 150 4).mapViewLocation ⟨400, -7⟩).mMapViewLocation.x ∧
      ((TileMap.init 300 150 4).mapViewLocation ⟨400, -7⟩).mMapViewLocation.x ≤
        (TileMap.init 300 150 4).mSizeInTiles.x - (TileMap.init 300 150 4).mEdgeLength ∧
      0 ≤ ((TileMap.init 300 150 4).mapViewLocation ⟨400, -7⟩).mMapViewLocation.y ∧
      ((TileMap.init 300 150 4).mapViewLocation ⟨400, -7⟩).mMapViewLocation.y ≤
        (TileMap.init 300 150 4).mSizeInTiles.y - (TileMap.init 300 150 4).mEdgeLength) ∧
    (∀ col row : Int, 0 ≤ col → col < (TileMap.init 300 150 4).mEdgeLength → 0 ≤ row →
      row < (TileMap.init 300 150 4).mEdgeLength →
      ((TileMap.init 300 150 4).mapViewLocation ⟨400, -7⟩).mMapViewLocation.add ⟨col, row⟩ ∈
        draw.tilePositions ((TileMap.init 300 150 4).mapViewLocation ⟨400, -7⟩)) ∧
    (∀ q ∈ draw.tilePositions ((TileMap.init 300 150 4).mapViewLocation ⟨400, -7⟩),
      ((TileMap.init 300 150 4).mapViewLocation ⟨400, -7⟩).inGrid q = true ∧
      (0 ≤ (TileMap.init 300 150 4).mCurrentDepth →
        (TileMap.init 300 150 4).mCurrentDepth ≤ (TileMap.init 300 150 4).mMaxDepth →
        ((TileMap.init 300 150 4).mapViewLocation ⟨400, -7⟩).isValidPosition q
          ((TileMap.init 300 150 4).mapViewLocation ⟨400, -7⟩).mCurrentDepth = true)) ∧
    (0 ≤ (⟨400, -7⟩ : Point).x →
      (⟨400, -7⟩ : Point).x ≤
        (TileMap.init 300 150 4).mSizeInTiles.x - (TileMap.init 300 150 4).mEdgeLength →
      0 ≤ (⟨400, -7⟩ : Point).y →
      (⟨400, -7⟩ : Point).y ≤
        (TileMap.init 300 150 4).mSizeInTiles.y - (TileMap.init 300 150 4).mEdgeLength →
      ((TileMap.init 300 150 4).mapViewLocation ⟨400, -7⟩).mMapViewLocation = ⟨400, -7⟩) :=
  mapViewLocation_clamps (TileMap.init 300 150 4) ⟨400, -7⟩ (by decide) (by decide)

/-- C18 (what the code does): `isVisibleTile(p, z)` is true exactly when `z` is the current depth
and `p` lies in the window of `edgeLength - 1` columns and rows at the view
origin, and `tileHighlightVisible` tests the highlighted tile against the same
window; for an edge length of at least 1 the position `viewOrigin +
(edgeLength - 1, 0)`, which `draw` reads, is not visible: the window of both
checks is one column and one row short of the `edgeLength x edgeLength` tiles
that `draw` renders. -/
theorem isVisibleTile_window_short (tm : TileMap) (he : 1 ≤ tm.mEdgeLength) :
    (∀ (p : Point) (z : Int), tm.isVisibleTile p z = true ↔
      (z = tm.mCurrentDepth ∧ tm.mMapViewLocation.x ≤ p.x ∧
        p.x < tm.mMapViewLocation.x + (tm.mEdgeLength - 1) ∧ tm.mMapViewLocation.y ≤ p.y ∧
        p.y < tm.mMapViewLocation.y + (tm.mEdgeLength - 1))) ∧
    (tm.tileHighlightVisible = true ↔
      (tm.mMapViewLocation.x ≤ tm.mMapHighlight.x ∧
        tm.mMapHighlight.x < tm.mMapViewLocation.x + (tm.mEdgeLength - 1) ∧
        tm.mMapViewLocation.y ≤ tm.mMapHighlight.y ∧
        tm.mMapHighlight.y < tm.mMapViewLocation.y + (tm.mEdgeLength - 1))) ∧
    tm.mMapViewLocation.add ⟨tm.mEdgeLength - 1, 0⟩ ∈ draw.tilePositions tm ∧
    tm.isVisibleTile (tm.mMapViewLocation.add ⟨tm.mEdgeLength - 1, 0⟩) tm.mCurrentDepth = false ∧
    TileMap.tileHighlightVisible
      { tm with mMapHighlight := tm.mMapViewLocation.add ⟨tm.mEdgeLength - 1, 0⟩ } = false := by
  have hvis : ∀ (p : Point) (z : Int), tm.isVisibleTile p z = true ↔
      (z = tm.mCurrentDepth ∧ tm.mMapViewLocation.x ≤ p.x ∧
        p.x < tm.mMapViewLocation.x + (tm.mEdgeLength - 1) ∧ tm.mMapViewLocation.y ≤ p.y ∧
        p.y < tm.mMapViewLocation.y + (tm.mEdgeLength - 1)) := by
    intro p z
    unfold TileMap.isVisibleTile
    cases hc : (Rectangle.mk tm.mMapViewLocation.x tm.mMapViewLocation.y (tm.mEdgeLength - 1)
      (tm.mEdgeLength - 1)).contains p with
    | false =>
      have hn := fun h => Bool.false_ne_true (hc.symm.trans ((contains_iff _ p).2 h))
      simp only [Bool.not_false, if_true, Bool.false_eq_true, false_iff]
      rintro ⟨_, h⟩
      exact hn h
    | true =>
      have hp := (contains_iff _ p).1 hc
      by_cases hz : z = tm.mCurrentDepth
      · simp [hz, hp]
      · simp [hz]
  have hhl : ∀ t : TileMap, t.tileHighlightVisible = true ↔
      (t.mMapViewLocation.x ≤ t.mMapHighlight.x ∧
        t.mMapHighlight.x < t.mMapViewLocation.x + (t.mEdgeLength - 1) ∧
        t.mMapViewLocation.y ≤ t.mMapHighlight.y ∧
        t.mMapHighlight.y < t.mMapViewLocation.y + (t.mEdgeLength - 1)) := fun t =>
    contains_iff _ _
  refine ⟨hvis, hhl tm, ?_, ?_, ?_⟩
  · apply (mem_tilePositions tm _).2
    refine ⟨0, (tm.mEdgeLength - 1).toNat, by omega, by omega, ?_⟩
    rw [Int.toNat_of_nonneg (by omega)]
    rfl
  · cases h : tm.isVisibleTile (tm.mMapViewLocation.add ⟨tm.mEdgeLength - 1, 0⟩)
      tm.mCurrentDepth with
    | false => rfl
    | true =>
      have := (hvis _ _).1 h
      simp only [Point.add] at this
      omega
  · cases h : TileMap.tileHighlightVisible
      { tm with mMapHighlight := tm.mMapViewLocation.add ⟨tm.mEdgeLength - 1, 0⟩ } with
    | false => rfl
    | true =>
      have := (hhl _).1 h
      simp only [Point.add] at this
      omega

/-- Witness for C18: view origin `(0, 0)`, edge length 5, current depth 0; the
tile at `(4, 0)` is read by `draw` and is not visible. -/
theorem isVisibleTile_window_short_witness :
    (⟨4, 0⟩ : Point) ∈ draw.tilePositions { TileMap.init 300 150 4 with mEdgeLength := 5 } ∧
      TileMap.isVisibleTile { TileMap.init 300 150 4 with mEdgeLength := 5 } ⟨4, 0⟩ 0 = false ∧
      TileMap.tileHighlightVisible
        { TileMap.init 300 150 4 with mEdgeLength := 5, mMapHighlight := ⟨4, 0⟩ } = false :=
  (isVisibleTile_window_short { TileMap.init 300 150 4 with mEdgeLength := 5 }
    (by decide)).2.2

/-- C19: for every screen size `(w, h)`, `initMapDrawParams` sets the edge
length to `max(3, min(w / 128, h / 55))`, the divisions truncating, so the
edge length is at least 3. -/
theorem initMapDrawParams_edgeLength (tm : TileMap) (BOTTOM_UI_HEIGHT : Int) (size : Vector) :
    (tm.initMapDrawParams BOTTOM_UI_HEIGHT size).mEdgeLength =
        max 3 (min (Int.tdiv size.x 128) (Int.tdiv size.y 55)) ∧
      3 ≤ (tm.initMapDrawParams BOTTOM_UI_HEIGHT size).mEdgeLength :=
  ⟨rfl, le_max_left _ _⟩

theorem le_of_five_le_tdiv (w k : Int) (hk : 0 < k) (h : 5 ≤ Int.tdiv w k) : 5 * k ≤ w := by
  by_cases hw : 0 ≤ w
  · rw [Int.tdiv_eq_ediv hw (le_of_lt hk)] at h
    have := Int.mul_le_of_le_ediv hk h
    omega
  · exfalso
    have hneg : Int.tdiv w k = -(Int.tdiv (-w) k) := by
      rw [Int.neg_tdiv, neg_neg]
    have hnn : 0 ≤ Int.tdiv (-w) k := Int.tdiv_nonneg (by omega) (le_of_lt hk)
    omega

theorem tdiv_window (a k q r : Int) (hk : 0 < k) (hr0 : 0 ≤ r) (hr1 : r < k) (hq : 0 ≤ q)
    (ha : a = q * k + r) : Int.tdiv a k = q ∧ Int.tmod a k = r := by
  have ha0 : 0 ≤ a := by
    have := Int.mul_nonneg hq (le_of_lt hk)
    omega
  rw [Int.tdiv_eq_ediv ha0 (le_of_lt hk), Int.tmod_eq_emod ha0 (le_of_lt hk)]
  subst ha
  constructor
  · rw [Int.add_comm, Int.add_mul_ediv_right _ _ (ne_of_gt hk), Int.ediv_eq_zero_of_lt hr0 hr1]
    omega
  · rw [Int.add_comm, Int.add_mul_emod_self, Int.emod_eq_of_lt hr0 hr1]

theorem updateTileHighlight_of (tm : TileMap) (qx rx qy ry : Int) (r : MouseMapRegion)
    (hin : tm.mMapBoundingBox.contains tm.mMousePosition = true)
    (hodd : Int.tmod tm.mEdgeLength 2 ≠ 0)
    (hx : tm.mMousePosition.x - tm.mMapBoundingBox.x = qx * 128 + rx)
    (hrx : 0 ≤ rx ∧ rx < 128) (hqx : 0 ≤ qx)
    (hy : tm.mMousePosition.y - tm.mMapBoundingBox.y = qy * 55 + ry)
    (hry : 0 ≤ ry ∧ ry < 55) (hqy : 0 ≤ qy) :
    tm.getMouseMapRegion rx ry = .ok r → tm.updateTileHighlight = .ok { tm with
      mMapHighlight := tm.mMapViewLocation.add
        (match r with
          | .MMR_TOP_RIGHT => ⟨tm.TRANSFORM.x + qy + qx, tm.TRANSFORM.y + qy - qx - 1⟩
          | .MMR_TOP_LEFT => ⟨tm.TRANSFORM.x + qy + qx - 1, tm.TRANSFORM.y + qy - qx⟩
          | .MMR_BOTTOM_RIGHT => ⟨tm.TRANSFORM.x + qy + qx + 1, tm.TRANSFORM.y + qy - qx⟩
          | .MMR_BOTTOM_LEFT => ⟨tm.TRANSFORM.x + qy + qx, tm.TRANSFORM.y + qy - qx + 1⟩
          | .MMR_MIDDLE => ⟨tm.TRANSFORM.x + qy + qx, tm.TRANSFORM.y + qy - qx⟩) } := by
  intro hreg
  have hw : TILE_WIDTH = 128 := rfl
  have hh : TILE_HEIGHT_ABSOLUTE = 55 := rfl
  obtain ⟨hdx, hmx⟩ := tdiv_window _ 128 qx rx (by omega) hrx.1 hrx.2 hqx hx
  obtain ⟨hdy, hmy⟩ := tdiv_window _ 55 qy ry (by omega) hry.1 hry.2 hqy hy
  unfold TileMap.updateTileHighlight
  rw [hin]
  simp only [Bool.not_true, Bool.false_eq_true, if_false, if_neg hodd, sub_zero, hw, hh, hdx,
    hmx, hdy, hmy]
  rw [clamp_of_mem rx 0 128 hrx.1 (le_of_lt hrx.2), hreg]
theorem picking_geometry (size : Vector) (e : Int) (he : e = 5)
    (hmax : max 3 (min (Int.tdiv size.x 128) (Int.tdiv size.y 55)) = e) :
    Int.tdiv (size.x - 128) 2 - Int.tdiv (size.x - 128 * e) 2 = 256 ∧ 640 ≤ size.x := by
  subst he
  have h5 : 5 ≤ Int.tdiv size.x 128 := by
    generalize Int.tdiv size.x 128 = a at hmax
    generalize Int.tdiv size.y 55 = b at hmax
    rcases le_total a b with hab | hab
    · rw [min_eq_left hab] at hmax
      rcases le_total 3 a with h3 | h3
      · rw [max_eq_right h3] at hmax; omega
      · rw [max_eq_left h3] at hmax; omega
    · rw [min_eq_right hab] at hmax
      rcases le_total 3 b with h3 | h3
      · rw [max_eq_right h3] at hmax; omega
      · rw [max_eq_left h3] at hmax; omega
  have hw := le_of_five_le_tdiv size.x 128 (by omega) h5
  refine ⟨?_, by omega⟩
  rw [Int.tdiv_eq_ediv (by omega) (by omega), Int.tdiv_eq_ediv (by omega) (by omega)]
  omega

/-- C20 (amended): with view origin `(0, 0)`, a screen size for which
`initMapDrawParams` yields edge length 5, and a mouse map that classifies the
pixel `(64, 25)` of a tile cell as the middle region, a mouse position at the
centre of the tile that `draw` places at window offset `(2, 2)` (pixel
`mapPosition + ((2 - 2) * 64 + 64, (2 + 2) * 27 + 27)`) makes
`updateTileHighlight` set the highlighted tile to `(2, 2)`.  The pixel looked
up is `(64, 25)` because `135 mod 55 = 25`. -/
theorem updateTileHighlight_centre (tm : TileMap) (BOTTOM_UI_HEIGHT : Int) (size : Vector)
    (he : (tm.initMapDrawParams BOTTOM_UI_HEIGHT size).mEdgeLength = 5)
    (hview : tm.mMapViewLocation = ⟨0, 0⟩)
    (hmm : tm.getMouseMapRegion 64 25 = .ok .MMR_MIDDLE) :
    ∃ tm3 : TileMap,
      TileMap.updateTileHighlight
        ((tm.initMapDrawParams BOTTOM_UI_HEIGHT size).injectMouse
          ((draw.tileScreenPosition (tm.initMapDrawParams BOTTOM_UI_HEIGHT size) 2 2).x + 64)
          ((draw.tileScreenPosition (tm.initMapDrawParams BOTTOM_UI_HEIGHT size) 2 2).y + 27)) =
        .ok tm3 ∧
      tm3.mMapHighlight = ⟨2, 2⟩ := by
  obtain ⟨hgeo, hw⟩ := picking_geometry size _ he rfl
  have hmx : (draw.tileScreenPosition (tm.initMapDrawParams BOTTOM_UI_HEIGHT size) 2 2).x =
      Int.tdiv (size.x - 128) 2 := by
    simp only [draw.tileScreenPosition, Point.add, sub_self, zero_mul, add_zero]
    rfl
  have hmy : (draw.tileScreenPosition (tm.initMapDrawParams BOTTOM_UI_HEIGHT size) 2 2).y =
      (tm.initMapDrawParams BOTTOM_UI_HEIGHT size).mMapBoundingBox.y + 108 := rfl
  have hbx : (tm.initMapDrawParams BOTTOM_UI_HEIGHT size).mMapBoundingBox.x =
      Int.tdiv (size.x - 128 * (tm.initMapDrawParams BOTTOM_UI_HEIGHT size).mEdgeLength) 2 := rfl
  have hbw : (tm.initMapDrawParams BOTTOM_UI_HEIGHT size).mMapBoundingBox.width =
      128 * (tm.initMapDrawParams BOTTOM_UI_HEIGHT size).mEdgeLength := rfl
  have hbh : (tm.initMapDrawParams BOTTOM_UI_HEIGHT size).mMapBoundingBox.height =
      55 * (tm.initMapDrawParams BOTTOM_UI_HEIGHT size).mEdgeLength := rfl
  have htr : (tm.initMapDrawParams BOTTOM_UI_HEIGHT size).TRANSFORM = ⟨-2, 2⟩ := by
    show (⟨-(Int.tdiv (Int.tdiv (size.x - 128) 2 -
      Int.tdiv (size.x - 128 * (tm.initMapDrawParams BOTTOM_UI_HEIGHT size).mEdgeLength) 2) 128),
      Int.tdiv (Int.tdiv (size.x - 128) 2 -
      Int.tdiv (size.x - 128 * (tm.initMapDrawParams BOTTOM_UI_HEIGHT size).mEdgeLength) 2)
        128⟩ : Point) = ⟨-2, 2⟩
    rw [hgeo]
    rfl
  generalize htm1 : tm.initMapDrawParams BOTTOM_UI_HEIGHT size = tm1 at *
  have hview1 : tm1.mMapViewLocation = ⟨0, 0⟩ := by rw [← htm1]; exact hview
  have hmm1 : tm1.getMouseMapRegion 64 25 = .ok .MMR_MIDDLE := by rw [← htm1]; exact hmm
  have hstep := updateTileHighlight_of
    (tm1.injectMouse ((draw.tileScreenPosition tm1 2 2).x + 64)
      ((draw.tileScreenPosition tm1 2 2).y + 27)) 2 64 2 25 .MMR_MIDDLE
    (by
      rw [contains_iff]
      show tm1.mMapBoundingBox.x ≤ (draw.tileScreenPosition tm1 2 2).x + 64 ∧
        (draw.tileScreenPosition tm1 2 2).x + 64 < tm1.mMapBoundingBox.x +
          tm1.mMapBoundingBox.width ∧
        tm1.mMapBoundingBox.y ≤ (draw.tileScreenPosition tm1 2 2).y + 27 ∧
        (draw.tileScreenPosition tm1 2 2).y + 27 < tm1.mMapBoundingBox.y +
          tm1.mMapBoundingBox.height
      rw [hmx, hmy, hbx, hbw, hbh, he]
      rw [he] at hgeo
      omega)
    (by
      show Int.tmod tm1.mEdgeLength 2 ≠ 0
      rw [he]
      decide)
    (by
      show (draw.tileScreenPosition tm1 2 2).x + 64 - tm1.mMapBoundingBox.x = 2 * 128 + 64
      rw [hmx, hbx]
      omega)
    (by omega) (by omega)
    (by
      show (draw.tileScreenPosition tm1 2 2).y + 27 - tm1.mMapBoundingBox.y = 2 * 55 + 25
      rw [hmy]
      omega)
    (by omega) (by omega) hmm1
  refine ⟨_, hstep, ?_⟩
  show tm1.mMapViewLocation.add ⟨tm1.TRANSFORM.x + 2 + 2, tm1.TRANSFORM.y + 2 - 2⟩ = ⟨2, 2⟩
  rw [hview1, htr]
  rfl
set_option maxRecDepth 8192 in
/-- Witness for C20 (amended): the constructor's map state with a mouse map
that is the middle region everywhere, on a screen of 640 x 275 pixels. -/
theorem updateTileHighlight_centre_witness :
    ∃ tm3 : TileMap,
      TileMap.updateTileHighlight
        ((TileMap.initMapDrawParams { TileMap.init 300 150 4 with
            mMouseMap := List.replicate 55 (List.replicate 128 MouseMapRegion.MMR_MIDDLE) }
          0 ⟨640, 275⟩).injectMouse
          ((draw.tileScreenPosition (TileMap.initMapDrawParams { TileMap.init 300 150 4 with
            mMouseMap := List.replicate 55 (List.replicate 128 MouseMapRegion.MMR_MIDDLE) }
            0 ⟨640, 275⟩) 2 2).x + 64)
          ((draw.tileScreenPosition (TileMap.initMapDrawParams { TileMap.init 300 150 4 with
            mMouseMap := List.replicate 55 (List.replicate 128 MouseMapRegion.MMR_MIDDLE) }
            0 ⟨640, 275⟩) 2 2).y + 27)) =
        .ok tm3 ∧
      tm3.mMapHighlight = ⟨2, 2⟩ :=
  updateTileHighlight_centre { TileMap.init 300 150 4 with
      mMouseMap := List.replicate 55 (List.replicate 128 MouseMapRegion.MMR_MIDDLE) }
    0 ⟨640, 275⟩ (by decide) (by rfl) (by rfl)

set_option maxRecDepth 8192 in
/-- Counterexample to C20 as stated: `pickingMap` has view origin `(0, 0)`, the
screen size 640 x 275 yields edge length 5, and its mouse map classifies the
centre pixel `(64, 27)` of a tile cell as the middle region; the mouse position
at the centre of the tile drawn at window offset `(2, 2)` is `(320, 135)`, and
`updateTileHighlight` sets the highlighted tile to `(1, 2)`, because the pixel
it looks up is `(64, 25)`. -/
theorem updateTileHighlight_centre_counterexample :
    (pickingMap.initMapDrawParams 0 ⟨640, 275⟩).mEdgeLength = 5 ∧
      pickingMap.mMapViewLocation = ⟨0, 0⟩ ∧
      pickingMap.getMouseMapRegion 64 27 = .ok .MMR_MIDDLE ∧
      (draw.tileScreenPosition (pickingMap.initMapDrawParams 0 ⟨640, 275⟩) 2 2).x + 64 = 320 ∧
      (draw.tileScreenPosition (pickingMap.initMapDrawParams 0 ⟨640, 275⟩) 2 2).y + 27 = 135 ∧
      ∃ tm3 : TileMap,
        TileMap.updateTileHighlight
          ((pickingMap.initMapDrawParams 0 ⟨640, 275⟩).injectMouse 320 135) = .ok tm3 ∧
        tm3.mMapHighlight = ⟨1, 2⟩ ∧ tm3.mMapHighlight ≠ ⟨2, 2⟩ :=
  ⟨by decide, by rfl, by rfl, by decide, by decide, _, rfl, rfl, by decide⟩

theorem roundInt_natCast_nonneg (k : Nat) : ∃ j : Nat, Float32.roundInt (k : Int) = (j : Int) := by
  unfold Float32.roundInt
  rw [Int.natAbs_ofNat]
  cases k with
  | zero => exact ⟨0, by simp⟩
  | succ k =>
    refine ⟨roundSig24 (k + 1), ?_⟩
    have hs : Int.sign ((k + 1 : Nat) : Int) = 1 := Int.sign_of_add_one k
    rw [hs, one_mul]

theorem routeCost_ge_base (R : Float32) (hR : R.mantissa < 2 ^ 24) (idx : Int) (h0 : 0 ≤ idx) :
    (R.mantissa : Int) ≤ Float32.routeCost R idx := by
  obtain ⟨k, rfl⟩ := Int.eq_ofNat_of_zero_le h0
  obtain ⟨j, hj⟩ := roundInt_natCast_nonneg k
  have hf1 : 1 ≤ roundSig24 (j + 1) := by
    have := roundSig24_ge_of_representable (j + 1) 1 0 (by norm_num) (by omega)
    omega
  obtain ⟨f, hf⟩ : ∃ f, roundSig24 (j + 1) = f + 1 := ⟨roundSig24 (j + 1) - 1, by omega⟩
  have hfac : Float32.roundInt ((j : Int) + 1) = ((f + 1 : Nat) : Int) := by
    have hcast : ((j : Int) + 1) = ((j + 1 : Nat) : Int) := by push_cast; rfl
    rw [hcast]
    unfold Float32.roundInt
    have hs : Int.sign ((j + 1 : Nat) : Int) = 1 := Int.sign_of_add_one j
    rw [Int.natAbs_ofNat, hs, one_mul, hf]
  unfold Float32.routeCost
  simp only
  have hs : Int.sign ((f + 1 : Nat) : Int) = 1 := Int.sign_of_add_one f
  rw [hj, hfac, Int.natAbs_ofNat, hs, one_mul]
  have hle : R.mantissa * 2 ^ 0 ≤ R.mantissa * (f + 1) := by
    rw [pow_zero]
    exact Nat.mul_le_mul_left _ (by omega)
  have := roundSig24_ge_of_representable (R.mantissa * (f + 1)) R.mantissa 0 hR hle
  rw [pow_zero, Nat.mul_one] at this
  exact Int.ofNat_le.2 this

theorem stepCost_spec (tm : TileMap) (ha : tm.Allocated) (hd : 0 ≤ tm.mMaxDepth)
    (R : Float32) (T : Int) (dirs : List Vector) (s s' : TilePtr) (c : RouteCost)
    (h : tm.stepCost R T dirs s s' = some c) :
    ∃ (tile n : Tile) (d : Vector), tm.getTile s.position s.level = .ok tile ∧ d ∈ dirs ∧
      s' = ⟨tile.position.add d, 0⟩ ∧ tm.getTile s'.position 0 = .ok n ∧
      c = specAdjacentCost R T tm.mPathStartEndPair.1 tm.mPathStartEndPair.2 s' n := by
  unfold TileMap.stepCost at h
  cases hget : tm.getTile s.position s.level with
  | error e =>
    simp only [TileMap.AdjacentCost, hget] at h
    exact absurd h (by simp)
  | ok tile =>
    rw [adjacentCost_eq tm ha hd R T dirs s tile hget []] at h
    simp only [List.nil_append] at h
    cases hfind : ((dirs.map fun d => AdjacentCost.pushed tm R T (tile.position.add d)).flatten).find?
        (fun sc => decide (sc.state = s')) with
    | none =>
      rw [hfind] at h
      exact absurd h (by simp)
    | some sc =>
      rw [hfind] at h
      have hc : sc.cost = c := Option.some.inj h
      have hmem := List.mem_of_find?_eq_some hfind
      have hst : sc.state = s' := by
        have := List.find?_some hfind
        exact of_decide_eq_true this
      obtain ⟨l, hl, hin⟩ := List.mem_flatten.1 hmem
      obtain ⟨d, hdm, rfl⟩ := List.mem_map.1 hl
      cases hg : tm.inGrid (tile.position.add d) with
      | false =>
        rw [pushed_of_not_inGrid _ _ _ _ hg] at hin
        exact absurd hin (List.not_mem_nil sc)
      | true =>
        obtain ⟨n, hn⟩ := getTile_of_inGrid tm ha hd _ hg
        rw [pushed_of_inGrid tm R T _ n hg hn] at hin
        have hsc := List.mem_singleton.1 hin
        subst hsc
        simp only at hst hc
        subst hst
        exact ⟨tile, n, d, rfl, hdm, rfl, hn, hc.symm⟩

theorem specAdjacentCost_ge_base (R : Float32) (hR : R.mantissa < 2 ^ 24) (T : Int)
    (start finish : Option TilePtr) (ptr : TilePtr) (n : Tile) (h0 : 0 ≤ n.index) :
    specAdjacentCost R T start finish ptr n = .fltMax ∨
      ∃ u : Int, specAdjacentCost R T start finish ptr n = .finite u ∧ (R.mantissa : Int) ≤ u := by
  unfold specAdjacentCost
  split_ifs
  · exact Or.inl rfl
  · exact Or.inl rfl
  · exact Or.inr ⟨_, rfl, routeCost_ge_base R hR n.index h0⟩

theorem direction4_unit (d : Vector) (h : d ∈ DirectionClockwise4) :
    (d.x = 0 ∧ d.y = -1) ∨ (d.x = 1 ∧ d.y = 0) ∨ (d.x = 0 ∧ d.y = 1) ∨ (d.x = -1 ∧ d.y = 0) := by
  simp only [DirectionClockwise4, List.mem_cons, List.mem_singleton, List.not_mem_nil,
    or_false] at h
  rcases h with rfl | rfl | rfl | rfl <;> simp

theorem routeCost_add_finite (c c' : RouteCost) (u : Int) (h : c.add c' = .finite u) :
    ∃ v v' : Int, c = .finite v ∧ c' = .finite v' ∧ u = v + v' := by
  cases c with
  | fltMax => simp [RouteCost.add] at h
  | finite v =>
    cases c' with
    | fltMax => simp [RouteCost.add] at h
    | finite v' =>
      simp only [RouteCost.add, RouteCost.finite.injEq] at h
      exact ⟨v, v', rfl, rfl, h.symm⟩

theorem pathCost_ge_steps (tm : TileMap) (ha : tm.Allocated) (hd : 0 ≤ tm.mMaxDepth)
    (R : Float32) (hR1 : 2 ^ R.scale ≤ R.mantissa) (hR2 : R.mantissa < 2 ^ 24) (T : Int)
    (htiles : ∀ q n, tm.getTile q 0 = .ok n → n.position = q ∧ 0 ≤ n.index) (b : TilePtr) :
    ∀ (path : List TilePtr) (s : TilePtr) (total : RouteCost), s.level = 0 →
      path.head? = some s → path.getLast? = some b →
      tm.pathCost R T DirectionClockwise4 path = some total →
      b.level = 0 ∧ ∀ u : Int, total = .finite u →
        ∃ k : Int, 0 ≤ k ∧ (2 ^ R.scale : Int) * k ≤ u ∧
          (b.position.x - s.position.x) + (b.position.y - s.position.y) ≤ k ∧
          (b.position.x - s.position.x) - (b.position.y - s.position.y) ≤ k ∧
          -(b.position.x - s.position.x) + (b.position.y - s.position.y) ≤ k ∧
          -(b.position.x - s.position.x) - (b.position.y - s.position.y) ≤ k := by
  intro path
  induction path with
  | nil =>
    intro s total _ hhead
    exact absurd hhead (by simp)
  | cons s0 rest ih =>
    intro s total hs0 hhead hlast hcost
    have hs : s0 = s := by simpa using hhead
    subst hs
    cases rest with
    | nil =>
      have hb : s0 = b := by simpa using hlast
      subst hb
      refine ⟨hs0, fun u hu => ?_⟩
      have ht : total = .finite 0 := by
        simp only [TileMap.pathCost] at hcost
        exact (Option.some.inj hcost).symm
      rw [ht] at hu
      have hu0 : u = 0 := (RouteCost.finite.inj hu).symm
      exact ⟨0, le_refl 0, by rw [hu0]; simp, by omega, by omega, by omega, by omega⟩
    | cons s' rest' =>
      have hunfold : tm.pathCost R T DirectionClockwise4 (s0 :: s' :: rest') =
          (match tm.stepCost R T DirectionClockwise4 s0 s',
              tm.pathCost R T DirectionClockwise4 (s' :: rest') with
            | some c, some c' => some (c.add c')
            | _, _ => none) := rfl
      rw [hunfold] at hcost
      cases hstep : tm.stepCost R T DirectionClockwise4 s0 s' with
      | none => simp [hstep] at hcost
      | some c =>
        cases hrest : tm.pathCost R T DirectionClockwise4 (s' :: rest') with
        | none => simp [hstep, hrest] at hcost
        | some c' =>
          simp only [hstep, hrest] at hcost
          have htot : total = c.add c' := (Option.some.inj hcost).symm
          obtain ⟨tile, n, d, hget, hdm, hs', hn, hc⟩ :=
            stepCost_spec tm ha hd R T DirectionClockwise4 s0 s' c hstep
          rw [hs0] at hget
          have hpos := (htiles _ _ hget).1
          have hlvl : s'.level = 0 := by rw [hs']
          have hlast' : (s' :: rest').getLast? = some b := by
            rw [List.getLast?_cons_cons] at hlast
            exact hlast
          obtain ⟨hb0, hih⟩ := ih s' c' hlvl rfl hlast' hrest
          refine ⟨hb0, fun u hu => ?_⟩
          rw [htot] at hu
          obtain ⟨v, v', hv, hv', huv⟩ := routeCost_add_finite c c' u hu
          obtain ⟨k, hk0, hk1, h1, h2, h3, h4⟩ := hih v' hv'
          have hvge : (2 ^ R.scale : Int) ≤ v := by
            have hidx := (htiles _ _ hn).2
            rcases specAdjacentCost_ge_base R hR2 T tm.mPathStartEndPair.1
              tm.mPathStartEndPair.2 s' n hidx with hmax | ⟨w, hw, hwge⟩
            · rw [hc, hmax] at hv
              exact absurd hv (by simp)
            · rw [hc, hw] at hv
              have hvw : w = v := RouteCost.finite.inj hv
              have hcast : ((2 ^ R.scale : Nat) : Int) ≤ (R.mantissa : Int) := Int.ofNat_le.2 hR1
              push_cast at hcast
              omega
          have hsx : s'.position.x = s0.position.x + d.x := by rw [hs', ← hpos]; rfl
          have hsy : s'.position.y = s0.position.y + d.y := by rw [hs', ← hpos]; rfl
          have hmul : (2 ^ R.scale : Int) * (k + 1) = 2 ^ R.scale * k + 2 ^ R.scale := by ring
          refine ⟨k + 1, by omega, by rw [hmul]; omega, ?_, ?_, ?_, ?_⟩ <;>
            rcases direction4_unit d hdm with ⟨hx, hy⟩ | ⟨hx, hy⟩ | ⟨hx, hy⟩ | ⟨hx, hy⟩ <;>
            omega

theorem covers_of_steps (scale : Nat) (u k dx dy : Int) (hk0 : 0 ≤ k)
    (hk : (2 ^ scale : Int) * k ≤ u) (h1 : dx + dy ≤ k) (h2 : dx - dy ≤ k) (h3 : -dx + dy ≤ k)
    (h4 : -dx - dy ≤ k) : 0 ≤ u ∧ (dx ^ 2 + dy ^ 2) * 4 ^ scale ≤ u ^ 2 := by
  have hP : (0 : Int) ≤ 2 ^ scale := by positivity
  have hPk : 0 ≤ (2 ^ scale : Int) * k := mul_nonneg hP hk0
  have hu0 : 0 ≤ u := le_trans hPk hk
  refine ⟨hu0, ?_⟩
  have hsq : dx ^ 2 + dy ^ 2 ≤ k ^ 2 := by
    nlinarith [mul_nonneg (sub_nonneg.2 h1) (sub_nonneg.2 h4),
      mul_nonneg (sub_nonneg.2 h2) (sub_nonneg.2 h3)]
  have h4s : (4 : Int) ^ scale = (2 ^ scale) ^ 2 := by
    rw [← pow_mul, mul_comm, pow_mul]
    norm_num
  have hu2 : ((2 ^ scale : Int) * k) ^ 2 ≤ u ^ 2 := pow_le_pow_left₀ hPk hk 2
  calc (dx ^ 2 + dy ^ 2) * 4 ^ scale ≤ k ^ 2 * 4 ^ scale :=
        mul_le_mul_of_nonneg_right hsq (by positivity)
    _ = ((2 ^ scale : Int) * k) ^ 2 := by rw [h4s]; ring
    _ ≤ u ^ 2 := hu2
theorem plainMap_allocated : plainMap.Allocated := by
  intro l y x hl hy hx
  have hl0 : l = 0 := by
    have : (l : Int) ≤ 0 := hl
    omega
  have hy0 : y = 0 := by
    have : (y : Int) < 1 := hy
    omega
  have hx0 : x = 0 ∨ x = 1 := by
    have : (x : Int) < 2 := hx
    omega
  subst hl0 hy0
  rcases hx0 with rfl | rfl <;> rfl

theorem plainMap_tiles (q : Point) (n : Tile) (h : plainMap.getTile q 0 = .ok n) :
    n.position = q ∧ 0 ≤ n.index := by
  obtain ⟨hv, hat⟩ := (getTile_ok_iff plainMap q 0 n).1 h
  obtain ⟨_, ⟨hx0, hx1⟩, hy0, hy1⟩ := (isValidPosition_iff plainMap q 0).1 hv
  obtain ⟨x, y⟩ := q
  have hy : y = 0 := by
    have : y < 1 := hy1
    have : 0 ≤ y := hy0
    omega
  have hx : x = 0 ∨ x = 1 := by
    have : x < 2 := hx1
    have : 0 ≤ x := hx0
    omega
  subst hy
  rcases hx with rfl | rfl
  · have h0 : plainMap.mTileMap.at? (0 : Int).toNat (0 : Int).toNat (0 : Int).toNat =
        some (Tile.new ⟨0, 0⟩ 0 0) := rfl
    have hn : n = Tile.new ⟨0, 0⟩ 0 0 := (Option.some.inj (hat.symm.trans h0))
    subst hn
    exact ⟨rfl, by decide⟩
  · have h1 : plainMap.mTileMap.at? (0 : Int).toNat (0 : Int).toNat (1 : Int).toNat =
        some (Tile.new ⟨1, 0⟩ 0 0) := rfl
    have hn : n = Tile.new ⟨1, 0⟩ 0 0 := (Option.some.inj (hat.symm.trans h1))
    subst hn
    exact ⟨rfl, by decide⟩

/-- C15 (amended): when `ROUTE_BASE_COST` is at least 1 (`2^scale ≤ mantissa`)
and every depth-0 tile stores its own grid position and a non-negative terrain
index, then for every pair of depth-0 tiles `a` and `b` and every path from `a`
to `b` whose steps and step costs are those reported by `AdjacentCost`, the
planar distance between the positions of `a` and `b` (the value of
`LeastCostEstimate(a, b)`) is less than or equal to the total cost of the
path. -/
theorem leastCostEstimate_admissible (tm : TileMap) (ROUTE_BASE_COST : Float32)
    (TERRAIN_IMPASSABLE : Int) (a b : TilePtr) (path : List TilePtr) (total : RouteCost)
    (distanceSquared : Int) (ha : tm.Allocated) (hd : 0 ≤ tm.mMaxDepth)
    (hbase : 2 ^ ROUTE_BASE_COST.scale ≤ ROUTE_BASE_COST.mantissa)
    (hmant : ROUTE_BASE_COST.mantissa < 2 ^ 24)
    (htiles : ∀ q n, tm.getTile q 0 = .ok n → n.position = q ∧ 0 ≤ n.index)
    (ha0 : a.level = 0) (hhead : path.head? = some a) (hlast : path.getLast? = some b)
    (hcost : tm.pathCost ROUTE_BASE_COST TERRAIN_IMPASSABLE DirectionClockwise4 path =
      some total)
    (hest : tm.LeastCostEstimateSquared a b = .ok distanceSquared) :
    total.coversDistance ROUTE_BASE_COST.scale distanceSquared = true := by
  obtain ⟨hb0, hsteps⟩ := pathCost_ge_steps tm ha hd ROUTE_BASE_COST hbase hmant
    TERRAIN_IMPASSABLE htiles b path a total ha0 hhead hlast hcost
  cases total with
  | fltMax => rfl
  | finite u =>
    obtain ⟨k, hk0, hk, h1, h2, h3, h4⟩ := hsteps u rfl
    unfold TileMap.LeastCostEstimateSquared at hest
    rw [ha0, hb0] at hest
    cases hga : tm.getTile a.position 0 with
    | error e => simp [hga] at hest
    | ok ta =>
      cases hgb : tm.getTile b.position 0 with
      | error e => simp [hga, hgb] at hest
      | ok tb =>
        simp only [hga, hgb] at hest
        have hdsq : distanceSquared = ta.distanceToSquared tb := (Except.ok.inj hest).symm
        rw [hdsq]
        unfold Tile.distanceToSquared
        rw [(htiles _ _ hga).1, (htiles _ _ hgb).1]
        simp only [RouteCost.coversDistance, decide_eq_true_eq]
        exact covers_of_steps _ u k _ _ hk0 hk h1 h2 h3 h4

/-- Witness for C15 (amended): on the two-tile map `plainMap` with base cost
`1.0f`, the one-step path from `(0, 0)` to `(1, 0)` costs `8388608 * 2^-23 = 1`
and the planar distance between its end points is 1. -/
theorem leastCostEstimate_admissible_witness :
    plainMap.pathCost ⟨8388608, 23⟩ 4 DirectionClockwise4 [⟨⟨0, 0⟩, 0⟩, ⟨⟨1, 0⟩, 0⟩] =
        some (.finite 8388608) ∧
      plainMap.LeastCostEstimateSquared ⟨⟨0, 0⟩, 0⟩ ⟨⟨1, 0⟩, 0⟩ = .ok 1 ∧
      RouteCost.coversDistance (⟨8388608, 23⟩ : Float32).scale 1 (.finite 8388608) = true :=
  ⟨by rfl, by rfl,
    leastCostEstimate_admissible plainMap ⟨8388608, 23⟩ 4 ⟨⟨0, 0⟩, 0⟩ ⟨⟨1, 0⟩, 0⟩
      [⟨⟨0, 0⟩, 0⟩, ⟨⟨1, 0⟩, 0⟩] (.finite 8388608) 1 plainMap_allocated (by decide)
      (by decide) (by decide) plainMap_tiles rfl rfl rfl (by rfl) (by rfl)⟩

/-- Counterexample to C15 as stated: on the two-tile map `plainMap` with the
positive base cost `0.5f`, the one-step path from the tile at `(0, 0)` to the
tile at `(1, 0)` (unoccupied, terrain index 0) has the total cost
`8388608 * 2^-24 = 0.5`, and the planar distance between the two tiles is 1
(square 1): the estimate exceeds the cost of the path. -/
theorem leastCostEstimate_admissible_counterexample :
    plainMap.pathCost ⟨8388608, 24⟩ 4 DirectionClockwise4 [⟨⟨0, 0⟩, 0⟩, ⟨⟨1, 0⟩, 0⟩] =
        some (.finite 8388608) ∧
      plainMap.LeastCostEstimateSquared ⟨⟨0, 0⟩, 0⟩ ⟨⟨1, 0⟩, 0⟩ = .ok 1 ∧
      RouteCost.coversDistance (⟨8388608, 24⟩ : Float32).scale 1 (.finite 8388608) = false ∧
      ¬ ((1 : Int) * 4 ^ 24 ≤ 8388608 ^ 2) := by
  refine ⟨by rfl, by rfl, by decide, by decide⟩

theorem built_origin_valid (maxDepth : Int) (hd : 0 ≤ maxDepth) (hm : Point → Nat) :
    (TileMap.built MAP_WIDTH MAP_HEIGHT maxDepth hm).isValidPosition ⟨0, 0⟩ 0 = true := by
  rw [isValidPosition_iff, built_size, built_maxDepth]
  exact ⟨⟨le_refl 0, hd⟩, ⟨le_refl 0, by decide⟩, le_refl 0, by decide⟩

/-- C24 (the code at the failing inputs): on a map built from a heightmap whose
red value is 255 the tile at `(0, 0)` gets the terrain index `255 / 50 = 5`,
and from a heightmap whose red value is 0 it gets the index 0; over the red
values `0..255` the stored index `r / 50` is a height value from 1 to 4 only
for `50 ≤ r ≤ 249`. -/
theorem buildTerrainMap_height_range_broken :
    (∃ t, (TileMap.built MAP_WIDTH MAP_HEIGHT 4 (fun _ => 255)).getTile ⟨0, 0⟩ 0 = .ok t ∧
      t.index = 5) ∧
    (∃ t, (TileMap.built MAP_WIDTH MAP_HEIGHT 4 (fun _ => 0)).getTile ⟨0, 0⟩ 0 = .ok t ∧
      t.index = 0) ∧
    (∀ (hm : Point → Nat) (l y x : Nat), hm ⟨x, y⟩ ≤ 255 →
      ((1 ≤ (builtTile hm l y x).index ∧ (builtTile hm l y x).index ≤ 4) ↔
        (50 ≤ hm ⟨x, y⟩ ∧ hm ⟨x, y⟩ ≤ 249))) := by
  refine ⟨?_, ?_, ?_⟩
  · rw [built_getTile _ _ _ _ _ _ (built_origin_valid 4 (by decide) _)]
    exact ⟨_, rfl, by decide⟩
  · rw [built_getTile _ _ _ _ _ _ (built_origin_valid 4 (by decide) _)]
    exact ⟨_, rfl, by decide⟩
  · intro hm l y x hr
    have hidx : (builtTile hm l y x).index = Int.ofNat (hm ⟨x, y⟩) / 50 := by
      unfold builtTile
      simp only
      split_ifs <;> rfl
    rw [hidx]
    have : Int.ofNat (hm ⟨x, y⟩) = ((hm ⟨x, y⟩ : Nat) : Int) := rfl
    rw [this]
    omega

theorem updateTileHighlight_eq (tm : TileMap)
    (hin : tm.mMapBoundingBox.contains tm.mMousePosition = true) :
    tm.updateTileHighlight =
      match tm.getMouseMapRegion (updateTileHighlight.mmOffset tm).1
          (updateTileHighlight.mmOffset tm).2 with
      | .error e => .error e
      | .ok mmr =>
        .ok { tm with
          mMapHighlight := tm.mMapViewLocation.add
            (updateTileHighlight.nudge mmr (updateTileHighlight.coarse tm)) } := by
  unfold TileMap.updateTileHighlight updateTileHighlight.mmOffset updateTileHighlight.coarse
  rw [hin]
  simp only [Bool.not_true, Bool.false_eq_true, if_false]
  cases tm.getMouseMapRegion _ _ with
  | error e => rfl
  | ok mmr => cases mmr <;> rfl

theorem updateTileHighlight_outside (tm : TileMap)
    (hout : tm.mMapBoundingBox.contains tm.mMousePosition = false) :
    tm.updateTileHighlight = .ok tm := by
  unfold TileMap.updateTileHighlight
  rw [hout]
  rfl

/-- C21 (amended): for every mouse position inside the map bounding box whose
within-cell remainder pixel is classified as the top-right corner region,
`updateTileHighlight` sets the highlighted tile to `(x, y - 1)`, where
`(x, y)` is the tile it selects for a middle-region pixel of the same cell
(the same state with a mouse map that classifies the pixel as the middle
region). -/
theorem updateTileHighlight_top_right (tm : TileMap) (middleMap : List (List MouseMapRegion))
    (hin : tm.mMapBoundingBox.contains tm.mMousePosition = true)
    (htop : tm.getMouseMapRegion (updateTileHighlight.mmOffset tm).1
      (updateTileHighlight.mmOffset tm).2 = .ok .MMR_TOP_RIGHT)
    (hmid : TileMap.getMouseMapRegion { tm with mMouseMap := middleMap }
      (updateTileHighlight.mmOffset tm).1 (updateTileHighlight.mmOffset tm).2 =
        .ok .MMR_MIDDLE) :
    ∃ corner middle : TileMap,
      tm.updateTileHighlight = .ok corner ∧
      TileMap.updateTileHighlight { tm with mMouseMap := middleMap } = .ok middle ∧
      corner.mMapHighlight = ⟨middle.mMapHighlight.x, middle.mMapHighlight.y - 1⟩ := by
  have h1 := updateTileHighlight_eq tm hin
  rw [htop] at h1
  have hin' : Rectangle.contains (TileMap.mMapBoundingBox { tm with mMouseMap := middleMap })
      (TileMap.mMousePosition { tm with mMouseMap := middleMap }) = true := hin
  have h2 := updateTileHighlight_eq { tm with mMouseMap := middleMap } hin'
  have hoff : updateTileHighlight.mmOffset { tm with mMouseMap := middleMap } =
      updateTileHighlight.mmOffset tm := rfl
  rw [hoff, hmid] at h2
  have hc : updateTileHighlight.coarse { tm with mMouseMap := middleMap } =
      updateTileHighlight.coarse tm := rfl
  refine ⟨_, _, h1, h2, ?_⟩
  show tm.mMapViewLocation.add
      (updateTileHighlight.nudge .MMR_TOP_RIGHT (updateTileHighlight.coarse tm)) =
    ⟨(tm.mMapViewLocation.add (updateTileHighlight.nudge .MMR_MIDDLE
        (updateTileHighlight.coarse { tm with mMouseMap := middleMap }))).x,
      (tm.mMapViewLocation.add (updateTileHighlight.nudge .MMR_MIDDLE
        (updateTileHighlight.coarse { tm with mMouseMap := middleMap }))).y - 1⟩
  rw [hc]
  simp only [Point.add, updateTileHighlight.nudge, Point.mk.injEq, true_and]
  omega

set_option maxRecDepth 8192 in
/-- Witness for C21 (amended): `diamondPickingMap` with the mouse at
`(383, 110)`, the top-right corner pixel `(127, 0)` of the cell of tile
`(2, 2)`, against a mouse map that is the middle region everywhere. -/
theorem updateTileHighlight_top_right_witness :
    ∃ corner middle : TileMap,
      (diamondPickingMap.injectMouse 383 110).updateTileHighlight = .ok corner ∧
      TileMap.updateTileHighlight { diamondPickingMap.injectMouse 383 110 with
        mMouseMap := List.replicate 55 (List.replicate 128 MouseMapRegion.MMR_MIDDLE) } =
          .ok middle ∧
      corner.mMapHighlight = ⟨middle.mMapHighlight.x, middle.mMapHighlight.y - 1⟩ :=
  updateTileHighlight_top_right (diamondPickingMap.injectMouse 383 110)
    (List.replicate 55 (List.replicate 128 MouseMapRegion.MMR_MIDDLE)) (by decide) (by rfl)
    (by rfl)

set_option maxRecDepth 8192 in
/-- Counterexample to C21 as stated: on `diamondPickingMap` (view origin
`(0, 0)`, edge length 5, bounding box at the origin) the mouse position
`(383, 110)` lies in the bounding box and its remainder pixel `(127, 0)` is
the top-right corner region; `updateTileHighlight` selects the tile `(2, 1)`,
while for the middle pixel `(320, 137)` of the same cell it selects `(2, 2)`:
the corner result is not `(2 + 1, 2)`. -/
theorem updateTileHighlight_top_right_counterexample :
    diamondPickingMap.mMapBoundingBox.contains ⟨383, 110⟩ = true ∧
      updateTileHighlight.mmOffset (diamondPickingMap.injectMouse 383 110) = (127, 0) ∧
      diamondPickingMap.getMouseMapRegion 127 0 = .ok .MMR_TOP_RIGHT ∧
      updateTileHighlight.coarse (diamondPickingMap.injectMouse 383 110) =
        updateTileHighlight.coarse (diamondPickingMap.injectMouse 320 137) ∧
      ∃ corner middle : TileMap,
        (diamondPickingMap.injectMouse 383 110).updateTileHighlight = .ok corner ∧
        (diamondPickingMap.injectMouse 320 137).updateTileHighlight = .ok middle ∧
        middle.mMapHighlight = ⟨2, 2⟩ ∧ corner.mMapHighlight = ⟨2, 1⟩ ∧
        corner.mMapHighlight ≠ ⟨middle.mMapHighlight.x + 1, middle.mMapHighlight.y⟩ :=
  ⟨by decide, by rfl, by rfl, by rfl, _, _, rfl, rfl, rfl, rfl, by decide⟩

theorem mmOffset_range (tm : TileMap)
    (hin : tm.mMapBoundingBox.contains tm.mMousePosition = true) :
    0 ≤ (updateTileHighlight.mmOffset tm).1 ∧ (updateTileHighlight.mmOffset tm).1 < 128 ∧
      0 ≤ (updateTileHighlight.mmOffset tm).2 ∧ (updateTileHighlight.mmOffset tm).2 < 55 := by
  obtain ⟨_, _, hy0, _⟩ := (contains_iff _ _).1 hin
  have hw : TILE_WIDTH = 128 := rfl
  have hh : TILE_HEIGHT_ABSOLUTE = 55 := rfl
  unfold updateTileHighlight.mmOffset
  simp only [hw, hh]
  generalize (if Int.tmod tm.mEdgeLength 2 = 0 then TILE_HALF_WIDTH else 0) = adj
  have hx1 := Int.tmod_lt_of_pos (tm.mMousePosition.x - tm.mMapBoundingBox.x - adj)
    (show (0 : Int) < 128 by decide)
  have hy1 := Int.tmod_lt_of_pos (tm.mMousePosition.y - tm.mMapBoundingBox.y)
    (show (0 : Int) < 55 by decide)
  have hy2 : 0 ≤ Int.tmod (tm.mMousePosition.y - tm.mMapBoundingBox.y) 55 :=
    Int.tmod_nonneg _ (by omega)
  refine ⟨?_, ?_, hy2, hy1⟩
  · unfold clamp
    split_ifs <;> omega
  · unfold clamp
    split_ifs <;> omega

theorem getMouseMapRegion_of_table (tm : TileMap) (g : Nat → Nat → MouseMapRegion)
    (rows cols : Nat)
    (hmm : tm.mMouseMap = (List.range rows).map fun (row : Nat) =>
      (List.range cols).map fun (col : Nat) => g row col)
    (x y : Int) (hx : 0 ≤ x ∧ x < cols) (hy : 0 ≤ y ∧ y < rows) :
    tm.getMouseMapRegion x y = .ok (g y.toNat x.toNat) := by
  unfold TileMap.getMouseMapRegion
  have hy' : y.toNat < rows := by omega
  have hx' : x.toNat < cols := by omega
  rw [if_neg (by omega), hmm]
  simp [List.getElem?_map, List.getElem?_range, hy', hx']

theorem buildMouseMap_lookup (tm tm' : TileMap)
    (mousemap : Option (Vector × (Point → MouseMapColor)))
    (hbuild : tm.buildMouseMap mousemap = .ok tm') (x y : Int) (hx : 0 ≤ x ∧ x < 128)
    (hy : 0 ≤ y ∧ y < 55) : ∃ region, tm'.getMouseMapRegion x y = .ok region := by
  unfold TileMap.buildMouseMap at hbuild
  cases mousemap with
  | none => simp at hbuild
  | some img =>
    obtain ⟨size, pixelColor⟩ := img
    simp only at hbuild
    split_ifs at hbuild with hsz
    have htm := (Except.ok.inj hbuild).symm
    have hmm : tm'.mMouseMap = (List.range 55).map fun (row : Nat) =>
        (List.range 128).map fun (col : Nat) =>
          buildMouseMap.region (pixelColor ⟨(col : Int), (row : Int)⟩) := by
      rw [htm]
      rfl
    exact ⟨_, getMouseMapRegion_of_table tm'
      (fun row col => buildMouseMap.region (pixelColor ⟨(col : Int), (row : Int)⟩)) 55 128 hmm
      x y (by omega) (by omega)⟩

theorem getMouseMapRegion_congr (tm tm' : TileMap) (h : tm.mMouseMap = tm'.mMouseMap)
    (x y : Int) : tm.getMouseMapRegion x y = tm'.getMouseMapRegion x y := by
  unfold TileMap.getMouseMapRegion
  rw [h]

/-- C26: when the mouse map is the table built by `buildMouseMap` and the mouse
position is contained in the map bounding box, then for every edge length the
remainder offsets that `updateTileHighlight` passes to `getMouseMapRegion`
satisfy `0 ≤ x < 128` and `0 ≤ y < 55`, the lookup is inside the table and
`updateTileHighlight` returns normally; when the mouse position is outside the
bounding box, `updateTileHighlight` leaves the map state, and with it the
highlighted tile, unchanged. -/
theorem updateTileHighlight_lookup_safe (tm0 tm1 tm : TileMap)
    (mousemap : Option (Vector × (Point → MouseMapColor)))
    (hbuild : tm0.buildMouseMap mousemap = .ok tm1) (hmm : tm.mMouseMap = tm1.mMouseMap) :
    (tm.mMapBoundingBox.contains tm.mMousePosition = true →
      (0 ≤ (updateTileHighlight.mmOffset tm).1 ∧ (updateTileHighlight.mmOffset tm).1 < 128 ∧
        0 ≤ (updateTileHighlight.mmOffset tm).2 ∧ (updateTileHighlight.mmOffset tm).2 < 55) ∧
      ∃ region, tm.getMouseMapRegion (updateTileHighlight.mmOffset tm).1
          (updateTileHighlight.mmOffset tm).2 = .ok region ∧
        tm.updateTileHighlight = .ok { tm with
          mMapHighlight := tm.mMapViewLocation.add
            (updateTileHighlight.nudge region (updateTileHighlight.coarse tm)) }) ∧
    (tm.mMapBoundingBox.contains tm.mMousePosition = false →
      tm.updateTileHighlight = .ok tm) := by
  refine ⟨fun hin => ?_, fun hout => updateTileHighlight_outside tm hout⟩
  have hr := mmOffset_range tm hin
  obtain ⟨region, hreg⟩ := buildMouseMap_lookup tm0 tm1 mousemap hbuild
    (updateTileHighlight.mmOffset tm).1 (updateTileHighlight.mmOffset tm).2
    ⟨hr.1, hr.2.1⟩ ⟨hr.2.2.1, hr.2.2.2⟩
  rw [← getMouseMapRegion_congr tm tm1 hmm] at hreg
  refine ⟨hr, region, hreg, ?_⟩
  rw [updateTileHighlight_eq tm hin, hreg]

/-- Witness for C26: `mouseMapExample` (edge length 5, mouse at `(383, 110)`
inside the bounding box): the offsets are inside the table. -/
theorem updateTileHighlight_lookup_safe_witness :
    mouseMapExample.mMapBoundingBox.contains mouseMapExample.mMousePosition = true ∧
      0 ≤ (updateTileHighlight.mmOffset mouseMapExample).1 ∧
      (updateTileHighlight.mmOffset mouseMapExample).1 < 128 ∧
      0 ≤ (updateTileHighlight.mmOffset mouseMapExample).2 ∧
      (updateTileHighlight.mmOffset mouseMapExample).2 < 55 :=
  ⟨by decide,
    ((updateTileHighlight_lookup_safe (TileMap.init 300 150 4)
      (orKeep ((TileMap.init 300 150 4).buildMouseMap
        (some (⟨128, 55⟩, fun _ => MouseMapColor.Other))) (TileMap.init 300 150 4))
      mouseMapExample (some (⟨128, 55⟩, fun _ => MouseMapColor.Other)) rfl rfl).1
        (by decide)).1⟩

theorem isVisibleTile_iff (tm : TileMap) (p : Point) (z : Int) :
    tm.isVisibleTile p z = true ↔
      (z = tm.mCurrentDepth ∧ tm.mMapViewLocation.x ≤ p.x ∧
        p.x < tm.mMapViewLocation.x + (tm.mEdgeLength - 1) ∧ tm.mMapViewLocation.y ≤ p.y ∧
        p.y < tm.mMapViewLocation.y + (tm.mEdgeLength - 1)) := by
  unfold TileMap.isVisibleTile
  cases hc : (Rectangle.mk tm.mMapViewLocation.x tm.mMapViewLocation.y (tm.mEdgeLength - 1)
    (tm.mEdgeLength - 1)).contains p with
  | false =>
    have hn := fun h => Bool.false_ne_true (hc.symm.trans ((contains_iff _ p).2 h))
    simp only [Bool.not_false, if_true, Bool.false_eq_true, false_iff]
    rintro ⟨_, h⟩
    exact hn h
  | true =>
    have hp := (contains_iff _ p).1 hc
    by_cases hz : z = tm.mCurrentDepth
    · simp [hz, hp]
    · simp [hz]

theorem exampleMap_edgeLength : exampleMap.mEdgeLength = 3 := by
  unfold exampleMap
  obtain ⟨g, h, _⟩ := built_eq MAP_WIDTH MAP_HEIGHT 4 (fun _ => 120)
  rw [h]
  rfl

theorem exampleMap_getTile_corner :
    exampleMap.getTile (builtTile (fun _ => 120) 0 0 299).position
      (builtTile (fun _ => 120) 0 0 299).depth = .ok (builtTile (fun _ => 120) 0 0 299) := by
  have hp : (builtTile (fun _ => 120) 0 0 299).position = ⟨299, 0⟩ := rfl
  have hd : (builtTile (fun _ => 120) 0 0 299).depth = 0 := rfl
  rw [hp, hd]
  have hv : exampleMap.isValidPosition ⟨299, 0⟩ 0 = true := by
    rw [isValidPosition_iff, exampleMap_size, exampleMap_maxDepth]
    decide
  unfold exampleMap at hv ⊢
  exact built_getTile _ _ _ _ _ _ hv

/-- C25 (what the code does): for a tile `t` stored at its own position and
depth and an edge length `e` with `3 ≤ e ≤ min(width, height)`, after
`centerMapOnTile(t)` the tile is visible (`isVisibleTile` is true and
`getVisibleTile` returns `t`) when it is not in the last column or the last
row of the grid, and it is not visible (`isVisibleTile` is false and
`getVisibleTile` returns the null pointer) when it is in the last column or the
last row; `centerMapOnTile(nullptr)` leaves the map state unchanged. -/
theorem centerMapOnTile_visibility (tm : TileMap) (t : Tile) (he3 : 3 ≤ tm.mEdgeLength)
    (hemin : tm.mEdgeLength ≤ min tm.mSizeInTiles.x tm.mSizeInTiles.y)
    (hget : tm.getTile t.position t.depth = .ok t) :
    (t.position.x < tm.mSizeInTiles.x - 1 → t.position.y < tm.mSizeInTiles.y - 1 →
      (tm.centerMapOnTile (some t)).isVisibleTile t.position t.depth = true ∧
      (tm.centerMapOnTile (some t)).getVisibleTile t.position t.depth = .ok (some t)) ∧
    (t.position.x = tm.mSizeInTiles.x - 1 ∨ t.position.y = tm.mSizeInTiles.y - 1 →
      (tm.centerMapOnTile (some t)).isVisibleTile t.position t.depth = false ∧
      (tm.centerMapOnTile (some t)).getVisibleTile t.position t.depth = .ok none) ∧
    tm.centerMapOnTile none = tm := by
  obtain ⟨hv, _⟩ := (getTile_ok_iff tm _ _ t).1 hget
  obtain ⟨⟨hl0, hl1⟩, ⟨hx0, hx1⟩, hy0, hy1⟩ := (isValidPosition_iff tm _ _).1 hv
  have hhalf : Int.tdiv tm.mEdgeLength 2 = tm.mEdgeLength / 2 :=
    Int.tdiv_eq_ediv (by omega) (by omega)
  have hox : (tm.centerMapOnTile (some t)).mMapViewLocation.x =
      clamp (t.position.x - tm.mEdgeLength / 2) 0 (tm.mSizeInTiles.x - tm.mEdgeLength) := by
    rw [← hhalf]; rfl
  have hoy : (tm.centerMapOnTile (some t)).mMapViewLocation.y =
      clamp (t.position.y - tm.mEdgeLength / 2) 0 (tm.mSizeInTiles.y - tm.mEdgeLength) := by
    rw [← hhalf]; rfl
  have hdep : (tm.centerMapOnTile (some t)).mCurrentDepth = t.depth := by
    show clamp t.depth 0 tm.mMaxDepth = t.depth
    exact clamp_of_mem _ _ _ hl0 hl1
  have hed : (tm.centerMapOnTile (some t)).mEdgeLength = tm.mEdgeLength := rfl
  have hgt : (tm.centerMapOnTile (some t)).getTile t.position t.depth = .ok t := hget
  have hiff := isVisibleTile_iff (tm.centerMapOnTile (some t)) t.position t.depth
  rw [hox, hoy, hdep, hed] at hiff
  have hmin1 := min_le_left tm.mSizeInTiles.x tm.mSizeInTiles.y
  have hmin2 := min_le_right tm.mSizeInTiles.x tm.mSizeInTiles.y
  refine ⟨fun hx hy => ?_, fun hedge => ?_, rfl⟩
  · have hvis : (tm.centerMapOnTile (some t)).isVisibleTile t.position t.depth = true := by
      rw [hiff]
      refine ⟨rfl, ?_, ?_, ?_, ?_⟩ <;> unfold clamp <;> split_ifs <;> omega
    refine ⟨hvis, ?_⟩
    unfold TileMap.getVisibleTile
    rw [hvis, hgt]
    rfl
  · have hvis : (tm.centerMapOnTile (some t)).isVisibleTile t.position t.depth = false := by
      cases h : (tm.centerMapOnTile (some t)).isVisibleTile t.position t.depth with
      | false => rfl
      | true =>
        exfalso
        obtain ⟨_, h1, h2, h3, h4⟩ := hiff.1 h
        unfold clamp at h1 h2 h3 h4
        rcases hedge with he | he
        · split_ifs at h2 <;> omega
        · split_ifs at h4 <;> omega
    refine ⟨hvis, ?_⟩
    unfold TileMap.getVisibleTile
    rw [hvis]
    rfl

/-- Witness for C25: on the freshly built example map (300 x 150 tiles, edge
length 3) the tile at `(299, 0)` is not visible after `centerMapOnTile`. -/
theorem centerMapOnTile_visibility_witness :
    (exampleMap.centerMapOnTile (some (builtTile (fun _ => 120) 0 0 299))).isVisibleTile
        (builtTile (fun _ => 120) 0 0 299).position (builtTile (fun _ => 120) 0 0 299).depth =
          false ∧
      (exampleMap.centerMapOnTile (some (builtTile (fun _ => 120) 0 0 299))).getVisibleTile
        (builtTile (fun _ => 120) 0 0 299).position (builtTile (fun _ => 120) 0 0 299).depth =
          .ok none :=
  (centerMapOnTile_visibility exampleMap (builtTile (fun _ => 120) 0 0 299)
    (by rw [exampleMap_edgeLength])
    (by rw [exampleMap_edgeLength, exampleMap_size]; decide)
    exampleMap_getTile_corner).2.1 (Or.inl (by rw [exampleMap_size]; rfl))

theorem thingIsStructure_of_structure (things : ThingStore) (tile : Tile) (s : Structure)
    (h : tile.structure things = some s) : tile.thingIsStructure things = true := by
  unfold Tile.thingIsStructure
  rw [h]
  rfl

theorem structure_of_thingIsStructure (things : ThingStore) (tile : Tile)
    (h : tile.thingIsStructure things = true) : ∃ s, tile.structure things = some s :=
  Option.isSome_iff_exists.1 h

/-- C23 (amended): for a tile that has no mine, is bulldozed, is excavated and
holds a structure, and a compass direction `dir` (north, east, south or west),
`checkTubeConnection(tile, dir, SID_TUBE_INTERSECTION)` is true exactly when
the connector is an intersection or vertical connector, or a right connector
and `dir` is east or west, or a left connector and `dir` is north or south;
for a tile failing one of the four tile conditions it is false. -/
theorem checkTubeConnection_compass_table (things : ThingStore) (tile : Tile)
    (dir : Direction) :
    (∀ s : Structure,
      (dir = .DIR_NORTH ∨ dir = .DIR_EAST ∨ dir = .DIR_SOUTH ∨ dir = .DIR_WEST) →
      tile.hasMine = false → tile.bulldozed = true → tile.excavated = true →
      tile.structure things = some s →
      (checkTubeConnection things tile dir .SID_TUBE_INTERSECTION = true ↔
        (s.connectorDirection = .CONNECTOR_INTERSECTION ∨
          s.connectorDirection = .CONNECTOR_VERTICAL ∨
          (s.connectorDirection = .CONNECTOR_RIGHT ∧ (dir = .DIR_EAST ∨ dir = .DIR_WEST)) ∨
          (s.connectorDirection = .CONNECTOR_LEFT ∧
            (dir = .DIR_NORTH ∨ dir = .DIR_SOUTH))))) ∧
    ((tile.hasMine = true ∨ tile.bulldozed = false ∨ tile.excavated = false ∨
        tile.thingIsStructure things = false) →
      checkTubeConnection things tile dir .SID_TUBE_INTERSECTION = false) := by
  refine ⟨?_, ?_⟩
  · intro s hdir hm hb he hs
    have hts := thingIsStructure_of_structure things tile s hs
    unfold checkTubeConnection
    rw [hm, hb, he, hts, hs]
    obtain ⟨st, ty, cd⟩ := s
    simp only [Structure.connectorDirection]
    rcases hdir with rfl | rfl | rfl | rfl <;> cases cd <;> simp
  · intro h
    unfold checkTubeConnection
    rcases h with h | h | h | h <;> simp [h]

/-- Witness for C23 (amended): a bulldozed, excavated tile without a mine that
holds a tube with a left connector accepts an intersection tube to its north,
and the same tile without an occupant accepts none. -/
theorem checkTubeConnection_compass_table_witness :
    (occupiedTile.hasMine = false ∧ occupiedTile.bulldozed = true ∧
      occupiedTile.excavated = true ∧
      occupiedTile.structure leftTubeStore =
        some ⟨.OPERATIONAL, .STRUCTURE_TUBE, .CONNECTOR_LEFT⟩ ∧
      checkTubeConnection leftTubeStore occupiedTile .DIR_NORTH .SID_TUBE_INTERSECTION = true) ∧
    ((Tile.new ⟨0, 0⟩ 0 0).thingIsStructure leftTubeStore = false ∧
      checkTubeConnection leftTubeStore (Tile.new ⟨0, 0⟩ 0 0) .DIR_NORTH
        .SID_TUBE_INTERSECTION = false) :=
  ⟨⟨rfl, rfl, rfl, rfl,
    ((checkTubeConnection_compass_table leftTubeStore occupiedTile .DIR_NORTH).1
      ⟨.OPERATIONAL, .STRUCTURE_TUBE, .CONNECTOR_LEFT⟩ (Or.inl rfl) rfl rfl rfl rfl).2
      (Or.inr (Or.inr (Or.inr ⟨rfl, Or.inl rfl⟩)))⟩,
    ⟨rfl, (checkTubeConnection_compass_table leftTubeStore (Tile.new ⟨0, 0⟩ 0 0) .DIR_NORTH).2
      (Or.inr (Or.inr (Or.inr rfl)))⟩⟩

/-- Counterexample for C23: the enumeration `Direction` has a fifth value,
`DIR_DOWN`.  For it and a bulldozed, excavated tile without a mine that holds a
tube with a left connector, `checkTubeConnection(tile, DIR_DOWN,
SID_TUBE_INTERSECTION)` is true, although the connector is a left connector
and the direction is neither north nor south. -/
theorem checkTubeConnection_compass_table_counterexample :
    occupiedTile.hasMine = false ∧ occupiedTile.bulldozed = true ∧
      occupiedTile.excavated = true ∧
      occupiedTile.structure leftTubeStore =
        some ⟨.OPERATIONAL, .STRUCTURE_TUBE, .CONNECTOR_LEFT⟩ ∧
      ¬ (checkTubeConnection leftTubeStore occupiedTile .DIR_DOWN .SID_TUBE_INTERSECTION = true ↔
        (ConnectorDir.CONNECTOR_LEFT = .CONNECTOR_INTERSECTION ∨
          ConnectorDir.CONNECTOR_LEFT = .CONNECTOR_VERTICAL ∨
          (ConnectorDir.CONNECTOR_LEFT = .CONNECTOR_RIGHT ∧
            (Direction.DIR_DOWN = .DIR_EAST ∨ Direction.DIR_DOWN = .DIR_WEST)) ∨
          (ConnectorDir.CONNECTOR_LEFT = .CONNECTOR_LEFT ∧
            (Direction.DIR_DOWN = .DIR_NORTH ∨ Direction.DIR_DOWN = .DIR_SOUTH)))) := by
  decide

/-- C28: with the current structure set to a tube kind,
`validTubeConnection(tile, dir)` returns true only if
`checkTubeConnection(tile, dir, kind)` returns true, and the two return the
same value whenever the structure on the tile does not have a vertical
connector; `validStructurePlacement(tile, dir)` equals
`checkStructurePlacement(tile, dir)`. -/
theorem validTubeConnection_agrees (gs : GameState) (tile : Tile) (dir : Direction)
    (kind : TubeKind) (hkind : gs.mCurrentStructure = kind.toCurrentStructure) :
    (gs.validTubeConnection tile dir = true →
      checkTubeConnection gs.things tile dir kind.toStructureID = true) ∧
    ((∀ s, tile.structure gs.things = some s →
        s.connectorDirection ≠ .CONNECTOR_VERTICAL) →
      gs.validTubeConnection tile dir =
        checkTubeConnection gs.things tile dir kind.toStructureID) ∧
    gs.validStructurePlacement tile dir = checkStructurePlacement gs.things tile dir := by
  refine ⟨?_, ?_, rfl⟩
  · unfold GameState.validTubeConnection checkTubeConnection
    rw [hkind]
    cases hg : (tile.hasMine || !tile.bulldozed || !tile.excavated ||
      !tile.thingIsStructure gs.things) with
    | true => simp
    | false =>
      cases hs : tile.structure gs.things with
      | none => simp
      | some s =>
        obtain ⟨st, ty, cd⟩ := s
        simp only [Structure.connectorDirection]
        cases kind <;> cases dir <;> cases cd <;>
          simp [TubeKind.toCurrentStructure, TubeKind.toStructureID]
  · intro hnv
    unfold GameState.validTubeConnection checkTubeConnection
    rw [hkind]
    cases hg : (tile.hasMine || !tile.bulldozed || !tile.excavated ||
      !tile.thingIsStructure gs.things) with
    | true => simp
    | false =>
      cases hs : tile.structure gs.things with
      | none => simp
      | some s =>
        have hv := hnv s hs
        obtain ⟨st, ty, cd⟩ := s
        simp only [Structure.connectorDirection] at hv ⊢
        cases kind <;> cases dir <;> cases cd <;>
          simp [TubeKind.toCurrentStructure, TubeKind.toStructureID] at hv ⊢

/-- Witness for C28: the tile `occupiedTile` with a left tube on it, seen to
the north while a left tube is selected. -/
theorem validTubeConnection_agrees_witness :
    (GameState.validTubeConnection
        ⟨TileMap.init 2 2 0, leftTubeStore, 1, ⟨0, 0⟩, .STRUCTURE_TUBE_LEFT⟩ occupiedTile
        .DIR_NORTH = true →
      checkTubeConnection leftTubeStore occupiedTile .DIR_NORTH
        TubeKind.left.toStructureID = true) ∧
    ((∀ s, occupiedTile.structure leftTubeStore = some s →
        s.connectorDirection ≠ .CONNECTOR_VERTICAL) →
      GameState.validTubeConnection
        ⟨TileMap.init 2 2 0, leftTubeStore, 1, ⟨0, 0⟩, .STRUCTURE_TUBE_LEFT⟩ occupiedTile
        .DIR_NORTH =
        checkTubeConnection leftTubeStore occupiedTile .DIR_NORTH
          TubeKind.left.toStructureID) ∧
    GameState.validStructurePlacement
        ⟨TileMap.init 2 2 0, leftTubeStore, 1, ⟨0, 0⟩, .STRUCTURE_TUBE_LEFT⟩ occupiedTile
        .DIR_NORTH =
      checkStructurePlacement leftTubeStore occupiedTile .DIR_NORTH :=
  validTubeConnection_agrees
    ⟨TileMap.init 2 2 0, leftTubeStore, 1, ⟨0, 0⟩, .STRUCTURE_TUBE_LEFT⟩ occupiedTile .DIR_NORTH
    .left rfl

/-- C22: when the tile at a recorded command-centre location with two non-zero
coordinates holds a structure (which the code assumes), `checkConnectedness`
returns normally and invokes the graph walk from the command-centre location
at depth 0 if and only if both coordinates of the location are non-zero and
that structure is in state `OPERATIONAL`; in every other case it returns the
game state unchanged without invoking the walk. -/
theorem checkConnectedness_guard (walkGraph : Point → Int → GameState → GameState)
    (gs : GameState)
    (hcc : gs.mCCLocation.x ≠ 0 → gs.mCCLocation.y ≠ 0 →
      ∃ t cc, gs.mTileMap.getTile gs.mCCLocation 0 = .ok t ∧ t.structure gs.things = some cc) :
    ∃ (gs' : GameState) (walked : Bool),
      gs.checkConnectedness walkGraph = .ok (gs', walked) ∧
      (walked = true ↔
        (gs.mCCLocation.x ≠ 0 ∧ gs.mCCLocation.y ≠ 0 ∧
          ∃ t cc, gs.mTileMap.getTile gs.mCCLocation 0 = .ok t ∧
            t.structure gs.things = some cc ∧ cc.state = .OPERATIONAL)) ∧
      (walked = true → gs' = walkGraph gs.mCCLocation 0 gs) ∧
      (walked = false → gs' = gs) := by
  unfold GameState.checkConnectedness
  by_cases h0 : gs.mCCLocation.x = 0 ∨ gs.mCCLocation.y = 0
  · rw [if_pos h0]
    refine ⟨gs, false, rfl, ?_, fun h => absurd h (by decide), fun _ => rfl⟩
    constructor
    · intro h
      exact absurd h (by decide)
    · rintro ⟨hx, hy, _⟩
      rcases h0 with h | h
      · exact absurd h hx
      · exact absurd h hy
  · rw [if_neg h0]
    have hx : gs.mCCLocation.x ≠ 0 := fun h => h0 (Or.inl h)
    have hy : gs.mCCLocation.y ≠ 0 := fun h => h0 (Or.inr h)
    obtain ⟨t, cc, hget, hs⟩ := hcc hx hy
    rw [hget]
    simp only [hs]
    by_cases hop : cc.state = .OPERATIONAL
    · rw [if_neg (not_not.2 hop)]
      refine ⟨_, true, rfl, ?_, fun _ => rfl, fun h => absurd h (by decide)⟩
      exact ⟨fun _ => ⟨hx, hy, t, cc, rfl, hs, hop⟩, fun _ => rfl⟩
    · rw [if_pos hop]
      refine ⟨gs, false, rfl, ?_, fun h => absurd h (by decide), fun _ => rfl⟩
      constructor
      · intro h
        exact absurd h (by decide)
      · rintro ⟨_, _, t', cc', hget', hs', hop'⟩
        have ht : t = t' := Except.ok.inj hget'
        subst ht
        rw [hs] at hs'
        have hc : cc = cc' := Option.some.inj hs'
        subst hc
        exact absurd hop' hop

/-- Witness for C22: `commandCentreState`, whose operational command centre
stands on the tile `(1, 1)`: the walk is invoked. -/
theorem checkConnectedness_guard_witness :
    ∃ (gs' : GameState) (walked : Bool),
      commandCentreState.checkConnectedness (fun _ _ gs => gs) = .ok (gs', walked) ∧
      (walked = true ↔
        (commandCentreState.mCCLocation.x ≠ 0 ∧ commandCentreState.mCCLocation.y ≠ 0 ∧
          ∃ t cc, commandCentreState.mTileMap.getTile commandCentreState.mCCLocation 0 =
              .ok t ∧
            t.structure commandCentreState.things = some cc ∧ cc.state = .OPERATIONAL)) ∧
      (walked = true →
        gs' = (fun _ _ gs => gs) commandCentreState.mCCLocation 0 commandCentreState) ∧
      (walked = false → gs' = commandCentreState) :=
  checkConnectedness_guard (fun _ _ gs => gs) commandCentreState
    (fun _ _ => ⟨{ Tile.new ⟨1, 1⟩ 0 0 with thing := some 0 },
      ⟨.OPERATIONAL, .STRUCTURE_COMMAND, .CONNECTOR_INTERSECTION⟩, rfl, rfl⟩)

theorem runSteps_preserves (P : GameState → Prop) :
    ∀ (steps : List (GameState → Except Error GameState)),
      (∀ step ∈ steps, ∀ gs, P gs → ∃ gs', step gs = .ok gs' ∧ P gs') →
      ∀ gs, P gs → ∃ gs', runSteps steps gs = .ok gs' ∧ P gs' := by
  intro steps
  induction steps with
  | nil => intro _ gs h; exact ⟨gs, rfl, h⟩
  | cons step rest ih =>
    intro hsteps gs h
    obtain ⟨gs1, h1, hp1⟩ := hsteps step (List.mem_cons_self _ _) gs h
    obtain ⟨gs2, h2, hp2⟩ := ih (fun s hs => hsteps s (List.mem_cons_of_mem _ hs)) gs1 hp1
    exact ⟨gs2, by simp only [runSteps, h1]; exact h2, hp2⟩

theorem runSteps_append (a b : List (GameState → Except Error GameState)) :
    ∀ gs, runSteps (a ++ b) gs =
      match runSteps a gs with
      | .error e => .error e
      | .ok gs1 => runSteps b gs1 := by
  induction a with
  | nil => intro gs; rfl
  | cons step rest ih =>
    intro gs
    simp only [List.cons_append, runSteps]
    cases step gs with
    | error e => rfl
    | ok gs1 => exact ih gs1

theorem setIndexDozed_preserves (sz : Vector) (D : Int) (cc : Option Point) (p : Point)
    (hp : 0 ≤ D ∧ (0 ≤ p.x ∧ p.x < sz.x) ∧ (0 ≤ p.y ∧ p.y < sz.y)) (gs : GameState)
    (h : gs.mTileMap.Allocated ∧ gs.mTileMap.mSizeInTiles = sz ∧ gs.mTileMap.mMaxDepth = D ∧
      ∀ c, cc = some c → gs.mCCLocation = c) :
    ∃ gs', GameState.setIndexDozed p gs = .ok gs' ∧
      (gs'.mTileMap.Allocated ∧ gs'.mTileMap.mSizeInTiles = sz ∧ gs'.mTileMap.mMaxDepth = D ∧
        ∀ c, cc = some c → gs'.mCCLocation = c) := by
  obtain ⟨ha, hsz, hd, hc⟩ := h
  have hv : gs.mTileMap.isValidPosition p 0 = true := by
    rw [isValidPosition_iff, hsz, hd]
    exact ⟨⟨le_refl 0, hp.1⟩, hp.2.1, hp.2.2⟩
  obtain ⟨tm1, hupd, ha1, hsz1, hd1, _, _⟩ :=
    updateTile_spec gs.mTileMap ha p 0 (fun t => t.setIndex 0) hv
  refine ⟨{ gs with mTileMap := tm1 }, ?_, ha1, hsz1.trans hsz, hd1.trans hd, hc⟩
  simp only [GameState.setIndexDozed, hupd]

theorem addStructure_preserves (sz : Vector) (D : Int) (cc : Option Point) (s : Structure)
    (p : Point) (hp : 0 ≤ D ∧ (0 ≤ p.x ∧ p.x < sz.x) ∧ (0 ≤ p.y ∧ p.y < sz.y))
    (gs : GameState)
    (h : gs.mTileMap.Allocated ∧ gs.mTileMap.mSizeInTiles = sz ∧ gs.mTileMap.mMaxDepth = D ∧
      ∀ c, cc = some c → gs.mCCLocation = c) :
    ∃ gs', GameState.addStructure s p 0 gs = .ok gs' ∧
      (gs'.mTileMap.Allocated ∧ gs'.mTileMap.mSizeInTiles = sz ∧ gs'.mTileMap.mMaxDepth = D ∧
        ∀ c, cc = some c → gs'.mCCLocation = c) := by
  obtain ⟨ha, hsz, hd, hc⟩ := h
  have hv : gs.mTileMap.isValidPosition p 0 = true := by
    rw [isValidPosition_iff, hsz, hd]
    exact ⟨⟨le_refl 0, hp.1⟩, hp.2.1, hp.2.2⟩
  obtain ⟨tm1, hupd, ha1, hsz1, hd1, _, _⟩ :=
    updateTile_spec gs.mTileMap ha p 0 (fun t => { t with thing := some gs.thingCount }) hv
  refine ⟨{ gs with
      mTileMap := tm1
      things := fun address =>
        if address = gs.thingCount then some (.ofStructure s) else gs.things address
      thingCount := gs.thingCount + 1 }, ?_, ha1, hsz1.trans hsz, hd1.trans hd, hc⟩
  simp only [GameState.addStructure, hupd]

theorem landingSiteSuitable_scan_ok (gs : GameState) (ha : gs.mTileMap.Allocated) :
    ∀ positions : List Point, (∀ p ∈ positions, gs.mTileMap.isValidPosition p 0 = true) →
      ∃ b, landingSiteSuitable.scan gs positions = .ok b := by
  intro positions
  induction positions with
  | nil => intro _; exact ⟨true, rfl⟩
  | cons p rest ih =>
    intro hv
    obtain ⟨t, _, hget⟩ := getTile_of_valid gs.mTileMap ha p 0 (hv p (List.mem_cons_self _ _))
    simp only [landingSiteSuitable.scan, hget]
    split_ifs
    · exact ⟨false, rfl⟩
    · exact ih (fun q hq => hv q (List.mem_cons_of_mem _ hq))

theorem mem_landing_positions (x y : Int) (p : Point)
    (h : p ∈ landingSiteSuitable.positions x y) :
    (p.x = x - 1 ∨ p.x = x ∨ p.x = x + 1) ∧ (p.y = y - 1 ∨ p.y = y ∨ p.y = y + 1) := by
  simp only [landingSiteSuitable.positions, List.map_cons, List.map_nil, List.flatten_cons,
    List.flatten_nil, List.append_nil, List.cons_append, List.nil_append, List.mem_cons,
    List.mem_singleton, List.not_mem_nil, or_false] at h
  rcases h with rfl | rfl | rfl | rfl | rfl | rfl | rfl | rfl | rfl <;> simp

theorem exampleMap_seed_site :
    placeStructure.seedLanderAccepted
      ⟨exampleMap, fun _ => none, 0, ⟨0, 0⟩, .STRUCTURE_SEED_LANDER⟩ 10 10 = true := by
  unfold placeStructure.seedLanderAccepted
  show decide (10 > 3 ∧ (10 : Int) < exampleMap.mSizeInTiles.x - 3 ∧ 10 > 3 ∧
    (10 : Int) < exampleMap.mSizeInTiles.y - 3) = true
  rw [exampleMap_size]
  decide

/-- C27: for every position `(x, y)` at which `placeStructure` accepts a seed
lander (`x > 3`, `x < width - 3`, `y > 3`, `y < height - 3`) on an allocated
map, all nine tile positions `(x + dx, y + dy)` with `dx, dy` in `{-1, 0, 1}`
are valid grid positions, `landingSiteSuitable` (which visits exactly these)
and `deploySeedLander` return normally, and the command-centre location that
`deploySeedLander` records is `(x + 1, y - 1)`, both of whose coordinates are
non-zero, so the test of `checkConnectedness` for a command centre that is
not yet placed (a zero coordinate) is false. -/
theorem deploySeedLander_on_map
    (seedPower tube commandCenter seedFactory seedSmelter : Structure) (gs : GameState)
    (x y : Int) (ha : gs.mTileMap.Allocated) (hd : 0 ≤ gs.mTileMap.mMaxDepth)
    (hacc : placeStructure.seedLanderAccepted gs x y = true) :
    (∀ dx dy : Int, (dx = -1 ∨ dx = 0 ∨ dx = 1) → (dy = -1 ∨ dy = 0 ∨ dy = 1) →
      gs.mTileMap.isValidPosition ⟨x + dx, y + dy⟩ 0 = true) ∧
    (∀ p ∈ landingSiteSuitable.positions x y,
      ∃ dx dy : Int, (dx = -1 ∨ dx = 0 ∨ dx = 1) ∧ (dy = -1 ∨ dy = 0 ∨ dy = 1) ∧
        p = ⟨x + dx, y + dy⟩) ∧
    (∃ b, gs.landingSiteSuitable x y = .ok b) ∧
    (∃ gs', GameState.deploySeedLander seedPower tube commandCenter seedFactory seedSmelter
        gs x y = .ok gs' ∧
      gs'.mCCLocation = ⟨x + 1, y - 1⟩ ∧ gs'.mCCLocation.x ≠ 0 ∧ gs'.mCCLocation.y ≠ 0 ∧
      ¬ (gs'.mCCLocation.x = 0 ∨ gs'.mCCLocation.y = 0)) := by
  have hb : x > 3 ∧ x < gs.mTileMap.mSizeInTiles.x - 3 ∧ y > 3 ∧
      y < gs.mTileMap.mSizeInTiles.y - 3 := of_decide_eq_true hacc
  obtain ⟨hx0, hx1, hy0, hy1⟩ := hb
  have hvalid : ∀ dx dy : Int, (dx = -1 ∨ dx = 0 ∨ dx = 1) → (dy = -1 ∨ dy = 0 ∨ dy = 1) →
      gs.mTileMap.isValidPosition ⟨x + dx, y + dy⟩ 0 = true := by
    intro dx dy hdx hdy
    rw [isValidPosition_iff]
    refine ⟨⟨le_refl 0, hd⟩, ⟨?_, ?_⟩, ?_, ?_⟩ <;> dsimp only <;> omega
  have hpos : ∀ p ∈ landingSiteSuitable.positions x y,
      ∃ dx dy : Int, (dx = -1 ∨ dx = 0 ∨ dx = 1) ∧ (dy = -1 ∨ dy = 0 ∨ dy = 1) ∧
        p = ⟨x + dx, y + dy⟩ := by
    intro p hp
    obtain ⟨hpx, hpy⟩ := mem_landing_positions x y p hp
    refine ⟨p.x - x, p.y - y, by omega, by omega, ?_⟩
    cases p
    simp only [Point.mk.injEq]
    constructor <;> omega
  refine ⟨hvalid, hpos, ?_, ?_⟩
  · apply landingSiteSuitable_scan_ok gs ha
    intro p hp
    obtain ⟨dx, dy, hdx, hdy, rfl⟩ := hpos p hp
    exact hvalid dx dy hdx hdy
  · have hsplit : GameState.deploySeedLander seedPower tube commandCenter seedFactory
        seedSmelter gs x y =
        runSteps ([GameState.setIndexDozed ⟨x, y⟩,
            GameState.addStructure seedPower ⟨x - 1, y - 1⟩ 0,
            GameState.setIndexDozed ⟨x - 1, y - 1⟩,
            GameState.addStructure tube ⟨x, y - 1⟩ 0,
            GameState.setIndexDozed ⟨x, y - 1⟩,
            GameState.addStructure commandCenter ⟨x + 1, y - 1⟩ 0,
            GameState.setIndexDozed ⟨x + 1, y - 1⟩] ++
          ([fun gs1 => .ok { gs1 with mCCLocation := ⟨x + 1, y - 1⟩ }] ++
            [GameState.setIndexDozed ⟨x - 1, y⟩,
              GameState.addStructure tube ⟨x - 1, y⟩ 0,
              GameState.setIndexDozed ⟨x + 1, y⟩,
              GameState.addStructure tube ⟨x + 1, y⟩ 0,
              GameState.addStructure seedFactory ⟨x - 1, y + 1⟩ 0,
              GameState.setIndexDozed ⟨x - 1, y + 1⟩,
              GameState.setIndexDozed ⟨x, y + 1⟩,
              GameState.addStructure tube ⟨x, y + 1⟩ 0,
              GameState.addStructure seedSmelter ⟨x + 1, y + 1⟩ 0,
              GameState.setIndexDozed ⟨x + 1, y + 1⟩])) gs := rfl
    obtain ⟨gs1, hrun1, hp1⟩ := runSteps_preserves
      (fun g => g.mTileMap.Allocated ∧ g.mTileMap.mSizeInTiles = gs.mTileMap.mSizeInTiles ∧
        g.mTileMap.mMaxDepth = gs.mTileMap.mMaxDepth ∧
        ∀ c, (none : Option Point) = some c → g.mCCLocation = c)
      [GameState.setIndexDozed ⟨x, y⟩,
        GameState.addStructure seedPower ⟨x - 1, y - 1⟩ 0,
        GameState.setIndexDozed ⟨x - 1, y - 1⟩,
        GameState.addStructure tube ⟨x, y - 1⟩ 0,
        GameState.setIndexDozed ⟨x, y - 1⟩,
        GameState.addStructure commandCenter ⟨x + 1, y - 1⟩ 0,
        GameState.setIndexDozed ⟨x + 1, y - 1⟩]
      (by
        intro step hmem
        simp only [List.mem_cons, List.mem_singleton, List.not_mem_nil, or_false] at hmem
        rcases hmem with rfl | rfl | rfl | rfl | rfl | rfl | rfl <;>
          first
          | exact setIndexDozed_preserves _ _ _ _
              ⟨hd, ⟨by dsimp only; omega, by dsimp only; omega⟩, by dsimp only; omega,
                by dsimp only; omega⟩
          | exact addStructure_preserves _ _ _ _ _
              ⟨hd, ⟨by dsimp only; omega, by dsimp only; omega⟩, by dsimp only; omega,
                by dsimp only; omega⟩)
      gs ⟨ha, rfl, rfl, fun c hc => absurd hc (by simp)⟩
    obtain ⟨gs2, hrun2, hp2⟩ := runSteps_preserves
      (fun g => g.mTileMap.Allocated ∧ g.mTileMap.mSizeInTiles = gs.mTileMap.mSizeInTiles ∧
        g.mTileMap.mMaxDepth = gs.mTileMap.mMaxDepth ∧
        ∀ c, (some (⟨x + 1, y - 1⟩ : Point)) = some c → g.mCCLocation = c)
      [GameState.setIndexDozed ⟨x - 1, y⟩,
        GameState.addStructure tube ⟨x - 1, y⟩ 0,
        GameState.setIndexDozed ⟨x + 1, y⟩,
        GameState.addStructure tube ⟨x + 1, y⟩ 0,
        GameState.addStructure seedFactory ⟨x - 1, y + 1⟩ 0,
        GameState.setIndexDozed ⟨x - 1, y + 1⟩,
        GameState.setIndexDozed ⟨x, y + 1⟩,
        GameState.addStructure tube ⟨x, y + 1⟩ 0,
        GameState.addStructure seedSmelter ⟨x + 1, y + 1⟩ 0,
        GameState.setIndexDozed ⟨x + 1, y + 1⟩]
      (by
        intro step hmem
        simp only [List.mem_cons, List.mem_singleton, List.not_mem_nil, or_false] at hmem
        rcases hmem with rfl | rfl | rfl | rfl | rfl | rfl | rfl | rfl | rfl | rfl <;>
          first
          | exact setIndexDozed_preserves _ _ _ _
              ⟨hd, ⟨by dsimp only; omega, by dsimp only; omega⟩, by dsimp only; omega,
                by dsimp only; omega⟩
          | exact addStructure_preserves _ _ _ _ _
              ⟨hd, ⟨by dsimp only; omega, by dsimp only; omega⟩, by dsimp only; omega,
                by dsimp only; omega⟩)
      { gs1 with mCCLocation := ⟨x + 1, y - 1⟩ }
      ⟨hp1.1, hp1.2.1, hp1.2.2.1, fun c hc => Option.some.inj hc⟩
    have hcc : gs2.mCCLocation = ⟨x + 1, y - 1⟩ := hp2.2.2.2 _ rfl
    refine ⟨gs2, ?_, hcc, ?_, ?_, ?_⟩
    · rw [hsplit, runSteps_append, hrun1]
      simp only
      rw [runSteps_append]
      simp only [runSteps]
      exact hrun2
    · rw [hcc]; dsimp only; omega
    · rw [hcc]; dsimp only; omega
    · rw [hcc]; dsimp only; omega

/-- Witness for C27: a seed lander at `(10, 10)` on the freshly built example
map. -/
theorem deploySeedLander_on_map_witness :
    placeStructure.seedLanderAccepted
        ⟨exampleMap, fun _ => none, 0, ⟨0, 0⟩, .STRUCTURE_SEED_LANDER⟩ 10 10 = true ∧
      ∃ gs', GameState.deploySeedLander
          ⟨.UNDER_CONSTRUCTION, .STRUCTURE_ENERGY_PRODUCTION, .CONNECTOR_INTERSECTION⟩
          ⟨.OPERATIONAL, .STRUCTURE_TUBE, .CONNECTOR_INTERSECTION⟩
          ⟨.UNDER_CONSTRUCTION, .STRUCTURE_COMMAND, .CONNECTOR_INTERSECTION⟩
          ⟨.UNDER_CONSTRUCTION, .STRUCTURE_FACTORY, .CONNECTOR_INTERSECTION⟩
          ⟨.UNDER_CONSTRUCTION, .STRUCTURE_SMELTER, .CONNECTOR_INTERSECTION⟩
          ⟨exampleMap, fun _ => none, 0, ⟨0, 0⟩, .STRUCTURE_SEED_LANDER⟩ 10 10 = .ok gs' ∧
        gs'.mCCLocation = ⟨10 + 1, 10 - 1⟩ ∧ gs'.mCCLocation.x ≠ 0 ∧ gs'.mCCLocation.y ≠ 0 ∧
        ¬ (gs'.mCCLocation.x = 0 ∨ gs'.mCCLocation.y = 0) :=
  ⟨exampleMap_seed_site,
    (deploySeedLander_on_map
      ⟨.UNDER_CONSTRUCTION, .STRUCTURE_ENERGY_PRODUCTION, .CONNECTOR_INTERSECTION⟩
      ⟨.OPERATIONAL, .STRUCTURE_TUBE, .CONNECTOR_INTERSECTION⟩
      ⟨.UNDER_CONSTRUCTION, .STRUCTURE_COMMAND, .CONNECTOR_INTERSECTION⟩
      ⟨.UNDER_CONSTRUCTION, .STRUCTURE_FACTORY, .CONNECTOR_INTERSECTION⟩
      ⟨.UNDER_CONSTRUCTION, .STRUCTURE_SMELTER, .CONNECTOR_INTERSECTION⟩
      ⟨exampleMap, fun _ => none, 0, ⟨0, 0⟩, .STRUCTURE_SEED_LANDER⟩ 10 10
      exampleMap_allocated exampleMap_maxDepth_nonneg exampleMap_seed_site).2.2.2⟩

/-- C29 (the code at the failing input): for the storage `(0, 0, 10, 0)`,
which is not empty and whose only stocked slot is slot 2, and every random
generator that keeps to its range, `stealResources` takes the random index 0
of the list of stocked slots as the slot itself: it removes
`min(5, 0) = 0` units from slot 0, pushes a notification for 0 units of
resource 0 and leaves every slot as it was; for an empty storage nothing
changes and no notification is pushed. -/
theorem stealResources_wrong_slot :
    StorableResources.isEmpty ⟨[0, 0, 10, 0]⟩ = false ∧
    StorableResources.getIndicesWithStock ⟨[0, 0, 10, 0]⟩ = [2] ∧
    (∀ generate : Int → Int → Int,
      (∀ lo hi, lo ≤ hi → lo ≤ generate lo hi ∧ generate lo hi ≤ hi) →
      CrimeExecution.stealResources generate ⟨[0, 0, 10, 0]⟩ =
        .ok (⟨[0, 0, 10, 0]⟩, some (0, 0))) ∧
    (∀ (generate : Int → Int → Int) (storage : StorableResources),
      storage.isEmpty = true →
      CrimeExecution.stealResources generate storage = .ok (storage, none)) := by
  refine ⟨by decide, by decide, ?_, ?_⟩
  · intro generate hrange
    have h0 : generate 0 0 = 0 := by
      have := hrange 0 0 (le_refl 0)
      omega
    have hlen : ((StorableResources.getIndicesWithStock ⟨[0, 0, 10, 0]⟩).length : Int) - 1 = 0 := by
      decide
    unfold CrimeExecution.stealResources
    simp only [hlen, h0]
    rfl
  · intro generate storage hempty
    unfold CrimeExecution.stealResources
    rw [hempty]
    rfl

theorem buildTables_initial (text : NameConstant → String) (hinj : Function.Injective text) :
    StructureTranslator.initial.buildTables text =
      ⟨[(text .AGRIDOME, .SID_AGRIDOME), (text .AIR_SHAFT, .SID_AIR_SHAFT),
          (text .CHAP, .SID_CHAP), (text .COMMAND_CENTER, .SID_COMMAND_CENTER),
          (text .MINE_FACILITY, .SID_MINE_FACILITY), (text .SEED_FACTORY, .SID_SEED_FACTORY),
          (text .SEED_LANDER, .SID_SEED_LANDER), (text .SEED_POWER, .SID_SEED_POWER),
          (text .SEED_SMELTER, .SID_SEED_SMELTER),
          (text .AG_TUBE_INTERSECTION, .SID_TUBE_INTERSECTION),
          (text .UG_TUBE_INTERSECTION, .SID_TUBE_INTERSECTION),
          (text .AG_TUBE_RIGHT, .SID_TUBE_RIGHT), (text .UG_TUBE_RIGHT, .SID_TUBE_RIGHT),
          (text .AG_TUBE_LEFT, .SID_TUBE_LEFT), (text .UG_TUBE_LEFT, .SID_TUBE_LEFT)],
        [(.SID_AGRIDOME, text .AGRIDOME), (.SID_AIR_SHAFT, text .AIR_SHAFT),
          (.SID_CHAP, text .CHAP), (.SID_COMMAND_CENTER, text .COMMAND_CENTER),
          (.SID_MINE_FACILITY, text .MINE_FACILITY), (.SID_SEED_FACTORY, text .SEED_FACTORY),
          (.SID_SEED_LANDER, text .SEED_LANDER), (.SID_SEED_POWER, text .SEED_POWER),
          (.SID_SEED_SMELTER, text .SEED_SMELTER),
          (.SID_TUBE_INTERSECTION, text .AG_TUBE_INTERSECTION),
          (.SID_TUBE_RIGHT, text .AG_TUBE_RIGHT), (.SID_TUBE_LEFT, text .AG_TUBE_LEFT)]⟩ := by
  simp [StructureTranslator.buildTables, StructureTranslator.initial, mapAssign, hinj.eq_iff]
theorem exampleNames_injective : Function.Injective exampleNames := by
  intro a b h
  cases a <;> cases b <;> first | rfl | exact absurd h (by decide)

set_option maxHeartbeats 1000000 in
theorem find_text (text : NameConstant → String) (hinj : Function.Injective text)
    (c : NameConstant) :
    mapFind (StructureTranslator.initial.buildTables text)._stringToStructureTable (text c) =
      some c.structureID := by
  rw [buildTables_initial text hinj]
  cases c <;> simp [mapFind, List.find?, hinj.eq_iff, NameConstant.structureID]

theorem find_unregistered (text : NameConstant → String) (hinj : Function.Injective text)
    (s : String) (hs : ∀ c, text c ≠ s) :
    mapFind (StructureTranslator.initial.buildTables text)._stringToStructureTable s = none := by
  rw [buildTables_initial text hinj]
  simp [mapFind, List.find?, hs]

set_option maxHeartbeats 1000000 in
theorem find_id (text : NameConstant → String) (hinj : Function.Injective text)
    (id : StructureID) :
    mapFind (StructureTranslator.initial.buildTables text)._structureToStringTable id =
      (StructureTranslator.nameOf id).map text := by
  rw [buildTables_initial text hinj]
  cases id <;> simp [mapFind, List.find?, StructureTranslator.nameOf]

theorem built_tables_nonempty (text : NameConstant → String) (hinj : Function.Injective text) :
    (StructureTranslator.initial.buildTables text)._stringToStructureTable.isEmpty = false ∧
      (StructureTranslator.initial.buildTables text)._structureToStringTable.isEmpty = false := by
  rw [buildTables_initial text hinj]
  exact ⟨rfl, rfl⟩

theorem translateFromString_eq (text : NameConstant → String) (hinj : Function.Injective text)
    (st : StructureTranslator)
    (hst : st = StructureTranslator.initial ∨
      st = StructureTranslator.initial.buildTables text) (s : String) :
    StructureTranslator.translateFromString text st s =
      ((match mapFind (StructureTranslator.initial.buildTables text)._stringToStructureTable s
          with
        | none => StructureID.SID_NONE
        | some id => id), StructureTranslator.initial.buildTables text) := by
  have hst1 : (if st._stringToStructureTable.isEmpty then st.buildTables text else st) =
      StructureTranslator.initial.buildTables text := by
    rcases hst with rfl | rfl
    · rfl
    · rw [(built_tables_nonempty text hinj).1]
      rfl
  unfold StructureTranslator.translateFromString
  simp only [hst1]
  cases mapFind (StructureTranslator.initial.buildTables text)._stringToStructureTable s <;> rfl

theorem translateToString_eq (text : NameConstant → String) (hinj : Function.Injective text)
    (st : StructureTranslator)
    (hst : st = StructureTranslator.initial ∨
      st = StructureTranslator.initial.buildTables text) (id : StructureID) :
    StructureTranslator.translateToString text st id =
      ((match mapFind (StructureTranslator.initial.buildTables text)._structureToStringTable id
          with
        | none => ""
        | some name => name), StructureTranslator.initial.buildTables text) := by
  have hst1 : (if st._structureToStringTable.isEmpty then st.buildTables text else st) =
      StructureTranslator.initial.buildTables text := by
    rcases hst with rfl | rfl
    · rfl
    · rw [(built_tables_nonempty text hinj).2]
      rfl
  unfold StructureTranslator.translateToString
  simp only [hst1]
  cases mapFind (StructureTranslator.initial.buildTables text)._structureToStringTable id <;> rfl

/-- C30: when the name constants have pairwise distinct values and the tables
are in their initial (empty) or built state, then
`translateFromString(translateToString(id)) = id` for every `StructureID`
registered by `buildTables`; `translateFromString(s) = SID_NONE` for every
string `s` that is not a registered name; and
`translateToString(translateFromString(s))` is the above-ground name of the
same structure for every registered name `s`, which is `s` itself for an
above-ground name and differs from `s` for the three underground tube names. -/
theorem structureTranslator_round_trip (text : NameConstant → String)
    (hinj : Function.Injective text) (st : StructureTranslator)
    (hst : st = StructureTranslator.initial ∨
      st = StructureTranslator.initial.buildTables text) :
    (∀ id ∈ StructureTranslator.registeredIds,
      (StructureTranslator.translateFromString text
        (StructureTranslator.translateToString text st id).2
        (StructureTranslator.translateToString text st id).1).1 = id) ∧
    (∀ s : String, (∀ c, text c ≠ s) →
      (StructureTranslator.translateFromString text st s).1 = .SID_NONE) ∧
    (∀ c : NameConstant,
      (StructureTranslator.translateToString text
        (StructureTranslator.translateFromString text st (text c)).2
        (StructureTranslator.translateFromString text st (text c)).1).1 =
          text c.aboveGround) ∧
    (∀ c : NameConstant, c.isUnderground = false → text c.aboveGround = text c) ∧
    (∀ c : NameConstant, c.isUnderground = true → text c.aboveGround ≠ text c) := by
  refine ⟨?_, ?_, ?_, ?_, ?_⟩
  · intro id hid
    have hname : ∃ c, StructureTranslator.nameOf id = some c ∧ c.structureID = id := by
      simp only [StructureTranslator.registeredIds, List.mem_cons, List.mem_singleton,
        List.not_mem_nil, or_false] at hid
      rcases hid with rfl | rfl | rfl | rfl | rfl | rfl | rfl | rfl | rfl | rfl | rfl | rfl <;>
        exact ⟨_, rfl, rfl⟩
    obtain ⟨c, hc, hcid⟩ := hname
    rw [translateToString_eq text hinj st hst id, find_id text hinj id, hc]
    simp only [Option.map_some']
    rw [translateFromString_eq text hinj _ (Or.inr rfl), find_text text hinj c]
    exact hcid
  · intro s hs
    rw [translateFromString_eq text hinj st hst s, find_unregistered text hinj s hs]
  · intro c
    rw [translateFromString_eq text hinj st hst, find_text text hinj c]
    simp only
    rw [translateToString_eq text hinj _ (Or.inr rfl), find_id text hinj]
    cases c <;> rfl
  · intro c hc
    cases c <;> first | rfl | exact absurd hc (by decide)
  · intro c hc heq
    have := hinj heq
    cases c <;> first | exact absurd hc (by decide) | exact absurd this (by decide)

/-- Witness for C30: the example names and the initial tables. -/
theorem structureTranslator_round_trip_witness :
    (∀ id ∈ StructureTranslator.registeredIds,
      (StructureTranslator.translateFromString exampleNames
        (StructureTranslator.translateToString exampleNames StructureTranslator.initial id).2
        (StructureTranslator.translateToString exampleNames StructureTranslator.initial
          id).1).1 = id) ∧
    (∀ s : String, (∀ c, exampleNames c ≠ s) →
      (StructureTranslator.translateFromString exampleNames StructureTranslator.initial s).1 =
        .SID_NONE) ∧
    (∀ c : NameConstant,
      (StructureTranslator.translateToString exampleNames
        (StructureTranslator.translateFromString exampleNames StructureTranslator.initial
          (exampleNames c)).2
        (StructureTranslator.translateFromString exampleNames StructureTranslator.initial
          (exampleNames c)).1).1 = exampleNames c.aboveGround) ∧
    (∀ c : NameConstant, c.isUnderground = false →
      exampleNames c.aboveGround = exampleNames c) ∧
    (∀ c : NameConstant, c.isUnderground = true →
      exampleNames c.aboveGround ≠ exampleNames c) :=
  structureTranslator_round_trip exampleNames exampleNames_injective
    StructureTranslator.initial (Or.inl rfl)

end OPHD
